import Mathlib

/-!
# osg::KdTree — build and segment query

A shallow embedding of `src/osg/KdTree.cpp`.

* Single-precision floats are replaced by an arbitrary linearly ordered field `α`
  (exact arithmetic); every definition is executable at `α := ℚ`.
* `int` / `unsigned int` values are `Int` / `Nat`; the container sizes involved are far
  below `2^31`, so no wrap-around is modelled.
* `std::vector` is `List`; `v[i]` reads `List.getD` (an out-of-range read, undefined in C++,
  yields a default value).
* `osg::Vec3`, `osg::BoundingBox`, `KdNode`, `addNode`, `getNode` come from headers that are
  not part of the translated file; they are modelled below.
-/

namespace osg

/-! ## Vectors and boxes -/

/-- Three-component vector `osg::Vec3`. -/
structure Vec3 (α : Type) where
  x : α
  y : α
  z : α
deriving DecidableEq, Repr

namespace Vec3

variable {α : Type} [LinearOrderedField α]

/-- The zero vector, used as the default of out-of-range reads. -/
def zero : Vec3 α := ⟨0, 0, 0⟩

/-- Component access `v[a]` (axis 0 = x, 1 = y, otherwise z). -/
def get (v : Vec3 α) (a : Nat) : α :=
  if a = 0 then v.x else if a = 1 then v.y else v.z

/-- Component assignment `v[a] = c`. -/
def set (v : Vec3 α) (a : Nat) (c : α) : Vec3 α :=
  if a = 0 then ⟨c, v.y, v.z⟩ else if a = 1 then ⟨v.x, c, v.z⟩ else ⟨v.x, v.y, c⟩

/-- Vector sum `v + w`. -/
def add (v w : Vec3 α) : Vec3 α := ⟨v.x + w.x, v.y + w.y, v.z + w.z⟩

/-- Vector difference `v - w`. -/
def sub (v w : Vec3 α) : Vec3 α := ⟨v.x - w.x, v.y - w.y, v.z - w.z⟩

/-- Scaling `v * f`. -/
def scale (v : Vec3 α) (f : α) : Vec3 α := ⟨v.x * f, v.y * f, v.z * f⟩

/-- Division by a scalar `v / f`. -/
def divide (v : Vec3 α) (f : α) : Vec3 α := ⟨v.x / f, v.y / f, v.z / f⟩

/-- Dot product `v * w`. -/
def dot (v w : Vec3 α) : α := v.x * w.x + v.y * w.y + v.z * w.z

/-- Cross product `v ^ w`. -/
def cross (v w : Vec3 α) : Vec3 α :=
  ⟨v.y * w.z - v.z * w.y, v.z * w.x - v.x * w.z, v.x * w.y - v.y * w.x⟩

end Vec3

/-- Largest finite single-precision value, `FLT_MAX`. -/
def FLT_MAX {α : Type} [LinearOrderedField α] : α := 340282346638528859811704183484516925440

/-- Modelled from the spec: `osg::BoundingBox` (header `osg/BoundingBox`, not among the
translated sources): two corner points `_min`, `_max`. -/
structure BoundingBox (α : Type) where
  _min : Vec3 α
  _max : Vec3 α
deriving DecidableEq, Repr

namespace BoundingBox

variable {α : Type} [LinearOrderedField α]

/-- Modelled from the spec: `init()` / default construction of `osg::BoundingBox` yields the
invalid box; the spec's `+∞` / `−∞` are the extreme finite values `FLT_MAX` / `-FLT_MAX`. -/
def init : BoundingBox α :=
  ⟨⟨FLT_MAX, FLT_MAX, FLT_MAX⟩, ⟨-FLT_MAX, -FLT_MAX, -FLT_MAX⟩⟩

/-- Modelled from the spec: `valid()` of `osg::BoundingBox`: `min ≤ max` on every axis. -/
def valid (bb : BoundingBox α) : Bool :=
  decide (bb._min.x ≤ bb._max.x) && decide (bb._min.y ≤ bb._max.y) &&
    decide (bb._min.z ≤ bb._max.z)

/-- Modelled from the spec: `expandBy(point)` of `osg::BoundingBox`: component-wise
min / max with the point. -/
def expandBy (bb : BoundingBox α) (v : Vec3 α) : BoundingBox α :=
  ⟨⟨if v.x < bb._min.x then v.x else bb._min.x,
    if v.y < bb._min.y then v.y else bb._min.y,
    if v.z < bb._min.z then v.z else bb._min.z⟩,
   ⟨if v.x > bb._max.x then v.x else bb._max.x,
    if v.y > bb._max.y then v.y else bb._max.y,
    if v.z > bb._max.z then v.z else bb._max.z⟩⟩

/-- Modelled from the spec: `expandBy(other)` of `osg::BoundingBox`: the union; an invalid
(empty) `other` contributes nothing. -/
def expandByBox (bb other : BoundingBox α) : BoundingBox α :=
  if other.valid then
    ⟨⟨if other._min.x < bb._min.x then other._min.x else bb._min.x,
      if other._min.y < bb._min.y then other._min.y else bb._min.y,
      if other._min.z < bb._min.z then other._min.z else bb._min.z⟩,
     ⟨if other._max.x > bb._max.x then other._max.x else bb._max.x,
      if other._max.y > bb._max.y then other._max.y else bb._max.y,
      if other._max.z > bb._max.z then other._max.z else bb._max.z⟩⟩
  else bb

/-- Modelled from the spec: `center()` of `osg::BoundingBox`: the midpoint. -/
def center (bb : BoundingBox α) : Vec3 α := (bb._min.add bb._max).scale (1 / 2)

end BoundingBox

/-! ## Tree data -/

/-- A triangle `KdTree::Triangle`: three vertex indices. -/
structure Triangle where
  _p1 : Nat
  _p2 : Nat
  _p3 : Nat
deriving DecidableEq, Repr

/-- A node `KdTree::KdNode`: for a leaf `first < 0` and the slice of primitive indices
starts at `-first-1` and has `second` entries; otherwise `first`, `second` are child
handles, `0` meaning that the child is absent. -/
structure KdNode (α : Type) where
  first : Int
  second : Int
  bb : BoundingBox α
deriving DecidableEq, Repr

/-- The two-argument constructor `KdNode(f, s)`; its box is default constructed. -/
def KdNode.mk2 {α : Type} [LinearOrderedField α] (f s : Int) : KdNode α :=
  ⟨f, s, BoundingBox.init⟩

/-- The options `KdTree::BuildOptions`. -/
structure BuildOptions where
  _numVerticesProcessed : Nat
  _targetNumTrianglesPerLeaf : Nat
  _maxNumLevels : Nat
deriving DecidableEq, Repr

/-- The defaults set by `BuildOptions::BuildOptions()`. -/
def BuildOptions.default : BuildOptions := ⟨0, 2, 32⟩

/-- What `Geometry::getVertexArray()` may point to: a `Vec3Array` or an array of another
element type (of which only the size is kept). -/
inductive ArrayData (α : Type) where
  | vec3Array (vertices : List (Vec3 α))
  | otherArray (size : Nat)
deriving DecidableEq, Repr

/-- The part of `osg::Geometry` that `KdTree::build` reads: the vertex array (absent =
`none`), the bound returned by `getBound()`, and the sequence of index triples that
`accept` feeds to a `TriangleIndexFunctor`. -/
structure Geometry (α : Type) where
  getVertexArray : Option (ArrayData α)
  getBound : BoundingBox α
  triangleStream : List (Nat × Nat × Nat)
deriving DecidableEq, Repr

/-- The member data of `osg::KdTree`. -/
structure KdTree (α : Type) where
  _geometry : Option (Geometry α)
  _bb : BoundingBox α
  _axisStack : List Nat
  _kdNodes : List (KdNode α)
  _vertices : Option (List (Vec3 α))
  _primitiveIndices : List Nat
  _triangles : List Triangle
  _centers : List (Vec3 α)
deriving DecidableEq, Repr

section Build

variable {α : Type} [LinearOrderedField α]

/-- A tree as left by `KdTree::KdTree()`. -/
def KdTree.empty : KdTree α := ⟨none, BoundingBox.init, [], [], none, [], [], []⟩

/-- Element read `(*_vertices)[p]`. -/
def vertexAt (vertices : List (Vec3 α)) (p : Nat) : Vec3 α := vertices.getD p Vec3.zero

/-- Member `getNode(nodeNum)`: `_kdNodes[nodeNum]`. -/
def getNode (nodes : List (KdNode α)) (nodeNum : Int) : KdNode α :=
  nodes.getD nodeNum.toNat (KdNode.mk2 0 0)

/-- Member `addNode(node)`: appends and returns the new handle. -/
def addNode (nodes : List (KdNode α)) (node : KdNode α) : List (KdNode α) × Int :=
  (nodes ++ [node], (nodes.length : Int))

/-- The functor call `TriangleIndicesCollector::operator()(p1, p2, p3)`. -/
def TriangleIndicesCollector.call (t : KdTree α) (p1 p2 p3 : Nat) : KdTree α :=
  let i := t._triangles.length
  let vs := t._vertices.getD []
  let bb := ((BoundingBox.init.expandBy (vertexAt vs p1)).expandBy (vertexAt vs p2)).expandBy
    (vertexAt vs p3)
  { t with
    _triangles := t._triangles ++ [⟨p1, p2, p3⟩]
    _centers := t._centers ++ [bb.center]
    _primitiveIndices := t._primitiveIndices ++ [i] }

/-- The loop of `KdTree::computeDivisions`: `n` further levels from the extents `dimensions`. -/
def computeDivisionsLoop : Nat → Vec3 α → List Nat → List Nat
  | 0, _, axisStack => axisStack
  | n + 1, dimensions, axisStack =>
    let axis : Nat :=
      if dimensions.get 0 ≥ dimensions.get 1 then
        (if dimensions.get 0 ≥ dimensions.get 2 then 0 else 2)
      else if dimensions.get 1 ≥ dimensions.get 2 then 1
      else 2
    computeDivisionsLoop n (dimensions.set axis (dimensions.get axis / 2)) (axisStack ++ [axis])

/-- Member `KdTree::computeDivisions(options)`. -/
def KdTree.computeDivisions (options : BuildOptions) (t : KdTree α) : KdTree α :=
  let dimensions : Vec3 α :=
    ⟨t._bb._max.x - t._bb._min.x, t._bb._max.y - t._bb._min.y, t._bb._max.z - t._bb._min.z⟩
  { t with _axisStack := computeDivisionsLoop options._maxNumLevels dimensions t._axisStack }

end Build

/-! ## The builder -/

section Divide

variable {α : Type} [LinearOrderedField α]

/-- The centre coordinate `_centers[_primitiveIndices[i]][axis]`. -/
def centerAt (centers : List (Vec3 α)) (prims : List Nat) (i : Int) (axis : Nat) : α :=
  (centers.getD (prims.getD i.toNat 0) Vec3.zero).get axis

/-- The exchange `std::swap(_primitiveIndices[left], _primitiveIndices[right])`. -/
def swapPrims (prims : List Nat) (left right : Int) : List Nat :=
  (prims.set left.toNat (prims.getD right.toNat 0)).set right.toNat (prims.getD left.toNat 0)

/-- The inner loop `while(left<right && centre[left] <= mid) ++left`; returns `left`. -/
def advanceLeft (centers : List (Vec3 α)) (prims : List Nat) (axis : Nat) (mid : α)
    (left right : Int) : Int :=
  if left < right ∧ centerAt centers prims left axis ≤ mid then
    advanceLeft centers prims axis mid (left + 1) right
  else left
termination_by (right - left).toNat
decreasing_by omega

/-- The inner loop `while(left<right && centre[right] > mid) --right`; returns `right`. -/
def retreatRight (centers : List (Vec3 α)) (prims : List Nat) (axis : Nat) (mid : α)
    (left right : Int) : Int :=
  if left < right ∧ centerAt centers prims right axis > mid then
    retreatRight centers prims axis mid left (right - 1)
  else right
termination_by (right - left).toNat
decreasing_by omega

/-- The left scan never moves `left` backwards (used for termination of the outer loop). -/
theorem le_advanceLeft (centers : List (Vec3 α)) (prims : List Nat)
    (axis : Nat) (mid : α) (left right : Int) :
    left ≤ advanceLeft centers prims axis mid left right := by
  induction left, right using advanceLeft.induct centers prims axis mid with
  | case1 left right h ih => rw [advanceLeft, if_pos h]; omega
  | case2 left right h => rw [advanceLeft, if_neg h]

/-- The right scan never moves `right` forwards (used for termination of the outer loop). -/
theorem retreatRight_le (centers : List (Vec3 α)) (prims : List Nat)
    (axis : Nat) (mid : α) (left right : Int) :
    retreatRight centers prims axis mid left right ≤ right := by
  induction right using retreatRight.induct centers prims axis mid left with
  | case1 right h ih => rw [retreatRight, if_pos h]; omega
  | case2 right h => rw [retreatRight, if_neg h]

/-- The outer loop `while(left<right) { ... }` of the partition in `KdTree::divide`
(the right scan is written twice in the source); returns the indices and `left`, `right`. -/
def partitionLoop (centers : List (Vec3 α)) (axis : Nat) (mid : α) (prims : List Nat)
    (left right : Int) : List Nat × Int × Int :=
  if left < right then
    let left1 := advanceLeft centers prims axis mid left right
    let right1 := retreatRight centers prims axis mid left1 right
    let right2 := retreatRight centers prims axis mid left1 right1
    if left1 < right2 then
      partitionLoop centers axis mid (swapPrims prims left1 right2) (left1 + 1) (right2 - 1)
    else
      partitionLoop centers axis mid prims left1 right2
  else (prims, left, right)
termination_by (right - left).toNat
decreasing_by
  · have h1 : left ≤ left1 := le_advanceLeft centers prims axis mid left right
    have h2 : right1 ≤ right := retreatRight_le centers prims axis mid left1 right
    have h3 : right2 ≤ right1 := retreatRight_le centers prims axis mid left1 right1
    simp only [right2, right1, left1] at *
    omega
  · simp only [right2, right1, left1] at *
    omega

/-- The whole partition block of `KdTree::divide`: the outer loop followed by the
classification of the last index when `left==right`. -/
def partitionPrims (centers : List (Vec3 α)) (axis : Nat) (mid : α) (prims : List Nat)
    (istart iend : Int) : List Nat × Int × Int :=
  let loop := partitionLoop centers axis mid prims istart iend
  let left := loop.2.1
  let right := loop.2.2
  if left = right then
    if centerAt centers loop.1 left axis ≤ mid then (loop.1, left + 1, right)
    else (loop.1, left, right - 1)
  else (loop.1, left, right)

/-- The `for(int i=istart; i<=iend; ++i)` loop that recomputes a leaf box, with `n`
iterations left: three `expandBy` calls, then the six epsilon updates, per triangle. -/
def leafBoundLoop (vertices : List (Vec3 α)) (triangles : List Triangle) (prims : List Nat) :
    Nat → Int → BoundingBox α → BoundingBox α
  | 0, _, bb => bb
  | n + 1, i, bb =>
    let tri := triangles.getD (prims.getD i.toNat 0) ⟨0, 0, 0⟩
    let v1 := vertexAt vertices tri._p1
    let v2 := vertexAt vertices tri._p2
    let v3 := vertexAt vertices tri._p3
    let bb1 := ((bb.expandBy v1).expandBy v2).expandBy v3
    let epsilon : α := 1 / 1000000
    let bb2 : BoundingBox α :=
      ⟨⟨bb1._min.x - epsilon, bb1._min.y - epsilon, bb1._min.z - epsilon⟩,
       ⟨bb1._max.x + epsilon, bb1._max.y + epsilon, bb1._max.z + epsilon⟩⟩
    leafBoundLoop vertices triangles prims n (i + 1) bb2

/-- The leaf branch of `KdTree::divide` (`!needToDivide`, `node.first<0`): the node with
its box recomputed from the triangles of its slice. -/
def finalizeLeaf (vertices : List (Vec3 α)) (triangles : List Triangle) (prims : List Nat)
    (node : KdNode α) : KdNode α :=
  let istart := -node.first - 1
  let iend := istart + node.second - 1
  { node with
    bb := leafBoundLoop vertices triangles prims (iend + 1 - istart).toNat istart
      BoundingBox.init }

/-- The state `KdTree::divide` works on: the node pool, the primitive indices, the box
passed by reference, and (ghost) the log of `(nodeIndex, level)` of every entry. -/
structure DivideState (α : Type) where
  _kdNodes : List (KdNode α)
  _primitiveIndices : List Nat
  bb : BoundingBox α
  calls : List (Int × Nat)

/-- Assignment through `getNode(nodeIndex)`. -/
def modifyNode (nodes : List (KdNode α)) (nodeIndex : Int) (f : KdNode α → KdNode α) :
    List (KdNode α) :=
  nodes.set nodeIndex.toNat (f (getNode nodes nodeIndex))

/-- The allocation of the child leaves in `KdTree::divide`: the pool and
`originalLeftChildIndex`, `originalRightChildIndex`. -/
def allocChildren (nodes : List (KdNode α)) (leftLeaf rightLeaf : KdNode α) :
    List (KdNode α) × Int × Int :=
  if leftLeaf.second ≤ 0 then
    let r := addNode nodes rightLeaf
    (r.1, 0, r.2)
  else if rightLeaf.second ≤ 0 then
    let l := addNode nodes leftLeaf
    (l.1, l.2, 0)
  else
    let l := addNode nodes leftLeaf
    let r := addNode l.1 rightLeaf
    (r.1, l.2, r.2)

/-- The end of the dividing branch of `KdTree::divide`: the child handles are stored in
the node and its box becomes the union of the boxes of the present children. -/
def linkChildren (nodes : List (KdNode α)) (nodeIndex leftChildIndex rightChildIndex : Int) :
    List (KdNode α) :=
  let nodes1 := modifyNode nodes nodeIndex (fun n => { n with first := leftChildIndex })
  let nodes2 := modifyNode nodes1 nodeIndex (fun n => { n with second := rightChildIndex })
  let nodes3 := modifyNode nodes2 nodeIndex (fun n => { n with bb := BoundingBox.init })
  let nodes4 :=
    if leftChildIndex ≠ 0 then
      modifyNode nodes3 nodeIndex
        (fun n => { n with bb := n.bb.expandByBox (getNode nodes3 leftChildIndex).bb })
    else nodes3
  if rightChildIndex ≠ 0 then
    modifyNode nodes4 nodeIndex
      (fun n => { n with bb := n.bb.expandByBox (getNode nodes4 rightChildIndex).bb })
  else nodes4

/-- Member `KdTree::divide(options, bb, nodeIndex, level)`. The read-only members
`_axisStack`, `_vertices`, `_triangles`, `_centers` and the option
`_targetNumTrianglesPerLeaf` are parameters; the result is the new state and the
returned handle. -/
def KdTree.divide (targetNumTrianglesPerLeaf : Nat) (axisStack : List Nat)
    (vertices : List (Vec3 α)) (triangles : List Triangle) (centers : List (Vec3 α))
    (st0 : DivideState α) (nodeIndex : Int) (level : Nat) : DivideState α × Int :=
  let st : DivideState α := { st0 with calls := st0.calls ++ [(nodeIndex, level)] }
  let node := getNode st._kdNodes nodeIndex
  if needToDivide : level < axisStack.length ∧
      (node.first < 0 ∧ node.second > (targetNumTrianglesPerLeaf : Int)) then
    let axis := axisStack.getD level 0
    if node.first < 0 then
      let istart := -node.first - 1
      let iend := istart + node.second - 1
      let original_min := st.bb._min.get axis
      let original_max := st.bb._max.get axis
      let mid := (original_min + original_max) * (1 / 2)
      let part := partitionPrims centers axis mid st._primitiveIndices istart iend
      let left := part.2.1
      let right := part.2.2
      let leftLeaf : KdNode α := KdNode.mk2 (-istart - 1) ((right - istart) + 1)
      let rightLeaf : KdNode α := KdNode.mk2 (-left - 1) ((iend - left) + 1)
      let alloc := allocChildren st._kdNodes leftLeaf rightLeaf
      let originalLeftChildIndex := alloc.2.1
      let originalRightChildIndex := alloc.2.2
      let st1 : DivideState α := { st with _kdNodes := alloc.1, _primitiveIndices := part.1 }
      let restore := st1.bb._max.get axis
      let st2 : DivideState α := { st1 with bb := ⟨st1.bb._min, st1.bb._max.set axis mid⟩ }
      let l : DivideState α × Int :=
        if originalLeftChildIndex ≠ 0 then
          KdTree.divide targetNumTrianglesPerLeaf axisStack vertices triangles centers st2
            originalLeftChildIndex (level + 1)
        else (st2, 0)
      let leftChildIndex := l.2
      let st3 : DivideState α := { l.1 with bb := ⟨l.1.bb._min, l.1.bb._max.set axis restore⟩ }
      let restore2 := st3.bb._min.get axis
      let st4 : DivideState α := { st3 with bb := ⟨st3.bb._min.set axis mid, st3.bb._max⟩ }
      let r : DivideState α × Int :=
        if originalRightChildIndex ≠ 0 then
          KdTree.divide targetNumTrianglesPerLeaf axisStack vertices triangles centers st4
            originalRightChildIndex (level + 1)
        else (st4, 0)
      let rightChildIndex := r.2
      let st5 : DivideState α := { r.1 with bb := ⟨r.1.bb._min.set axis restore2, r.1.bb._max⟩ }
      ({ st5 with _kdNodes := linkChildren st5._kdNodes nodeIndex leftChildIndex rightChildIndex },
        nodeIndex)
    else
      (st, nodeIndex)
  else
    if node.first < 0 then
      let nodes1 := modifyNode st._kdNodes nodeIndex
        (fun n => finalizeLeaf vertices triangles st._primitiveIndices n)
      ({ st with _kdNodes := nodes1 }, nodeIndex)
    else (st, nodeIndex)
termination_by axisStack.length - level
decreasing_by
  all_goals omega

/-- The call `geometry->accept(collectTriangleIndices)`: the collector is called once for
every index triple of the geometry, in order. -/
def Geometry.accept (geometry : Geometry α) (t : KdTree α) : KdTree α :=
  geometry.triangleStream.foldl
    (fun tree p => TriangleIndicesCollector.call tree p.1 p.2.1 p.2.2) t

/-- The state reached in `KdTree::build` on return from its call of `divide`, for a
geometry whose vertex array is the `Vec3Array` `vertices`: members set, divisions
computed, triangles collected, root leaf added, `divide` run from the root at level 0. -/
def KdTree.buildDivide (options : BuildOptions) (geometry : Geometry α)
    (vertices : List (Vec3 α)) (t : KdTree α) : KdTree α × DivideState α :=
  let t1 : KdTree α :=
    { t with _geometry := some geometry, _bb := geometry.getBound, _vertices := some vertices }
  let t2 := t1.computeDivisions options
  let t3 := geometry.accept t2
  let node : KdNode α := { (KdNode.mk2 (-1) t3._primitiveIndices.length : KdNode α) with bb := t3._bb }
  let added := addNode t3._kdNodes node
  let nodeNum := added.2
  let bb := t3._bb
  let d := KdTree.divide options._targetNumTrianglesPerLeaf t3._axisStack vertices
    t3._triangles t3._centers ⟨added.1, t3._primitiveIndices, bb, []⟩ nodeNum 0
  ({ t3 with _kdNodes := d.1._kdNodes, _primitiveIndices := d.1._primitiveIndices }, d.1)

/-- Member `KdTree::build(options, geometry)` run on the tree `t`: the returned flag, the
tree and the options afterwards. -/
def KdTree.build (options : BuildOptions) (geometry : Geometry α) (t : KdTree α) :
    Bool × KdTree α × BuildOptions :=
  match geometry.getVertexArray with
  | some (ArrayData.vec3Array vertices) =>
    if vertices.length ≤ options._targetNumTrianglesPerLeaf then (false, t, options)
    else
      let options1 : BuildOptions :=
        { options with
          _numVerticesProcessed := options._numVerticesProcessed + vertices.length }
      let t4 := (KdTree.buildDivide options geometry vertices t).1
      (!t4._kdNodes.isEmpty, t4, options1)
  | _ => (false, t, options)

end Divide

/-! ## The query -/

/-- Modelled from the spec: the ray data `KdTree::RayData` (header `osg/KdTree`, not among
the translated sources) handed to the recursive `intersect`: origin, direction, length of
the segment and its inverse, the four fields that the leaf loop reads. -/
structure RayData (α : Type) where
  _s : Vec3 α
  _d : Vec3 α
  _length : α
  _inverse_length : α
deriving DecidableEq, Repr

/-- Modelled from the spec: the record `KdTree::LineSegmentIntersection` (header
`osg/KdTree`, not among the translated sources), with the fields that the leaf loop
assigns. The sink `LineSegmentIntersections` is the list of the records inserted so far:
`insert` adds one record, `size()` is the number of records. -/
structure LineSegmentIntersection (α : Type) where
  ratio : α
  primitiveIndex : Nat
  intersectionPoint : Vec3 α
  intersectionNormal : Vec3 α
  indexList : List Nat
  ratioList : List α
deriving DecidableEq, Repr

section Query

variable {α : Type} [LinearOrderedField α]

/-- One of the three blocks of `KdTree::intersectAndClip`, for the axis `a`: the flag is
`false` where the source returns `false`; otherwise `s`, `e` are clipped to the slab. -/
def clipAxis (a : Nat) (s e : Vec3 α) (bb : BoundingBox α) : Bool × Vec3 α × Vec3 α :=
  if s.get a ≤ e.get a then
    if e.get a < bb._min.get a then (false, s, e)
    else if s.get a > bb._max.get a then (false, s, e)
    else
      let s1 :=
        if s.get a < bb._min.get a then
          s.add (((e.sub s).scale (bb._min.get a - s.get a)).divide (e.get a - s.get a))
        else s
      let e1 :=
        if e.get a > bb._max.get a then
          s1.add (((e.sub s1).scale (bb._max.get a - s1.get a)).divide (e.get a - s1.get a))
        else e
      (true, s1, e1)
  else
    if s.get a < bb._min.get a then (false, s, e)
    else if e.get a > bb._max.get a then (false, s, e)
    else
      let e1 :=
        if e.get a < bb._min.get a then
          s.add (((e.sub s).scale (bb._min.get a - s.get a)).divide (e.get a - s.get a))
        else e
      let s1 :=
        if s.get a > bb._max.get a then
          s.add (((e1.sub s).scale (bb._max.get a - s.get a)).divide (e1.get a - s.get a))
        else s
      (true, s1, e1)

/-- Member `KdTree::intersectAndClip(s, e, bb)`: the returned flag and the values of the
reference arguments `s`, `e` afterwards. -/
def intersectAndClip (s e : Vec3 α) (bb : BoundingBox α) : Bool × Vec3 α × Vec3 α :=
  let cx := clipAxis 0 s e bb
  if cx.1 = false then cx
  else
    let cy := clipAxis 1 cx.2.1 cx.2.2 bb
    if cy.1 = false then cy
    else clipAxis 2 cy.2.1 cy.2.2 bb

/-- The edge test of the leaf loop: `true` where the source executes `continue`. -/
def edgeReject (ds d : α) : Bool :=
  if d ≥ 0 then decide (ds < 0) || decide (ds > d)
  else decide (ds > 0) || decide (ds < d)

/-- The body of the leaf loop of `KdTree::intersect` for the triangle `tri` with primitive
index `primitiveIndex`: `none` where the source executes `continue`, otherwise the record
that is inserted. `normalize` stands for `Vec3::normalize`; `in.valid()` (no NaN) always
holds in exact arithmetic. -/
def intersectTriangle (normalize : Vec3 α → Vec3 α) (vertices : List (Vec3 α))
    (rayData : RayData α) (primitiveIndex : Nat) (tri : Triangle) :
    Option (LineSegmentIntersection α) :=
  let v1 := vertexAt vertices tri._p1
  let v2 := vertexAt vertices tri._p2
  let v3 := vertexAt vertices tri._p3
  if v1 = v2 ∨ v2 = v3 ∨ v1 = v3 then none
  else
    let v12 := v2.sub v1
    let n12 := v12.cross rayData._d
    let ds12 := (rayData._s.sub v1).dot n12
    let d312 := (v3.sub v1).dot n12
    if edgeReject ds12 d312 then none
    else
      let v23 := v3.sub v2
      let n23 := v23.cross rayData._d
      let ds23 := (rayData._s.sub v2).dot n23
      let d123 := (v1.sub v2).dot n23
      if edgeReject ds23 d123 then none
      else
        let v31 := v1.sub v3
        let n31 := v31.cross rayData._d
        let ds31 := (rayData._s.sub v3).dot n31
        let d231 := (v2.sub v3).dot n31
        if edgeReject ds31 d231 then none
        else if ds12 ≠ 0 ∧ d312 = 0 then none
        else if ds23 ≠ 0 ∧ d123 = 0 then none
        else if ds31 ≠ 0 ∧ d231 = 0 then none
        else
          let r3 : α := if ds12 = 0 then 0 else ds12 / d312
          let r1 : α := if ds23 = 0 then 0 else ds23 / d123
          let r2 : α := if ds31 = 0 then 0 else ds31 / d231
          let total_r := r1 + r2 + r3
          if total_r ≠ 1 ∧ total_r = 0 then none
          else
            let inv_total_r := 1 / total_r
            let r1n := if total_r ≠ 1 then r1 * inv_total_r else r1
            let r2n := if total_r ≠ 1 then r2 * inv_total_r else r2
            let r3n := if total_r ≠ 1 then r3 * inv_total_r else r3
            let inp := ((v1.scale r1n).add (v2.scale r2n)).add (v3.scale r3n)
            let d := (inp.sub rayData._s).dot rayData._d
            if d < 0 then none
            else if d > rayData._length then none
            else
              let normal := normalize (v12.cross v23)
              let r := d * rayData._inverse_length
              some
                { ratio := r
                  primitiveIndex := primitiveIndex
                  intersectionPoint := inp
                  intersectionNormal := normal
                  indexList := [tri._p1, tri._p2, tri._p3]
                  ratioList := [r1n, r2n, r3n] }

/-- The leaf loop `for(int i=istart; i<iend; ++i)` of `KdTree::intersect` with `n`
iterations left; `intersections.insert` appends to the list of inserted records. -/
def intersectLeafLoop (normalize : Vec3 α → Vec3 α) (vertices : List (Vec3 α))
    (triangles : List Triangle) (prims : List Nat) (rayData : RayData α) :
    Nat → Int → List (LineSegmentIntersection α) → List (LineSegmentIntersection α)
  | 0, _, intersections => intersections
  | n + 1, i, intersections =>
    let tri := triangles.getD (prims.getD i.toNat 0) ⟨0, 0, 0⟩
    match intersectTriangle normalize vertices rayData (prims.getD i.toNat 0) tri with
    | none =>
      intersectLeafLoop normalize vertices triangles prims rayData n (i + 1) intersections
    | some r =>
      intersectLeafLoop normalize vertices triangles prims rayData n (i + 1)
        (intersections ++ [r])

/-- The recursive member `KdTree::intersect(node, rayData, ls, le, intersections)`: the
returned flag and the sink afterwards. The first argument bounds the recursion depth;
`none` means that the bound was reached. -/
def KdTree.intersectNode (normalize : Vec3 α → Vec3 α) (t : KdTree α) :
    Nat → KdNode α → RayData α → Vec3 α → Vec3 α → List (LineSegmentIntersection α) →
      Option (Bool × List (LineSegmentIntersection α))
  | 0, _, _, _, _, _ => none
  | fuel + 1, node, rayData, ls0, le0, intersections =>
    let clip := intersectAndClip ls0 le0 node.bb
    if clip.1 = false then some (false, intersections)
    else
      let ls := clip.2.1
      let le := clip.2.2
      let numIntersectionsBefore := intersections.length
      if node.first < 0 then
        let istart := -node.first - 1
        let iend := istart + node.second
        let out := intersectLeafLoop normalize (t._vertices.getD []) t._triangles
          t._primitiveIndices rayData (iend - istart).toNat istart intersections
        some (decide (numIntersectionsBefore ≠ out.length), out)
      else
        let afterFirst : Option (List (LineSegmentIntersection α)) :=
          if node.first > 0 then
            (KdTree.intersectNode normalize t fuel (getNode t._kdNodes node.first) rayData ls le
              intersections).map Prod.snd
          else some intersections
        match afterFirst with
        | none => none
        | some out1 =>
          let afterSecond : Option (List (LineSegmentIntersection α)) :=
            if node.second > 0 then
              (KdTree.intersectNode normalize t fuel (getNode t._kdNodes node.second) rayData
                ls le out1).map Prod.snd
            else some out1
          match afterSecond with
          | none => none
          | some out2 => some (decide (numIntersectionsBefore ≠ out2.length), out2)

/-- Member `KdTree::intersect(start, end, intersections)`; `rayData` is the value of
`RayData rayData(start,end)`. The recursion is bounded by the number of nodes. -/
def KdTree.intersect (normalize : Vec3 α → Vec3 α) (t : KdTree α) (rayData : RayData α)
    (start end_ : Vec3 α) (intersections : List (LineSegmentIntersection α)) :
    Option (Bool × List (LineSegmentIntersection α)) :=
  KdTree.intersectNode normalize t t._kdNodes.length (getNode t._kdNodes 0) rayData start end_
    intersections

/-- The reference query: the triangle test of the leaf loop run on every triangle id
`0 .. |T|-1`, without any box clipping. -/
def bruteForce (normalize : Vec3 α → Vec3 α) (vertices : List (Vec3 α))
    (triangles : List Triangle) (rayData : RayData α) : List (LineSegmentIntersection α) :=
  (List.range triangles.length).filterMap
    (fun i => intersectTriangle normalize vertices rayData i (triangles.getD i ⟨0, 0, 0⟩))

/-- The handles of the nodes on which the recursive `KdTree::intersect(node, ...)` is
entered, in the order of the calls, when it is first entered on the node at `nodeIndex`
(a ghost log: which calls are made depends on the boxes and on the clipped segment only,
not on the ray data or on the records). The first argument bounds the recursion depth;
`none` means that the bound was reached. -/
def KdTree.intersectVisits (t : KdTree α) : Nat → Int → Vec3 α → Vec3 α → Option (List Int)
  | 0, _, _, _ => none
  | fuel + 1, nodeIndex, ls0, le0 =>
    let node := getNode t._kdNodes nodeIndex
    let clip := intersectAndClip ls0 le0 node.bb
    if clip.1 = false then some [nodeIndex]
    else
      let ls := clip.2.1
      let le := clip.2.2
      if node.first < 0 then some [nodeIndex]
      else
        let visitsFirst : Option (List Int) :=
          if node.first > 0 then t.intersectVisits fuel node.first ls le else some []
        match visitsFirst with
        | none => none
        | some v1 =>
          let visitsSecond : Option (List Int) :=
            if node.second > 0 then t.intersectVisits fuel node.second ls le else some []
          match visitsSecond with
          | none => none
          | some v2 => some (nodeIndex :: (v1 ++ v2))

/-- The number `k` with `2^k ≤ n < 2^(k+1)` for `0 < n ≤ fuel` (and `0` for `n = 0`). -/
def ilog2 : Nat → Nat → Nat
  | 0, _ => 0
  | fuel + 1, n => if n < 2 then 0 else ilog2 fuel (n / 2) + 1

/-- The binary exponent of a rational `q ≠ 0`: the integer `e` with `2^e ≤ |q| < 2^(e+1)`. -/
def binade (q : ℚ) : Int :=
  let e0 : Int := (ilog2 q.num.natAbs q.num.natAbs : Int) - (ilog2 q.den q.den : Int)
  if (2 : ℚ) ^ e0 ≤ |q| then e0 else e0 - 1

/-- Rounding of a rational to the nearest integer, a tie going to the even one. -/
def roundHalfEven (q : ℚ) : Int :=
  let f := ⌊q⌋
  if q - f < 1 / 2 then f
  else if q - f > 1 / 2 then f + 1
  else if f % 2 = 0 then f
  else f + 1

/-- Modelled from the spec: the rounding of IEEE-754 single precision (`float`), to nearest
with ties to even: 24 significant bits from the exponent `-126` upwards, multiples of
`2^-149` below (gradual underflow). The exponent range is not bounded above: a result
beyond `FLT_MAX`, which the machine turns into an infinity, is not modelled. -/
def round32 (q : ℚ) : ℚ :=
  if q = 0 then 0
  else
    let e := max (binade q) (-126)
    (roundHalfEven (q / 2 ^ (e - 23)) : ℚ) * 2 ^ (e - 23)

/-- The expression `s+(e-s)*k/D` of `KdTree::intersectAndClip`, evaluated in the order of
C++ (`e-s`, then `*k`, then `/D`, then `s+`), with `rnd` applied to the result of every
arithmetic operation. -/
def clipPointWith (rnd : α → α) (s e : Vec3 α) (k D : α) : Vec3 α :=
  let d : Vec3 α := ⟨rnd (e.x - s.x), rnd (e.y - s.y), rnd (e.z - s.z)⟩
  let m : Vec3 α := ⟨rnd (d.x * k), rnd (d.y * k), rnd (d.z * k)⟩
  let q : Vec3 α := ⟨rnd (m.x / D), rnd (m.y / D), rnd (m.z / D)⟩
  ⟨rnd (s.x + q.x), rnd (s.y + q.y), rnd (s.z + q.z)⟩

/-- The block of `KdTree::intersectAndClip` for the axis `a`, as `clipAxis`, with `rnd`
applied to the result of every arithmetic operation: `rnd = id` is exact arithmetic,
`rnd = round32` single precision. -/
def clipAxisWith (rnd : α → α) (a : Nat) (s e : Vec3 α) (bb : BoundingBox α) :
    Bool × Vec3 α × Vec3 α :=
  if s.get a ≤ e.get a then
    if e.get a < bb._min.get a then (false, s, e)
    else if s.get a > bb._max.get a then (false, s, e)
    else
      let s1 :=
        if s.get a < bb._min.get a then
          clipPointWith rnd s e (rnd (bb._min.get a - s.get a)) (rnd (e.get a - s.get a))
        else s
      let e1 :=
        if e.get a > bb._max.get a then
          clipPointWith rnd s1 e (rnd (bb._max.get a - s1.get a)) (rnd (e.get a - s1.get a))
        else e
      (true, s1, e1)
  else
    if s.get a < bb._min.get a then (false, s, e)
    else if e.get a > bb._max.get a then (false, s, e)
    else
      let e1 :=
        if e.get a < bb._min.get a then
          clipPointWith rnd s e (rnd (bb._min.get a - s.get a)) (rnd (e.get a - s.get a))
        else e
      let s1 :=
        if s.get a > bb._max.get a then
          clipPointWith rnd s e1 (rnd (bb._max.get a - s.get a)) (rnd (e1.get a - s.get a))
        else s
      (true, s1, e1)

/-- The denominators `e[a] - s[a]` of the divisions that the block of
`KdTree::intersectAndClip` for the axis `a` performs, in the order of execution, with `rnd`
applied to the result of every arithmetic operation (`rnd = id`: exact arithmetic,
`rnd = round32`: single precision); the second division of a block reads the end point
that the first has moved. The list ends with the first zero denominator: from there on the
machine computes with infinities and NaN, which are not modelled. -/
def clipAxisDivisors (rnd : α → α) (a : Nat) (s e : Vec3 α) (bb : BoundingBox α) : List α :=
  if s.get a ≤ e.get a then
    if e.get a < bb._min.get a then []
    else if s.get a > bb._max.get a then []
    else
      let d1 : List α := if s.get a < bb._min.get a then [rnd (e.get a - s.get a)] else []
      let s1 :=
        if s.get a < bb._min.get a then
          clipPointWith rnd s e (rnd (bb._min.get a - s.get a)) (rnd (e.get a - s.get a))
        else s
      let d2 : List α := if e.get a > bb._max.get a then [rnd (e.get a - s1.get a)] else []
      if (0 : α) ∈ d1 then d1 else d1 ++ d2
  else
    if s.get a < bb._min.get a then []
    else if e.get a > bb._max.get a then []
    else
      let d1 : List α := if e.get a < bb._min.get a then [rnd (e.get a - s.get a)] else []
      let e1 :=
        if e.get a < bb._min.get a then
          clipPointWith rnd s e (rnd (bb._min.get a - s.get a)) (rnd (e.get a - s.get a))
        else e
      let d2 : List α := if s.get a > bb._max.get a then [rnd (e1.get a - s.get a)] else []
      if (0 : α) ∈ d1 then d1 else d1 ++ d2

/-- The denominators of all divisions that a call `intersectAndClip(s, e, bb)` performs,
with `rnd` applied to the result of every arithmetic operation: the blocks for the axes x,
y, z in turn, each on the end points left by the one before, up to the first block that
returns `false` or the first zero denominator. -/
def intersectAndClipDivisors (rnd : α → α) (s e : Vec3 α) (bb : BoundingBox α) : List α :=
  let dx := clipAxisDivisors rnd 0 s e bb
  let cx := clipAxisWith rnd 0 s e bb
  if (0 : α) ∈ dx then dx
  else if cx.1 = false then dx
  else
    let dy := clipAxisDivisors rnd 1 cx.2.1 cx.2.2 bb
    let cy := clipAxisWith rnd 1 cx.2.1 cx.2.2 bb
    if (0 : α) ∈ dy then dx ++ dy
    else if cy.1 = false then dx ++ dy
    else dx ++ dy ++ clipAxisDivisors rnd 2 cy.2.1 cy.2.2 bb

end Query

/-! ## Predicates and data of the statements -/

section Statements

variable {α : Type} [LinearOrderedField α]

/-- The loop invariant of the partition: everything left of `left` is on the low side,
everything right of `right` on the high side. -/
def PartInv (centers : List (Vec3 α)) (axis : Nat) (mid : α) (P : List Nat)
    (istart iend left right : Int) : Prop :=
  (∀ k : Int, istart ≤ k → k < left → centerAt centers P k axis ≤ mid) ∧
  (∀ k : Int, right < k → k ≤ iend → mid < centerAt centers P k axis)

/-- The shape of the subtree below handle `h` in the node pool `nodes`. -/
inductive Covers (target L : Nat) (vertices : List (Vec3 α)) (triangles : List Triangle)
    (nodes : List (KdNode α)) (P : List Nat) : Nat → Nat → Nat → Nat → Nat → Nat → Prop
  | leaf (h lo hi a lvl : Nat) (n : KdNode α) :
      nodes[h]? = some n → n.first = -(lo : Int) - 1 → n.second = (hi : Int) - lo → lo ≤ hi →
      n.bb = leafBoundLoop vertices triangles P (hi - lo) lo BoundingBox.init →
      lvl ≤ L → ¬(lvl < L ∧ target < hi - lo) →
      Covers target L vertices triangles nodes P h lo hi a a lvl
  | both (h lo m hi a c b lvl : Nat) (n : KdNode α) :
      nodes[h]? = some n → n.first = (a : Int) → n.second = (a : Int) + 1 → h < a →
      lo < m → m < hi → lvl < L → target < hi - lo →
      Covers target L vertices triangles nodes P a lo m (a + 2) c (lvl + 1) →
      Covers target L vertices triangles nodes P (a + 1) m hi c b (lvl + 1) →
      n.bb = (BoundingBox.init.expandByBox (getNode nodes (a : Int)).bb).expandByBox
        (getNode nodes ((a : Int) + 1)).bb →
      Covers target L vertices triangles nodes P h lo hi a b lvl
  | onlyLeft (h lo hi a b lvl : Nat) (n : KdNode α) :
      nodes[h]? = some n → n.first = (a : Int) → n.second = 0 → h < a →
      lo < hi → lvl < L → target < hi - lo →
      Covers target L vertices triangles nodes P a lo hi (a + 1) b (lvl + 1) →
      n.bb = BoundingBox.init.expandByBox (getNode nodes (a : Int)).bb →
      Covers target L vertices triangles nodes P h lo hi a b lvl
  | onlyRight (h lo hi a b lvl : Nat) (n : KdNode α) :
      nodes[h]? = some n → n.first = 0 → n.second = (a : Int) → h < a →
      lo < hi → lvl < L → target < hi - lo →
      Covers target L vertices triangles nodes P a lo hi (a + 1) b (lvl + 1) →
      n.bb = BoundingBox.init.expandByBox (getNode nodes (a : Int)).bb →
      Covers target L vertices triangles nodes P h lo hi a b lvl

/-- What a call of `divide` on the leaf `h` covering the slice `[lo, hi)` establishes. -/
structure DividePost (target L : Nat) (vertices : List (Vec3 α)) (triangles : List Triangle)
    (st : DivideState α) (h lo hi level : Nat) (r : DivideState α × Int) : Prop where
  ret : r.2 = (h : Int)
  bb_eq : r.1.bb = st.bb
  perm : r.1._primitiveIndices.Perm st._primitiveIndices
  plen : r.1._primitiveIndices.length = st._primitiveIndices.length
  pframe : ∀ k, (k < lo ∨ hi ≤ k) → r.1._primitiveIndices[k]? = st._primitiveIndices[k]?
  nlen : st._kdNodes.length ≤ r.1._kdNodes.length
  nframe : ∀ j, j < st._kdNodes.length → j ≠ h → r.1._kdNodes[j]? = st._kdNodes[j]?
  covers : Covers target L vertices triangles r.1._kdNodes r.1._primitiveIndices h lo hi
    st._kdNodes.length r.1._kdNodes.length level
  calls : ∃ new, r.1.calls = st.calls ++ new ∧ ∀ c ∈ new, c.2 ≤ L

/-- What `build` establishes on a fresh tree when it gets past its two early returns. -/
structure BuildPost (options : BuildOptions) (geometry : Geometry α) (vertices : List (Vec3 α))
    (r : KdTree α × DivideState α) : Prop where
  triangles_eq : r.1._triangles =
    geometry.triangleStream.map (fun p => (⟨p.1, p.2.1, p.2.2⟩ : Triangle))
  centers_len : r.1._centers.length = geometry.triangleStream.length
  perm : r.1._primitiveIndices.Perm (List.range geometry.triangleStream.length)
  axis_len : r.1._axisStack.length = options._maxNumLevels
  vertices_eq : r.1._vertices = some vertices
  nodes_eq : r.1._kdNodes = r.2._kdNodes
  covers : Covers options._targetNumTrianglesPerLeaf options._maxNumLevels vertices
    r.1._triangles r.1._kdNodes r.1._primitiveIndices 0 0 geometry.triangleStream.length 1
    r.1._kdNodes.length 0
  calls : ∀ c ∈ r.2.calls, c.2 ≤ options._maxNumLevels

/-- The point `v` lies in the closed box `bb`. -/
def BoundingBox.Contains (bb : BoundingBox α) (v : Vec3 α) : Prop :=
  (bb._min.x ≤ v.x ∧ v.x ≤ bb._max.x) ∧ (bb._min.y ≤ v.y ∧ v.y ≤ bb._max.y) ∧
    (bb._min.z ≤ v.z ∧ v.z ≤ bb._max.z)

/-- The corners of `bb` have not moved past the corners of the initial (invalid) box. -/
def BoundingBox.Bounded (bb : BoundingBox α) : Prop :=
  (bb._min.x ≤ FLT_MAX ∧ -FLT_MAX ≤ bb._max.x) ∧ (bb._min.y ≤ FLT_MAX ∧ -FLT_MAX ≤ bb._max.y) ∧
    (bb._min.z ≤ FLT_MAX ∧ -FLT_MAX ≤ bb._max.z)

/-- The vertices of the triangle at position `i` of the primitive indices. -/
def triangleVertices (vertices : List (Vec3 α)) (triangles : List Triangle) (prims : List Nat)
    (i : Int) : List (Vec3 α) :=
  let tri := triangles.getD (prims.getD i.toNat 0) ⟨0, 0, 0⟩
  [vertexAt vertices tri._p1, vertexAt vertices tri._p2, vertexAt vertices tri._p3]

/-- `ReachFrom nodes r h d`: the handle `h` is reached from the handle `r` by following `d`
child links, as the query does: only from a node that is not a leaf (`first < 0` fails),
and only through a child handle that is `> 0`. -/
inductive ReachFrom (nodes : List (KdNode α)) : Nat → Nat → Nat → Prop
  | here (r : Nat) : ReachFrom nodes r r 0
  | first (r h d : Nat) (n : KdNode α) : nodes[r]? = some n → ¬n.first < 0 → n.first > 0 →
      ReachFrom nodes n.first.toNat h d → ReachFrom nodes r h (d + 1)
  | second (r h d : Nat) (n : KdNode α) : nodes[r]? = some n → ¬n.first < 0 → n.second > 0 →
      ReachFrom nodes n.second.toNat h d → ReachFrom nodes r h (d + 1)

/-- The position `i` belongs to the slice of the leaf `k`, reached from `r`. -/
def LeafSliceFrom (nodes : List (KdNode α)) (r k i : Nat) : Prop :=
  ∃ d n, ReachFrom nodes r k d ∧ nodes[k]? = some n ∧ n.first < 0 ∧
    -n.first - 1 ≤ (i : Int) ∧ (i : Int) ≤ -n.first - 1 + n.second - 1

/-- The flag returned by `build` when it is run on a freshly constructed tree. -/
def buildReturns (options : BuildOptions) (geometry : Geometry α) : Bool :=
  (KdTree.build options geometry (KdTree.empty : KdTree α)).1

/-- The tree left by `build` when it is run on a freshly constructed tree. -/
def builtTree (options : BuildOptions) (geometry : Geometry α) : KdTree α :=
  (KdTree.build options geometry (KdTree.empty : KdTree α)).2.1

/-- The log of the `(nodeIndex, level)` pairs with which `divide` is entered while `build`
runs on a freshly constructed tree. -/
def buildCalls (options : BuildOptions) (geometry : Geometry α) : List (Int × Nat) :=
  match geometry.getVertexArray with
  | some (ArrayData.vec3Array vertices) =>
    if vertices.length ≤ options._targetNumTrianglesPerLeaf then []
    else (KdTree.buildDivide options geometry vertices (KdTree.empty : KdTree α)).2.calls
  | _ => []

/-- A mesh of one triangle over three vertices. -/
def oneTriangleMesh : Geometry ℚ :=
  ⟨some (ArrayData.vec3Array [⟨0, 0, 0⟩, ⟨1, 0, 0⟩, ⟨0, 1, 0⟩]),
    ⟨⟨0, 0, 0⟩, ⟨1, 1, 0⟩⟩, [(0, 1, 2)]⟩

/-- A mesh with three vertices and no triangle. -/
def noTriangleMesh : Geometry ℚ :=
  ⟨some (ArrayData.vec3Array [⟨0, 0, 0⟩, ⟨1, 0, 0⟩, ⟨0, 1, 0⟩]),
    ⟨⟨0, 0, 0⟩, ⟨1, 1, 0⟩⟩, []⟩

/-- A geometry without vertex array. -/
def noVertexMesh : Geometry ℚ := ⟨none, BoundingBox.init, []⟩

/-- Two triangles far apart along the x axis. -/
def twoTriangleMesh : Geometry ℚ :=
  ⟨some (ArrayData.vec3Array
      [⟨0, 0, 0⟩, ⟨1, 0, 0⟩, ⟨0, 1, 0⟩, ⟨10, 0, 0⟩, ⟨11, 0, 0⟩, ⟨10, 1, 0⟩]),
    ⟨⟨0, 0, 0⟩, ⟨11, 1, 0⟩⟩, [(0, 1, 2), (3, 4, 5)]⟩

/-- Options with one triangle per leaf. -/
def onePerLeaf : BuildOptions := ⟨0, 1, 32⟩

/-- The point `q` lies on the closed segment from `s` to `e`. -/
def OnSegment (q s e : Vec3 α) : Prop :=
  ∃ t : α, 0 ≤ t ∧ t ≤ 1 ∧ q = s.add ((e.sub s).scale t)

/-- The point with barycentric weights `r1`, `r2`, `r3` on the vertices. -/
def weightedPoint (v1 v2 v3 : Vec3 α) (r1 r2 r3 : α) : Vec3 α :=
  ((v1.scale r1).add (v2.scale r2)).add (v3.scale r3)

/-- The relation between a segment and the ray data that `RayData(start, end)` holds for
it: origin `start`, length `|end - start| > 0`, its inverse, and the direction
`(end - start)` scaled to unit length. (`RayData` is declared in a header that is not among
the translated sources; the length is a square root, so the data is characterised rather
than computed.) -/
def RayData.Normalised (rd : RayData α) (start end_ : Vec3 α) : Prop :=
  rd._s = start ∧ 0 < rd._length ∧
    rd._length * rd._length = (end_.sub start).dot (end_.sub start) ∧
    rd._inverse_length = 1 / rd._length ∧
    rd._d = (end_.sub start).scale rd._inverse_length

/-- The outcome of the triangle test at position `j` of the primitive indices. -/
def hitAt (normalize : Vec3 α → Vec3 α) (vertices : List (Vec3 α)) (triangles : List Triangle)
    (prims : List Nat) (rayData : RayData α) (j : Nat) : Option (LineSegmentIntersection α) :=
  intersectTriangle normalize vertices rayData (prims.getD j 0)
    (triangles.getD (prims.getD j 0) ⟨0, 0, 0⟩)

/-- Ray data of the segment from `(1/4, 1/4, -1)` to `(1/4, 1/4, 1)`. -/
def crossingRay : RayData ℚ := ⟨⟨1 / 4, 1 / 4, -1⟩, ⟨0, 0, 1⟩, 2, 1 / 2⟩

/-- Ray data of the segment from `(5, 5, 5)` to `(8, 9, 5)`. -/
def farRay : RayData ℚ := ⟨⟨5, 5, 5⟩, ⟨3 / 5, 4 / 5, 0⟩, 5, 1 / 5⟩

/-- The record `r` with its normal replaced by `f` of it. -/
def LineSegmentIntersection.withNormal (f : Vec3 α → Vec3 α) (r : LineSegmentIntersection α) :
    LineSegmentIntersection α :=
  { r with intersectionNormal := f r.intersectionNormal }

/-- The unit cube `[0,1]^3`: its 8 corners and two triangles per face. -/
def cubeMesh : Geometry ℚ :=
  ⟨some (ArrayData.vec3Array
      [⟨0, 0, 0⟩, ⟨1, 0, 0⟩, ⟨0, 1, 0⟩, ⟨1, 1, 0⟩, ⟨0, 0, 1⟩, ⟨1, 0, 1⟩, ⟨0, 1, 1⟩, ⟨1, 1, 1⟩]),
    ⟨⟨0, 0, 0⟩, ⟨1, 1, 1⟩⟩,
    [(0, 1, 3), (0, 3, 2), (4, 5, 7), (4, 7, 6), (0, 1, 5), (0, 5, 4), (2, 3, 7), (2, 7, 6),
      (0, 2, 6), (0, 6, 4), (1, 3, 7), (1, 7, 5)]⟩

/-- The unit cube with every face split along its other diagonal. -/
def cubeMeshAlt : Geometry ℚ :=
  ⟨some (ArrayData.vec3Array
      [⟨0, 0, 0⟩, ⟨1, 0, 0⟩, ⟨0, 1, 0⟩, ⟨1, 1, 0⟩, ⟨0, 0, 1⟩, ⟨1, 0, 1⟩, ⟨0, 1, 1⟩, ⟨1, 1, 1⟩]),
    ⟨⟨0, 0, 0⟩, ⟨1, 1, 1⟩⟩,
    [(0, 1, 2), (1, 3, 2), (4, 5, 6), (5, 7, 6), (0, 1, 4), (1, 5, 4), (2, 3, 6), (3, 7, 6),
      (0, 2, 4), (2, 6, 4), (1, 3, 5), (3, 7, 5)]⟩

/-- Ray data of the segment from `(-1, 1/2, 1/2)` to `(2, 1/2, 1/2)`. -/
def cubeRay : RayData ℚ := ⟨⟨-1, 1 / 2, 1 / 2⟩, ⟨1, 0, 0⟩, 3, 1 / 3⟩

/-- The primitive index, the point and the ratio of a record. -/
def LineSegmentIntersection.summary (r : LineSegmentIntersection α) : Nat × Vec3 α × α :=
  (r.primitiveIndex, r.intersectionPoint, r.ratio)

/-- Ray data of the segment from `(0, 1/2, -1)` to `(0, 1/2, 1)`. -/
def edgeRay : RayData ℚ := ⟨⟨0, 1 / 2, -1⟩, ⟨0, 0, 1⟩, 2, 1 / 2⟩

/-- A mesh of two triangles, the second with two equal vertex positions. -/
def degenerateMesh : Geometry ℚ :=
  ⟨some (ArrayData.vec3Array [⟨0, 0, 0⟩, ⟨1, 0, 0⟩, ⟨0, 1, 0⟩, ⟨0, 0, 0⟩]),
    ⟨⟨0, 0, 0⟩, ⟨1, 1, 0⟩⟩, [(0, 1, 2), (0, 3, 2)]⟩

/-- Options with one triangle per leaf and no level of subdivision. -/
def noLevels : BuildOptions := ⟨0, 1, 0⟩

/-- The current extent of axis `a` as the spec words it: the root extent on that axis
divided by 2 once for each earlier level (the list `chosen`) that chose the axis. -/
def currentExtent (root : Vec3 α) (chosen : List Nat) (a : Nat) : α :=
  root.get a / 2 ^ chosen.count a

/-- A tree whose bound has the extents `4`, `2`, `1`. -/
def boxedTree : KdTree ℚ := { KdTree.empty with _bb := ⟨⟨0, 0, 0⟩, ⟨4, 2, 1⟩⟩ }

/-- The points `s1`, `e1` lie on the segment from `s` to `e`, `s1` not after `e1`. -/
def OrderedOn (s1 e1 s e : Vec3 α) : Prop :=
  ∃ t1 t2 : α, 0 ≤ t1 ∧ t1 ≤ t2 ∧ t2 ≤ 1 ∧
    s1 = s.add ((e.sub s).scale t1) ∧ e1 = s.add ((e.sub s).scale t2)

end Statements

/-! ## Unfolding `divide` -/

section DivideUnfold

variable {α : Type} [LinearOrderedField α]

set_option maxHeartbeats 4000000 in
/-- The terminal branch of `divide`: the node is not divided. -/
theorem KdTree.divide_of_not_need (targetNumTrianglesPerLeaf : Nat) (axisStack : List Nat)
    (vertices : List (Vec3 α)) (triangles : List Triangle) (centers : List (Vec3 α))
    (st0 : DivideState α) (nodeIndex : Int) (level : Nat)
    (hnd : ¬(level < axisStack.length ∧ ((getNode st0._kdNodes nodeIndex).first < 0 ∧
      (getNode st0._kdNodes nodeIndex).second > (targetNumTrianglesPerLeaf : Int)))) :
    KdTree.divide targetNumTrianglesPerLeaf axisStack vertices triangles centers st0 nodeIndex
        level =
      if (getNode st0._kdNodes nodeIndex).first < 0 then
        (⟨modifyNode st0._kdNodes nodeIndex
            (fun n => finalizeLeaf vertices triangles st0._primitiveIndices n),
          st0._primitiveIndices, st0.bb, st0.calls ++ [(nodeIndex, level)]⟩, nodeIndex)
      else
        (⟨st0._kdNodes, st0._primitiveIndices, st0.bb, st0.calls ++ [(nodeIndex, level)]⟩,
          nodeIndex) := by
  rw [KdTree.divide]
  simp only [dif_neg hnd]

set_option maxHeartbeats 4000000 in
/-- The dividing branch of `divide`: partition, allocation of the children, the two
recursive calls with the restricted box, and the final link. -/
theorem KdTree.divide_of_need (targetNumTrianglesPerLeaf : Nat) (axisStack : List Nat)
    (vertices : List (Vec3 α)) (triangles : List Triangle) (centers : List (Vec3 α))
    (st0 : DivideState α) (nodeIndex : Int) (level : Nat)
    (hnd : level < axisStack.length ∧ ((getNode st0._kdNodes nodeIndex).first < 0 ∧
      (getNode st0._kdNodes nodeIndex).second > (targetNumTrianglesPerLeaf : Int))) :
    KdTree.divide targetNumTrianglesPerLeaf axisStack vertices triangles centers st0 nodeIndex
        level =
      (let node := getNode st0._kdNodes nodeIndex
       let axis := axisStack.getD level 0
       let istart := -node.first - 1
       let iend := istart + node.second - 1
       let mid := (st0.bb._min.get axis + st0.bb._max.get axis) * (1 / 2)
       let part := partitionPrims centers axis mid st0._primitiveIndices istart iend
       let alloc := allocChildren st0._kdNodes
         (KdNode.mk2 (-istart - 1) ((part.2.2 - istart) + 1))
         (KdNode.mk2 (-part.2.1 - 1) ((iend - part.2.1) + 1))
       let st2 : DivideState α :=
         ⟨alloc.1, part.1, ⟨st0.bb._min, st0.bb._max.set axis mid⟩,
           st0.calls ++ [(nodeIndex, level)]⟩
       let l : DivideState α × Int :=
         if alloc.2.1 ≠ 0 then
           KdTree.divide targetNumTrianglesPerLeaf axisStack vertices triangles centers st2
             alloc.2.1 (level + 1)
         else (st2, 0)
       let st4 : DivideState α :=
         ⟨l.1._kdNodes, l.1._primitiveIndices,
           ⟨l.1.bb._min.set axis mid, l.1.bb._max.set axis (st0.bb._max.get axis)⟩, l.1.calls⟩
       let r : DivideState α × Int :=
         if alloc.2.2 ≠ 0 then
           KdTree.divide targetNumTrianglesPerLeaf axisStack vertices triangles centers st4
             alloc.2.2 (level + 1)
         else (st4, 0)
       (⟨linkChildren r.1._kdNodes nodeIndex l.2 r.2, r.1._primitiveIndices,
          ⟨r.1.bb._min.set axis (l.1.bb._min.get axis), r.1.bb._max⟩, r.1.calls⟩,
        nodeIndex)) := by
  rw [KdTree.divide]
  simp only [dif_pos hnd, if_pos hnd.2.1]

end DivideUnfold

/-! ## The partition and the shape of the built tree -/

section Shape

variable {α : Type} [LinearOrderedField α]

theorem swap_perm (P : List Nat) (i j : Nat) (hi : i < P.length) (hj : j < P.length)
    (hij : i ≠ j) : ((P.set i (P.getD j 0)).set j (P.getD i 0)).Perm P := by
  rw [List.perm_iff_count]
  intro a
  have hj2 : j < (P.set i (P.getD j 0)).length := by simpa using hj
  rw [List.count_set _ _ _ _ hj2, List.count_set _ _ _ _ hi]
  have e1 : (P.set i (P.getD j 0))[j] = P[j] := by
    rw [List.getElem_set]; simp [hij]
  have e2 : P.getD j 0 = P[j] := by simp [List.getD_eq_getElem?_getD, hj]
  have e3 : P.getD i 0 = P[i] := by simp [List.getD_eq_getElem?_getD, hi]
  rw [e1, e2, e3]
  have c1 : (if P[i] == a then 1 else 0) ≤ P.count a := by
    split
    · rename_i h
      have : a ∈ P := by
        have := List.getElem_mem hi
        simp at h; rw [← h]; exact this
      exact List.count_pos_iff.mpr this
    · omega
  omega

/-- What the left scan guarantees. -/
theorem advanceLeft_spec (centers : List (Vec3 α)) (prims : List Nat) (axis : Nat) (mid : α)
    (left right : Int) :
    (left ≤ right → advanceLeft centers prims axis mid left right ≤ right) ∧
    (∀ k : Int, left ≤ k → k < advanceLeft centers prims axis mid left right →
      centerAt centers prims k axis ≤ mid) ∧
    (advanceLeft centers prims axis mid left right < right →
      mid < centerAt centers prims (advanceLeft centers prims axis mid left right) axis) := by
  induction left, right using advanceLeft.induct centers prims axis mid with
  | case1 left right h ih =>
    rw [advanceLeft, if_pos h]
    obtain ⟨ih1, ih2, ih3⟩ := ih
    refine ⟨fun _ => ih1 (by omega), ?_, ih3⟩
    intro k hk1 hk2
    by_cases hk : k = left
    · subst hk; exact h.2
    · exact ih2 k (by omega) hk2
  | case2 left right h =>
    rw [advanceLeft, if_neg h]
    refine ⟨fun h => h, fun k h1 h2 => by omega, fun hlt => ?_⟩
    by_contra hc
    exact h ⟨hlt, not_lt.mp hc⟩

/-- What the right scan guarantees. -/
theorem retreatRight_spec (centers : List (Vec3 α)) (prims : List Nat) (axis : Nat) (mid : α)
    (left right : Int) :
    (left ≤ right → left ≤ retreatRight centers prims axis mid left right) ∧
    (∀ k : Int, retreatRight centers prims axis mid left right < k → k ≤ right →
      mid < centerAt centers prims k axis) ∧
    (left < retreatRight centers prims axis mid left right →
      centerAt centers prims (retreatRight centers prims axis mid left right) axis ≤ mid) := by
  induction right using retreatRight.induct centers prims axis mid left with
  | case1 right h ih =>
    rw [retreatRight, if_pos h]
    obtain ⟨ih1, ih2, ih3⟩ := ih
    refine ⟨fun _ => ih1 (by omega), ?_, ih3⟩
    intro k hk1 hk2
    by_cases hk : k = right
    · subst hk; exact h.2
    · exact ih2 k hk1 (by omega)
  | case2 right h =>
    rw [retreatRight, if_neg h]
    refine ⟨fun h => h, fun k h1 h2 => by omega, fun hlt => ?_⟩
    by_contra hc
    exact h ⟨hlt, not_le.mp hc⟩

theorem swapPrims_getElem? (P : List Nat) (l r : Int) (k : Nat) (hl : k ≠ l.toNat)
    (hr : k ≠ r.toNat) : (swapPrims P l r)[k]? = P[k]? := by
  unfold swapPrims
  rw [List.getElem?_set_ne (Ne.symm hr), List.getElem?_set_ne (Ne.symm hl)]

theorem centerAt_congr (centers : List (Vec3 α)) (P Q : List Nat) (k : Int) (axis : Nat)
    (h : Q[k.toNat]? = P[k.toNat]?) : centerAt centers Q k axis = centerAt centers P k axis := by
  unfold centerAt
  simp only [List.getD_eq_getElem?_getD]
  rw [h]

theorem partitionLoop_spec (centers : List (Vec3 α)) (axis : Nat) (mid : α)
    (istart iend : Int) (P : List Nat) (left right : Int)
    (h0 : 0 ≤ istart) (hl : istart ≤ left) (hr : right ≤ iend) (hlen : iend < P.length)
    (hlr : left ≤ right + 1) (hinv : PartInv centers axis mid P istart iend left right) :
    (partitionLoop centers axis mid P left right).1.Perm P ∧
    (partitionLoop centers axis mid P left right).1.length = P.length ∧
    (∀ k : Nat, ((k : Int) < left ∨ right < (k : Int)) →
      (partitionLoop centers axis mid P left right).1[k]? = P[k]?) ∧
    left ≤ (partitionLoop centers axis mid P left right).2.1 ∧
    (partitionLoop centers axis mid P left right).2.2 ≤ right ∧
    (partitionLoop centers axis mid P left right).2.2 ≤
      (partitionLoop centers axis mid P left right).2.1 ∧
    (partitionLoop centers axis mid P left right).2.1 ≤
      (partitionLoop centers axis mid P left right).2.2 + 1 ∧
    PartInv centers axis mid (partitionLoop centers axis mid P left right).1 istart iend
      (partitionLoop centers axis mid P left right).2.1
      (partitionLoop centers axis mid P left right).2.2 := by
  induction P, left, right using partitionLoop.induct centers axis mid with
  | case1 P left right hlt left1 right1 right2 hlt2 ih =>
    rw [partitionLoop, if_pos hlt]
    simp only []
    rw [if_pos hlt2]
    obtain ⟨a1, a2, a3⟩ := advanceLeft_spec centers P axis mid left right
    have a0 := le_advanceLeft centers P axis mid left right
    obtain ⟨b1, b2, b3⟩ := retreatRight_spec centers P axis mid left1 right
    have b0 := retreatRight_le centers P axis mid left1 right
    obtain ⟨c1, c2, c3⟩ := retreatRight_spec centers P axis mid left1 right1
    have c0 := retreatRight_le centers P axis mid left1 right1
    have hL1 : left1 = advanceLeft centers P axis mid left right := rfl
    have hR1 : right1 = retreatRight centers P axis mid left1 right := rfl
    have hR2 : right2 = retreatRight centers P axis mid left1 right1 := rfl
    rw [← hL1] at a0 a1 a2 a3 ⊢
    rw [← hR1] at b0 b1 b2 b3 ⊢
    rw [← hR2] at c0 c1 c2 c3 ⊢
    clear_value left1 right1 right2
    have hlen1 : (swapPrims P left1 right2).length = P.length := by simp [swapPrims]
    have hfr : ∀ k : Nat, (k : Int) ≠ left1 → (k : Int) ≠ right2 →
        (swapPrims P left1 right2)[k]? = P[k]? := by
      intro k h1 h2
      apply swapPrims_getElem? <;> omega
    have hperm : (swapPrims P left1 right2).Perm P := by
      unfold swapPrims
      apply swap_perm <;> omega
    have hinv1 : PartInv centers axis mid (swapPrims P left1 right2) istart iend
        (left1 + 1) (right2 - 1) := by
      constructor
      · intro k hk1 hk2
        by_cases hk : k = left1
        · subst hk
          have : centerAt centers (swapPrims P k right2) k axis
              = centerAt centers P right2 axis := by
            unfold centerAt swapPrims
            congr 2
            rw [List.getD_eq_getElem?_getD, List.getElem?_set_ne (by omega),
              List.getElem?_set_self (by omega)]
            rfl
          rw [this]; exact c3 hlt2
        · rw [centerAt_congr centers P _ k axis (hfr k.toNat (by omega) (by omega))]
          by_cases hk3 : k < left
          · exact hinv.1 k hk1 hk3
          · exact a2 k (by omega) (by omega)
      · intro k hk1 hk2
        by_cases hk : k = right2
        · subst hk
          have : centerAt centers (swapPrims P left1 k) k axis
              = centerAt centers P left1 axis := by
            unfold centerAt swapPrims
            congr 2
            rw [List.getD_eq_getElem?_getD, List.getElem?_set_self (by simp; omega)]
            rfl
          rw [this]; exact a3 (by omega)
        · rw [centerAt_congr centers P _ k axis (hfr k.toNat (by omega) (by omega))]
          by_cases hk3 : right < k
          · exact hinv.2 k hk3 hk2
          · by_cases hk4 : right1 < k
            · exact b2 k hk4 (by omega)
            · exact c2 k (by omega) (by omega)
    obtain ⟨i1, i2, i3, i4, i5, i6, i7, i8⟩ :=
      ih (by omega) (by omega) (by omega) (by omega) hinv1
    refine ⟨i1.trans hperm, by omega, ?_, by omega, by omega, i6, i7, i8⟩
    intro k hk
    rw [i3 k (by omega), hfr k (by omega) (by omega)]
  | case2 P left right hlt left1 right1 right2 hlt2 ih =>
    rw [partitionLoop, if_pos hlt]
    simp only []
    rw [if_neg hlt2]
    obtain ⟨a1, a2, a3⟩ := advanceLeft_spec centers P axis mid left right
    have a0 := le_advanceLeft centers P axis mid left right
    obtain ⟨b1, b2, b3⟩ := retreatRight_spec centers P axis mid left1 right
    have b0 := retreatRight_le centers P axis mid left1 right
    obtain ⟨c1, c2, c3⟩ := retreatRight_spec centers P axis mid left1 right1
    have c0 := retreatRight_le centers P axis mid left1 right1
    have hL1 : left1 = advanceLeft centers P axis mid left right := rfl
    have hR1 : right1 = retreatRight centers P axis mid left1 right := rfl
    have hR2 : right2 = retreatRight centers P axis mid left1 right1 := rfl
    rw [← hL1] at a0 a1 a2 a3 ⊢
    rw [← hR1] at b0 b1 b2 b3 ⊢
    rw [← hR2] at c0 c1 c2 c3 ⊢
    clear_value left1 right1 right2
    have hinv1 : PartInv centers axis mid P istart iend left1 right2 := by
      constructor
      · intro k hk1 hk2
        by_cases hk3 : k < left
        · exact hinv.1 k hk1 hk3
        · exact a2 k (by omega) (by omega)
      · intro k hk1 hk2
        by_cases hk3 : right < k
        · exact hinv.2 k hk3 hk2
        · by_cases hk4 : right1 < k
          · exact b2 k hk4 (by omega)
          · exact c2 k (by omega) (by omega)
    obtain ⟨i1, i2, i3, i4, i5, i6, i7, i8⟩ :=
      ih (by omega) (by omega) (by omega) (by omega) hinv1
    refine ⟨i1, i2, ?_, by omega, by omega, i6, i7, i8⟩
    intro k hk
    exact i3 k (by omega)
  | case3 P left right hlt =>
    rw [partitionLoop, if_neg hlt]
    exact ⟨List.Perm.refl _, rfl, fun _ _ => rfl, le_refl _, le_refl _, by simpa using hlt,
      hlr, hinv⟩

theorem getNode_natCast (nodes : List (KdNode α)) (h : Nat) (n : KdNode α)
    (hn : nodes[h]? = some n) : getNode nodes (h : Int) = n := by
  unfold getNode
  simp [List.getD_eq_getElem?_getD, hn]

theorem getNode_congr (nodes nodes2 : List (KdNode α)) (h : Int)
    (hn : nodes2[h.toNat]? = nodes[h.toNat]?) : getNode nodes2 h = getNode nodes h := by
  unfold getNode
  simp [List.getD_eq_getElem?_getD, hn]

theorem Covers.range_le {target L : Nat} {vertices : List (Vec3 α)} {triangles : List Triangle}
    {nodes : List (KdNode α)} {P : List Nat} {h lo hi a b lvl : Nat}
    (c : Covers target L vertices triangles nodes P h lo hi a b lvl) : a ≤ b := by
  induction c with
  | leaf => exact le_refl _
  | both _ _ _ _ _ _ _ _ _ _ _ _ _ _ _ _ _ _ _ _ ih1 ih2 => omega
  | onlyLeft _ _ _ _ _ _ _ _ _ _ _ _ _ _ _ _ ih => omega
  | onlyRight _ _ _ _ _ _ _ _ _ _ _ _ _ _ _ _ ih => omega

theorem leafBoundLoop_congr (vertices : List (Vec3 α)) (triangles : List Triangle)
    (P Q : List Nat) (n : Nat) : ∀ (lo : Nat) (bb : BoundingBox α),
    (∀ k, lo ≤ k → k < lo + n → Q[k]? = P[k]?) →
    leafBoundLoop vertices triangles Q n (lo : Int) bb
      = leafBoundLoop vertices triangles P n (lo : Int) bb := by
  induction n with
  | zero => intro lo bb _; rfl
  | succ n ih =>
    intro lo bb hk
    simp only [leafBoundLoop]
    have e : Q.getD (lo : Int).toNat 0 = P.getD (lo : Int).toNat 0 := by
      simp only [List.getD_eq_getElem?_getD, Int.toNat_ofNat]
      rw [hk lo (le_refl _) (by omega)]
    rw [e]
    have := ih (lo + 1) 
    simp only [Nat.cast_add, Nat.cast_one] at this
    apply this
    intro k h1 h2
    exact hk k (by omega) (by omega)

theorem Covers.frame {target L : Nat} {vertices : List (Vec3 α)} {triangles : List Triangle}
    {nodes : List (KdNode α)} {P : List Nat} {h lo hi a b lvl : Nat}
    (c : Covers target L vertices triangles nodes P h lo hi a b lvl)
    (nodes2 : List (KdNode α)) (P2 : List Nat)
    (hn : ∀ j, (j = h ∨ (a ≤ j ∧ j < b)) → nodes2[j]? = nodes[j]?)
    (hp : ∀ k, lo ≤ k → k < hi → P2[k]? = P[k]?) :
    Covers target L vertices triangles nodes2 P2 h lo hi a b lvl := by
  induction c with
  | leaf h lo hi a lvl n h1 h2 h3 h4 h5 h6 h7 =>
    refine Covers.leaf h lo hi a lvl n ?_ h2 h3 h4 ?_ h6 h7
    · rw [hn h (Or.inl rfl)]; exact h1
    · rw [h5]; symm
      apply leafBoundLoop_congr
      intro k k1 k2; exact hp k k1 (by omega)
  | both h lo m hi a c b lvl n h1 h2 h3 h4 h5 h6 h7 h8 c1 c2 h9 ih1 ih2 =>
    have r1 := c1.range_le
    have r2 := c2.range_le
    refine Covers.both h lo m hi a c b lvl n ?_ h2 h3 h4 h5 h6 h7 h8 ?_ ?_ ?_
    · rw [hn h (Or.inl rfl)]; exact h1
    · apply ih1
      · intro j hj; apply hn; omega
      · intro k k1 k2; exact hp k (by omega) (by omega)
    · apply ih2
      · intro j hj; apply hn; omega
      · intro k k1 k2; exact hp k (by omega) (by omega)
    · rw [h9, getNode_congr nodes nodes2 a (by simpa using hn a (by omega)),
        getNode_congr nodes nodes2 ((a : Int) + 1) (by
          have := hn (a + 1) (by omega)
          have e : ((a : Int) + 1).toNat = a + 1 := by omega
          rw [e]; exact this)]
  | onlyLeft h lo hi a b lvl n h1 h2 h3 h4 h5 h6 h7 c1 h9 ih1 =>
    have r1 := c1.range_le
    refine Covers.onlyLeft h lo hi a b lvl n ?_ h2 h3 h4 h5 h6 h7 ?_ ?_
    · rw [hn h (Or.inl rfl)]; exact h1
    · apply ih1
      · intro j hj; apply hn; omega
      · intro k k1 k2; exact hp k (by omega) (by omega)
    · rw [h9, getNode_congr nodes nodes2 a (by simpa using hn a (by omega))]
  | onlyRight h lo hi a b lvl n h1 h2 h3 h4 h5 h6 h7 c1 h9 ih1 =>
    have r1 := c1.range_le
    refine Covers.onlyRight h lo hi a b lvl n ?_ h2 h3 h4 h5 h6 h7 ?_ ?_
    · rw [hn h (Or.inl rfl)]; exact h1
    · apply ih1
      · intro j hj; apply hn; omega
      · intro k k1 k2; exact hp k (by omega) (by omega)
    · rw [h9, getNode_congr nodes nodes2 a (by simpa using hn a (by omega))]

theorem partitionPrims_spec (centers : List (Vec3 α)) (axis : Nat) (mid : α)
    (P : List Nat) (istart iend : Int)
    (h0 : 0 ≤ istart) (hle : istart ≤ iend) (hlen : iend < P.length) :
    (partitionPrims centers axis mid P istart iend).1.Perm P ∧
    (partitionPrims centers axis mid P istart iend).1.length = P.length ∧
    (∀ k : Nat, ((k : Int) < istart ∨ iend < (k : Int)) →
      (partitionPrims centers axis mid P istart iend).1[k]? = P[k]?) ∧
    (partitionPrims centers axis mid P istart iend).2.1 =
      (partitionPrims centers axis mid P istart iend).2.2 + 1 ∧
    istart - 1 ≤ (partitionPrims centers axis mid P istart iend).2.2 ∧
    (partitionPrims centers axis mid P istart iend).2.2 ≤ iend ∧
    PartInv centers axis mid (partitionPrims centers axis mid P istart iend).1 istart iend
      (partitionPrims centers axis mid P istart iend).2.1
      (partitionPrims centers axis mid P istart iend).2.2 := by
  have hinv : PartInv centers axis mid P istart iend istart iend :=
    ⟨fun k h1 h2 => by omega, fun k h1 h2 => by omega⟩
  obtain ⟨i1, i2, i3, i4, i5, i6, i7, i8⟩ :=
    partitionLoop_spec centers axis mid istart iend P istart iend h0 (le_refl _) (le_refl _)
      hlen (by omega) hinv
  unfold partitionPrims
  simp only []
  generalize partitionLoop centers axis mid P istart iend = res at *
  obtain ⟨P1, l, r⟩ := res
  simp only [] at *
  split_ifs with e1 e2 <;> dsimp only
  · subst e1
    refine ⟨i1, i2, i3, rfl, by omega, by omega, ?_, ?_⟩
    · intro k k1 k2
      by_cases hk : k = l
      · subst hk; exact e2
      · exact i8.1 k k1 (by omega)
    · exact i8.2
  · subst e1
    refine ⟨i1, i2, i3, by omega, by omega, by omega, ?_, ?_⟩
    · exact i8.1
    · intro k k1 k2
      by_cases hk : k = l
      · subst hk; exact not_le.mp e2
      · exact i8.2 k (by omega) k2
  · exact ⟨i1, i2, i3, by omega, by omega, by omega, i8⟩

theorem getNode_set_self (nodes : List (KdNode α)) (h : Nat) (x : KdNode α)
    (hh : h < nodes.length) : getNode (nodes.set h x) (h : Int) = x := by
  unfold getNode
  simp [List.getD_eq_getElem?_getD, hh]

theorem getNode_set_ne (nodes : List (KdNode α)) (h : Nat) (x : KdNode α) (j : Int)
    (hj : j.toNat ≠ h) : getNode (nodes.set h x) j = getNode nodes j := by
  unfold getNode
  simp only [List.getD_eq_getElem?_getD]
  rw [List.getElem?_set_ne (Ne.symm hj)]

omit [LinearOrderedField α] in
theorem Vec3.set_set_get (v : Vec3 α) (a : Nat) (c : α) : (v.set a c).set a (v.get a) = v := by
  unfold Vec3.set Vec3.get
  split_ifs <;> rfl

theorem linkChildren_eq (nodes : List (KdNode α)) (h : Nat) (n : KdNode α) (lc rc : Int)
    (hn : nodes[h]? = some n) (hl : lc ≠ 0 → lc.toNat ≠ h) (hr : rc ≠ 0 → rc.toNat ≠ h) :
    linkChildren nodes (h : Int) lc rc = nodes.set h
      ⟨lc, rc,
        if rc ≠ 0 then
          (if lc ≠ 0 then BoundingBox.init.expandByBox (getNode nodes lc).bb
            else BoundingBox.init).expandByBox (getNode nodes rc).bb
        else
          (if lc ≠ 0 then BoundingBox.init.expandByBox (getNode nodes lc).bb
            else BoundingBox.init)⟩ := by
  have hh : h < nodes.length := by
    rcases Nat.lt_or_ge h nodes.length with h1 | h1
    · exact h1
    · rw [List.getElem?_eq_none h1] at hn; cases hn
  have g0 : getNode nodes (h : Int) = n := getNode_natCast _ _ _ hn
  unfold linkChildren modifyNode
  simp only [Int.toNat_ofNat]
  rw [g0]
  simp only [getNode_set_self _ _ _ hh, getNode_set_self _ _ _ (by simpa using hh : h < (nodes.set h _).length),
    List.set_set]
  by_cases c1 : lc = 0 <;> by_cases c2 : rc = 0
  · simp [c1, c2]
  · simp [c1, c2, getNode_set_ne _ _ _ _ (hr c2), getNode_set_self, hh]
  · simp [c1, c2, getNode_set_ne _ _ _ _ (hl c1), getNode_set_self, hh]
  · simp [c1, c2, getNode_set_ne _ _ _ _ (hl c1), getNode_set_ne _ _ _ _ (hr c2),
      getNode_set_self, hh]

theorem getElem?_lt_length {β : Type} (l : List β) (h : Nat) (n : β) (hn : l[h]? = some n) :
    h < l.length := by
  rcases Nat.lt_or_ge h l.length with h1 | h1
  · exact h1
  · rw [List.getElem?_eq_none h1] at hn; cases hn

theorem divide_post_leaf (target : Nat) (axisStack : List Nat) (vertices : List (Vec3 α))
    (triangles : List Triangle) (centers : List (Vec3 α)) (st : DivideState α)
    (h lo hi level : Nat) (n : KdNode α)
    (hlev : level ≤ axisStack.length)
    (hn : st._kdNodes[h]? = some n) (hf : n.first = -(lo : Int) - 1)
    (hs : n.second = (hi : Int) - lo) (hle : lo ≤ hi)
    (hnd : ¬(level < axisStack.length ∧ ((getNode st._kdNodes (h : Int)).first < 0 ∧
      (getNode st._kdNodes (h : Int)).second > (target : Int)))) :
    DividePost target axisStack.length vertices triangles st h lo hi level
      (KdTree.divide target axisStack vertices triangles centers st (h : Int) level) := by
  have hh := getElem?_lt_length _ _ _ hn
  have g0 : getNode st._kdNodes (h : Int) = n := getNode_natCast _ _ _ hn
  rw [KdTree.divide_of_not_need _ _ _ _ _ _ _ _ hnd, g0, if_pos (by omega)]
  unfold modifyNode
  rw [g0]
  simp only [Int.toNat_ofNat]
  refine ⟨rfl, rfl, List.Perm.refl _, rfl, fun _ _ => rfl, by simp, ?_, ?_, ?_⟩
  · intro j _ hj
    exact List.getElem?_set_ne (Ne.symm hj)
  · simp only [List.length_set]
    refine Covers.leaf h lo hi _ level (finalizeLeaf vertices triangles st._primitiveIndices n)
      ?_ hf hs hle ?_ hlev ?_
    · simp [hh]
    · unfold finalizeLeaf
      simp only []
      have e1 : -n.first - 1 = (lo : Int) := by omega
      have e2 : (-n.first - 1 + n.second - 1 + 1 - (-n.first - 1)).toNat = hi - lo := by omega
      rw [e2, e1]
    · rw [g0] at hnd
      intro hc
      apply hnd
      refine ⟨hc.1, by omega, ?_⟩
      rw [hs]
      have := hc.2
      omega
  · exact ⟨[((h : Int), level)], rfl, by simpa using hlev⟩

/-- The dividing branch of `divide`, with every intermediate value named by an equation. -/
theorem KdTree.divide_of_need_eq (targetNumTrianglesPerLeaf : Nat) (axisStack : List Nat)
    (vertices : List (Vec3 α)) (triangles : List Triangle) (centers : List (Vec3 α))
    (st0 : DivideState α) (nodeIndex : Int) (level : Nat)
    (hnd : level < axisStack.length ∧ ((getNode st0._kdNodes nodeIndex).first < 0 ∧
      (getNode st0._kdNodes nodeIndex).second > (targetNumTrianglesPerLeaf : Int)))
    (node : KdNode α) (hnode : node = getNode st0._kdNodes nodeIndex)
    (axis : Nat) (haxis : axis = axisStack.getD level 0)
    (mid : α) (hmid : mid = (st0.bb._min.get axis + st0.bb._max.get axis) * (1 / 2))
    (part : List Nat × Int × Int)
    (hpart : part = partitionPrims centers axis mid st0._primitiveIndices (-node.first - 1)
      (-node.first - 1 + node.second - 1))
    (alloc : List (KdNode α) × Int × Int)
    (halloc : alloc = allocChildren st0._kdNodes
      (KdNode.mk2 (-(-node.first - 1) - 1) ((part.2.2 - (-node.first - 1)) + 1))
      (KdNode.mk2 (-part.2.1 - 1) (((-node.first - 1 + node.second - 1) - part.2.1) + 1)))
    (st2 : DivideState α)
    (hst2 : st2 = ⟨alloc.1, part.1, ⟨st0.bb._min, st0.bb._max.set axis mid⟩,
      st0.calls ++ [(nodeIndex, level)]⟩)
    (l : DivideState α × Int)
    (hl : l = if alloc.2.1 ≠ 0 then
        KdTree.divide targetNumTrianglesPerLeaf axisStack vertices triangles centers st2
          alloc.2.1 (level + 1)
      else (st2, 0))
    (st4 : DivideState α)
    (hst4 : st4 = ⟨l.1._kdNodes, l.1._primitiveIndices,
      ⟨l.1.bb._min.set axis mid, l.1.bb._max.set axis (st0.bb._max.get axis)⟩, l.1.calls⟩)
    (r : DivideState α × Int)
    (hr : r = if alloc.2.2 ≠ 0 then
        KdTree.divide targetNumTrianglesPerLeaf axisStack vertices triangles centers st4
          alloc.2.2 (level + 1)
      else (st4, 0)) :
    KdTree.divide targetNumTrianglesPerLeaf axisStack vertices triangles centers st0 nodeIndex
        level =
      (⟨linkChildren r.1._kdNodes nodeIndex l.2 r.2, r.1._primitiveIndices,
          ⟨r.1.bb._min.set axis (l.1.bb._min.get axis), r.1.bb._max⟩, r.1.calls⟩,
        nodeIndex) := by
  subst hnode haxis hmid hpart halloc hst2 hl hst4 hr
  exact KdTree.divide_of_need _ _ _ _ _ _ _ _ hnd

omit [LinearOrderedField α] in
theorem allocChildren_right (nodes : List (KdNode α)) (a b : KdNode α) (h : a.second ≤ 0) :
    allocChildren nodes a b = (nodes ++ [b], 0, (nodes.length : Int)) := by
  unfold allocChildren addNode
  rw [if_pos h]

omit [LinearOrderedField α] in
theorem allocChildren_left (nodes : List (KdNode α)) (a b : KdNode α) (h : ¬a.second ≤ 0)
    (h2 : b.second ≤ 0) :
    allocChildren nodes a b = (nodes ++ [a], (nodes.length : Int), 0) := by
  unfold allocChildren addNode
  rw [if_neg h, if_pos h2]

omit [LinearOrderedField α] in
theorem allocChildren_both (nodes : List (KdNode α)) (a b : KdNode α) (h : ¬a.second ≤ 0)
    (h2 : ¬b.second ≤ 0) :
    allocChildren nodes a b =
      (nodes ++ [a] ++ [b], (nodes.length : Int), ((nodes.length + 1 : Nat) : Int)) := by
  unfold allocChildren addNode
  rw [if_neg h, if_neg h2]
  simp

theorem getElem?_append_two_fst {β : Type} (l : List β) (a b : β) :
    (l ++ [a] ++ [b])[l.length]? = some a := by
  rw [List.append_assoc, List.getElem?_append_right (le_refl _)]
  simp

theorem getElem?_append_two_snd {β : Type} (l : List β) (a b : β) :
    (l ++ [a] ++ [b])[l.length + 1]? = some b := by
  rw [List.append_assoc, List.getElem?_append_right (by omega)]
  simp

theorem divide_post_split (target : Nat) (axisStack : List Nat) (vertices : List (Vec3 α))
    (triangles : List Triangle) (centers : List (Vec3 α)) (st : DivideState α)
    (h lo hi level : Nat) (n : KdNode α)
    (hn : st._kdNodes[h]? = some n) (hf : n.first = -(lo : Int) - 1)
    (hs : n.second = (hi : Int) - lo) (hP : hi ≤ st._primitiveIndices.length)
    (hnd : level < axisStack.length ∧ ((getNode st._kdNodes (h : Int)).first < 0 ∧
      (getNode st._kdNodes (h : Int)).second > (target : Int)))
    (ih : ∀ (st1 : DivideState α) (h1 lo1 hi1 : Nat) (n1 : KdNode α),
      st1._kdNodes[h1]? = some n1 → n1.first = -(lo1 : Int) - 1 →
      n1.second = (hi1 : Int) - lo1 → lo1 ≤ hi1 → hi1 ≤ st1._primitiveIndices.length →
      DividePost target axisStack.length vertices triangles st1 h1 lo1 hi1 (level + 1)
        (KdTree.divide target axisStack vertices triangles centers st1 (h1 : Int) (level + 1))) :
    DividePost target axisStack.length vertices triangles st h lo hi level
      (KdTree.divide target axisStack vertices triangles centers st (h : Int) level) := by
  have hh := getElem?_lt_length _ _ _ hn
  have g0 : getNode st._kdNodes (h : Int) = n := getNode_natCast _ _ _ hn
  have hlv := hnd.1
  have hsec : (target : Int) < n.second := by
    have := hnd.2.2; rw [g0] at this; exact this
  obtain ⟨axis, haxis⟩ : ∃ a, a = axisStack.getD level 0 := ⟨_, rfl⟩
  obtain ⟨mid, hmid⟩ : ∃ m, m = (st.bb._min.get axis + st.bb._max.get axis) * (1 / 2) :=
    ⟨_, rfl⟩
  have e1 : -n.first - 1 = (lo : Int) := by omega
  have e2 : -n.first - 1 + n.second - 1 = (hi : Int) - 1 := by omega
  obtain ⟨part, hpart⟩ : ∃ p, p = partitionPrims centers axis mid st._primitiveIndices
      (lo : Int) ((hi : Int) - 1) := ⟨_, rfl⟩
  have ps := partitionPrims_spec centers axis mid st._primitiveIndices (lo : Int)
    ((hi : Int) - 1) (by omega) (by omega) (by omega)
  rw [← hpart] at ps
  obtain ⟨p1, p2, p3, p4, p5, p6, -⟩ := ps
  obtain ⟨P1, left, right⟩ := part
  simp only [] at p1 p2 p3 p4 p5 p6
  obtain ⟨m, hm⟩ : ∃ m : Nat, (m : Int) = left := ⟨left.toNat, by omega⟩
  have hpart2 : (P1, left, right) = partitionPrims centers axis mid st._primitiveIndices
      (-n.first - 1) (-n.first - 1 + n.second - 1) := by rw [e2, e1]; exact hpart
  have bbfin : ∀ (v : Vec3 α), (v.set axis mid).set axis (v.get axis) = v :=
    fun v => Vec3.set_set_get v axis mid
  have hlen0 : (st._kdNodes.length : Int).toNat = st._kdNodes.length := by omega
  by_cases cL : m = lo
  · -- the left part is empty
    obtain ⟨rightLeaf, hrl⟩ : ∃ x : KdNode α, x = KdNode.mk2 (-left - 1)
        (((hi : Int) - 1 - left) + 1) := ⟨_, rfl⟩
    have halloc : ((st._kdNodes ++ [rightLeaf], (0 : Int), (st._kdNodes.length : Int)) :
        List (KdNode α) × Int × Int) = allocChildren st._kdNodes
        (KdNode.mk2 (-(-n.first - 1) - 1) ((((P1, left, right) : List Nat × Int × Int).2.2
          - (-n.first - 1)) + 1))
        (KdNode.mk2 (-((P1, left, right) : List Nat × Int × Int).2.1 - 1)
          (((-n.first - 1 + n.second - 1) - ((P1, left, right) : List Nat × Int × Int).2.1)
            + 1)) := by
      rw [allocChildren_right, e2, hrl]
      simp only [KdNode.mk2]; omega
    obtain ⟨st2, hst2⟩ : ∃ s : DivideState α, s = ⟨st._kdNodes ++ [rightLeaf], P1,
        ⟨st.bb._min, st.bb._max.set axis mid⟩, st.calls ++ [((h : Int), level)]⟩ := ⟨_, rfl⟩
    obtain ⟨st4, hst4⟩ : ∃ s : DivideState α, s = ⟨st2._kdNodes, st2._primitiveIndices,
        ⟨st2.bb._min.set axis mid, st2.bb._max.set axis (st.bb._max.get axis)⟩, st2.calls⟩ :=
      ⟨_, rfl⟩
    obtain ⟨r, hr⟩ : ∃ r, r = KdTree.divide target axisStack vertices triangles centers st4
        (st._kdNodes.length : Int) (level + 1) := ⟨_, rfl⟩
    have key := KdTree.divide_of_need_eq target axisStack vertices triangles centers st h level
      hnd n g0.symm axis haxis mid hmid (P1, left, right) hpart2 _ halloc st2 hst2 (st2, 0)
      (by simp) st4 hst4 r (by
        rw [hr]; simp only []
        rw [if_pos]
        have : (st._kdNodes.length : Int) ≠ 0 := by omega
        exact this)
    rw [key]
    have pr : DividePost target axisStack.length vertices triangles st4 st._kdNodes.length
        lo hi (level + 1) r := by
      rw [hr]
      apply ih st4 st._kdNodes.length lo hi rightLeaf
      · rw [hst4, hst2]; simp
      · rw [hrl]; simp only [KdNode.mk2]; omega
      · rw [hrl]; simp only [KdNode.mk2]; omega
      · omega
      · rw [hst4, hst2]; simp only []; omega
    clear key hr ih
    have hst4n : st4._kdNodes = st._kdNodes ++ [rightLeaf] := by rw [hst4, hst2]
    have hst4p : st4._primitiveIndices = P1 := by rw [hst4, hst2]
    have hst4b : st4.bb = ⟨st.bb._min.set axis mid,
        (st.bb._max.set axis mid).set axis (st.bb._max.get axis)⟩ := by rw [hst4, hst2]
    have hst4c : st4.calls = st.calls ++ [((h : Int), level)] := by rw [hst4, hst2]
    have hst2b : st2.bb._min = st.bb._min := by rw [hst2]
    obtain ⟨q1, q2, q3, q4, q5, q6, q7, q8, q9⟩ := pr
    rw [hst4n] at q6 q7 q8
    rw [hst4p] at q3 q4 q5
    simp only [List.length_append, List.length_singleton] at q6 q7 q8
    have hnr : r.1._kdNodes[h]? = some n := by
      rw [q7 h (by omega) (by omega), List.getElem?_append_left hh]; exact hn
    rw [q1, linkChildren_eq r.1._kdNodes h n 0 _ hnr (by simp) (by omega)]
    simp only [ne_eq, not_true_eq_false, if_false]
    rw [if_pos (by omega)]
    constructor
    · rfl
    · simp only []
      rw [q2, hst4b, hst2b, bbfin, bbfin]
    · exact q3.trans p1
    · simp only []; omega
    · intro k hk
      simp only []
      rw [q5 k hk, p3 k (by omega)]
    · simp only [List.length_set]; omega
    · intro j hj1 hj2
      simp only []
      rw [List.getElem?_set_ne (Ne.symm hj2), q7 j (by omega) (by omega),
        List.getElem?_append_left hj1]
    · simp only [List.length_set]
      have hr1 := q8.range_le
      refine Covers.onlyRight h lo hi st._kdNodes.length _ level _
        (List.getElem?_set_self (getElem?_lt_length _ _ _ hnr)) rfl rfl hh (by omega) hlv
        (by omega) ?_ ?_
      · apply q8.frame
        · intro j hj
          exact List.getElem?_set_ne (by omega)
        · intro k _ _; rfl
      · simp only []
        rw [getNode_set_ne _ _ _ _ (by omega)]
    · obtain ⟨new, c1, c2⟩ := q9
      refine ⟨((h : Int), level) :: new, ?_, ?_⟩
      · simp only []; rw [c1, hst4c]; simp
      · intro c hc
        rcases List.mem_cons.mp hc with hc | hc
        · rw [hc]; exact le_of_lt hlv
        · exact c2 c hc
  · by_cases cR : m = hi
    · -- the right part is empty
      obtain ⟨leftLeaf, hll⟩ : ∃ x : KdNode α, x = KdNode.mk2 (-(lo : Int) - 1)
          ((right - (lo : Int)) + 1) := ⟨_, rfl⟩
      have halloc : ((st._kdNodes ++ [leftLeaf], (st._kdNodes.length : Int), (0 : Int)) :
          List (KdNode α) × Int × Int) = allocChildren st._kdNodes
          (KdNode.mk2 (-(-n.first - 1) - 1) ((((P1, left, right) : List Nat × Int × Int).2.2
            - (-n.first - 1)) + 1))
          (KdNode.mk2 (-((P1, left, right) : List Nat × Int × Int).2.1 - 1)
            (((-n.first - 1 + n.second - 1) - ((P1, left, right) : List Nat × Int × Int).2.1)
              + 1)) := by
        rw [allocChildren_left, e1, hll]
        · simp only [KdNode.mk2]; omega
        · simp only [KdNode.mk2]; omega
      obtain ⟨st2, hst2⟩ : ∃ s : DivideState α, s = ⟨st._kdNodes ++ [leftLeaf], P1,
          ⟨st.bb._min, st.bb._max.set axis mid⟩, st.calls ++ [((h : Int), level)]⟩ := ⟨_, rfl⟩
      obtain ⟨l, hl⟩ : ∃ l, l = KdTree.divide target axisStack vertices triangles centers st2
          (st._kdNodes.length : Int) (level + 1) := ⟨_, rfl⟩
      obtain ⟨st4, hst4⟩ : ∃ s : DivideState α, s = ⟨l.1._kdNodes, l.1._primitiveIndices,
          ⟨l.1.bb._min.set axis mid, l.1.bb._max.set axis (st.bb._max.get axis)⟩, l.1.calls⟩ :=
        ⟨_, rfl⟩
      have key := KdTree.divide_of_need_eq target axisStack vertices triangles centers st h
        level hnd n g0.symm axis haxis mid hmid (P1, left, right) hpart2 _ halloc st2 hst2 l
        (by
          rw [hl]; simp only []
          rw [if_pos]
          have : (st._kdNodes.length : Int) ≠ 0 := by omega
          exact this) st4 hst4 (st4, 0) (by simp)
      rw [key]
      have pl : DividePost target axisStack.length vertices triangles st2 st._kdNodes.length
          lo hi (level + 1) l := by
        rw [hl]
        apply ih st2 st._kdNodes.length lo hi leftLeaf
        · rw [hst2]; simp
        · rw [hll]; simp only [KdNode.mk2]
        · rw [hll]; simp only [KdNode.mk2]; omega
        · omega
        · rw [hst2]; simp only []; omega
      clear key hl ih
      obtain ⟨q1, q2, q3, q4, q5, q6, q7, q8, q9⟩ := pl
      rw [hst2] at q2 q3 q4 q5 q6 q7 q8 q9
      simp only [List.length_append, List.length_singleton] at q2 q3 q4 q5 q6 q7 q8 q9
      have hnr : l.1._kdNodes[h]? = some n := by
        rw [q7 h (by omega) (by omega), List.getElem?_append_left hh]; exact hn
      rw [hst4]
      simp only []
      rw [q1, linkChildren_eq l.1._kdNodes h n _ 0 hnr (by omega) (by simp)]
      simp only [ne_eq, not_true_eq_false, if_false]
      rw [if_pos (by omega)]
      constructor
      · rfl
      · simp only []
        rw [q2]; simp only []
        rw [bbfin, bbfin]
      · exact q3.trans p1
      · simp only []; omega
      · intro k hk
        simp only []
        rw [q5 k hk, p3 k (by omega)]
      · simp only [List.length_set]; omega
      · intro j hj1 hj2
        simp only []
        rw [List.getElem?_set_ne (Ne.symm hj2), q7 j (by omega) (by omega),
          List.getElem?_append_left hj1]
      · simp only [List.length_set]
        have hr1 := q8.range_le
        refine Covers.onlyLeft h lo hi st._kdNodes.length _ level _
          (List.getElem?_set_self (getElem?_lt_length _ _ _ hnr)) rfl rfl hh (by omega) hlv
          (by omega) ?_ ?_
        · apply q8.frame
          · intro j hj
            exact List.getElem?_set_ne (by omega)
          · intro k _ _; rfl
        · simp only []
          rw [getNode_set_ne _ _ _ _ (by omega)]
      · obtain ⟨new, c1, c2⟩ := q9
        refine ⟨((h : Int), level) :: new, ?_, ?_⟩
        · simp only []; rw [c1]; simp
        · intro c hc
          rcases List.mem_cons.mp hc with hc | hc
          · rw [hc]; exact le_of_lt hlv
          · exact c2 c hc
    · -- both parts are present
      obtain ⟨leftLeaf, hll⟩ : ∃ x : KdNode α, x = KdNode.mk2 (-(lo : Int) - 1)
          ((right - (lo : Int)) + 1) := ⟨_, rfl⟩
      obtain ⟨rightLeaf, hrl⟩ : ∃ x : KdNode α, x = KdNode.mk2 (-left - 1)
          (((hi : Int) - 1 - left) + 1) := ⟨_, rfl⟩
      have halloc : ((st._kdNodes ++ [leftLeaf] ++ [rightLeaf], (st._kdNodes.length : Int),
          ((st._kdNodes.length + 1 : Nat) : Int)) :
          List (KdNode α) × Int × Int) = allocChildren st._kdNodes
          (KdNode.mk2 (-(-n.first - 1) - 1) ((((P1, left, right) : List Nat × Int × Int).2.2
            - (-n.first - 1)) + 1))
          (KdNode.mk2 (-((P1, left, right) : List Nat × Int × Int).2.1 - 1)
            (((-n.first - 1 + n.second - 1) - ((P1, left, right) : List Nat × Int × Int).2.1)
              + 1)) := by
        rw [allocChildren_both, e2, e1, hll, hrl]
        · simp only [KdNode.mk2]; omega
        · simp only [KdNode.mk2]; omega
      obtain ⟨st2, hst2⟩ : ∃ s : DivideState α, s = ⟨st._kdNodes ++ [leftLeaf] ++ [rightLeaf],
          P1, ⟨st.bb._min, st.bb._max.set axis mid⟩, st.calls ++ [((h : Int), level)]⟩ :=
        ⟨_, rfl⟩
      obtain ⟨l, hl⟩ : ∃ l, l = KdTree.divide target axisStack vertices triangles centers st2
          (st._kdNodes.length : Int) (level + 1) := ⟨_, rfl⟩
      obtain ⟨st4, hst4⟩ : ∃ s : DivideState α, s = ⟨l.1._kdNodes, l.1._primitiveIndices,
          ⟨l.1.bb._min.set axis mid, l.1.bb._max.set axis (st.bb._max.get axis)⟩, l.1.calls⟩ :=
        ⟨_, rfl⟩
      obtain ⟨r, hr⟩ : ∃ r, r = KdTree.divide target axisStack vertices triangles centers st4
          ((st._kdNodes.length + 1 : Nat) : Int) (level + 1) := ⟨_, rfl⟩
      have key := KdTree.divide_of_need_eq target axisStack vertices triangles centers st h
        level hnd n g0.symm axis haxis mid hmid (P1, left, right) hpart2 _ halloc st2 hst2 l
        (by
          rw [hl]; simp only []
          rw [if_pos]
          have : (st._kdNodes.length : Int) ≠ 0 := by omega
          exact this) st4 hst4 r (by
          rw [hr]; simp only []
          rw [if_pos]
          have : ((st._kdNodes.length + 1 : Nat) : Int) ≠ 0 := by omega
          exact this)
      rw [key]
      have pl : DividePost target axisStack.length vertices triangles st2 st._kdNodes.length
          lo m (level + 1) l := by
        rw [hl]
        apply ih st2 st._kdNodes.length lo m leftLeaf
        · rw [hst2]; exact getElem?_append_two_fst _ _ _
        · rw [hll]; simp only [KdNode.mk2]
        · rw [hll]; simp only [KdNode.mk2]; omega
        · omega
        · rw [hst2]; simp only []; omega
      obtain ⟨q1, q2, q3, q4, q5, q6, q7, q8, q9⟩ := pl
      rw [hst2] at q2 q3 q4 q5 q6 q7 q8 q9
      simp only [List.length_append, List.length_singleton] at q2 q3 q4 q5 q6 q7 q8 q9
      have pr : DividePost target axisStack.length vertices triangles st4
          (st._kdNodes.length + 1) m hi (level + 1) r := by
        rw [hr]
        apply ih st4 (st._kdNodes.length + 1) m hi rightLeaf
        · rw [hst4]; simp only []
          rw [q7 (st._kdNodes.length + 1) (by omega) (by omega)]
          exact getElem?_append_two_snd _ _ _
        · rw [hrl]; simp only [KdNode.mk2]; omega
        · rw [hrl]; simp only [KdNode.mk2]; omega
        · omega
        · rw [hst4]; simp only []; omega
      clear key hl hr ih
      obtain ⟨t1, t2, t3, t4, t5, t6, t7, t8, t9⟩ := pr
      rw [hst4] at t2 t3 t4 t5 t6 t7 t8 t9
      simp only [] at t2 t3 t4 t5 t6 t7 t8 t9
      have hnl : l.1._kdNodes[h]? = some n := by
        rw [q7 h (by omega) (by omega), List.getElem?_append_left (by simp; omega),
          List.getElem?_append_left hh]; exact hn
      have hnr : r.1._kdNodes[h]? = some n := by
        rw [t7 h (by omega) (by omega)]; exact hnl
      have hl1 := q8.range_le
      have hr1 := t8.range_le
      rw [q1, t1, linkChildren_eq r.1._kdNodes h n _ _ hnr (by omega) (by omega)]
      rw [if_pos (by omega), if_pos (by omega)]
      constructor
      · rfl
      · simp only []
        rw [t2, q2]; simp only []
        rw [bbfin, bbfin]
      · exact (t3.trans q3).trans p1
      · simp only []; omega
      · intro k hk
        simp only []
        rw [t5 k (by omega), q5 k (by omega), p3 k (by omega)]
      · simp only [List.length_set]; omega
      · intro j hj1 hj2
        simp only []
        rw [List.getElem?_set_ne (Ne.symm hj2), t7 j (by omega) (by omega),
          q7 j (by omega) (by omega), List.getElem?_append_left (by simp; omega),
          List.getElem?_append_left hj1]
      · simp only [List.length_set]
        refine Covers.both h lo m hi st._kdNodes.length l.1._kdNodes.length _ level _
          (List.getElem?_set_self (getElem?_lt_length _ _ _ hnr)) rfl (by push_cast; rfl) hh
          (by omega) (by omega) hlv (by omega) ?_ ?_ ?_
        · apply q8.frame
          · intro j hj
            rw [List.getElem?_set_ne (by omega), t7 j (by omega) (by omega)]
          · intro k k1 k2
            exact t5 k (by omega)
        · apply t8.frame
          · intro j hj
            exact List.getElem?_set_ne (by omega)
          · intro k _ _; rfl
        · simp only []
          rw [getNode_set_ne _ _ _ _ (by omega), getNode_set_ne _ _ _ _ (by omega)]
          push_cast; rfl
      · obtain ⟨new, c1, c2⟩ := q9
        obtain ⟨new2, d1, d2⟩ := t9
        refine ⟨((h : Int), level) :: (new ++ new2), ?_, ?_⟩
        · simp only []; rw [d1, c1]; simp
        · intro c hc
          rcases List.mem_cons.mp hc with hc | hc
          · rw [hc]; exact le_of_lt hlv
          · rcases List.mem_append.mp hc with hc | hc
            · exact c2 c hc
            · exact d2 c hc

/-- The postcondition of `divide` holds for every call on a leaf that covers a slice of the
primitive indices. -/
theorem divide_spec (target : Nat) (axisStack : List Nat) (vertices : List (Vec3 α))
    (triangles : List Triangle) (centers : List (Vec3 α)) :
    ∀ (k level : Nat), axisStack.length - level = k → level ≤ axisStack.length →
    ∀ (st : DivideState α) (h lo hi : Nat) (n : KdNode α),
      st._kdNodes[h]? = some n → n.first = -(lo : Int) - 1 → n.second = (hi : Int) - lo →
      lo ≤ hi → hi ≤ st._primitiveIndices.length →
      DividePost target axisStack.length vertices triangles st h lo hi level
        (KdTree.divide target axisStack vertices triangles centers st (h : Int) level) := by
  intro k
  induction k with
  | zero =>
    intro level hk hlev st h lo hi n hn hf hs hle _
    exact divide_post_leaf target axisStack vertices triangles centers st h lo hi level n hlev
      hn hf hs hle (fun hc => by omega)
  | succ k ih =>
    intro level hk hlev st h lo hi n hn hf hs hle hP
    by_cases hnd : level < axisStack.length ∧ ((getNode st._kdNodes (h : Int)).first < 0 ∧
        (getNode st._kdNodes (h : Int)).second > (target : Int))
    · exact divide_post_split target axisStack vertices triangles centers st h lo hi level n
        hn hf hs hP hnd (fun st1 h1 lo1 hi1 n1 a1 a2 a3 a4 a5 =>
          ih (level + 1) (by omega) (by omega) st1 h1 lo1 hi1 n1 a1 a2 a3 a4 a5)
    · exact divide_post_leaf target axisStack vertices triangles centers st h lo hi level n
        hlev hn hf hs hle hnd

theorem computeDivisionsLoop_length (n : Nat) : ∀ (d : Vec3 α) (s : List Nat),
    (computeDivisionsLoop n d s).length = s.length + n := by
  induction n with
  | zero => intro d s; rfl
  | succ n ih =>
    intro d s
    simp only [computeDivisionsLoop]
    rw [ih]; simp; omega

theorem collect_spec (stream : List (Nat × Nat × Nat)) : ∀ (t : KdTree α),
    (Geometry.accept ⟨none, BoundingBox.init, stream⟩ t)._triangles =
      t._triangles ++ stream.map (fun p => (⟨p.1, p.2.1, p.2.2⟩ : Triangle)) ∧
    (Geometry.accept ⟨none, BoundingBox.init, stream⟩ t)._primitiveIndices =
      t._primitiveIndices ++ List.range' t._triangles.length stream.length ∧
    (Geometry.accept ⟨none, BoundingBox.init, stream⟩ t)._centers.length = t._centers.length + stream.length ∧
    (Geometry.accept ⟨none, BoundingBox.init, stream⟩ t)._kdNodes = t._kdNodes ∧
    (Geometry.accept ⟨none, BoundingBox.init, stream⟩ t)._axisStack = t._axisStack ∧
    (Geometry.accept ⟨none, BoundingBox.init, stream⟩ t)._vertices = t._vertices ∧
    (Geometry.accept ⟨none, BoundingBox.init, stream⟩ t)._bb = t._bb ∧
    (Geometry.accept ⟨none, BoundingBox.init, stream⟩ t)._geometry = t._geometry := by
  induction stream with
  | nil => intro t; simp [Geometry.accept]
  | cons p ps ih =>
    intro t
    have := ih (TriangleIndicesCollector.call t p.1 p.2.1 p.2.2)
    unfold Geometry.accept at this ⊢
    simp only [List.foldl_cons]
    obtain ⟨h1, h2, h3, h4, h5, h6, h7, h8⟩ := this
    rw [h1, h2, h3, h4, h5, h6, h7, h8]
    refine ⟨?_, ?_, ?_, rfl, rfl, rfl, rfl, rfl⟩
    · simp [TriangleIndicesCollector.call]
    · simp [TriangleIndicesCollector.call, List.range'_succ]
    · simp [TriangleIndicesCollector.call]; omega

theorem accept_spec (geometry : Geometry α) (t : KdTree α) :
    (geometry.accept t)._triangles =
      t._triangles ++ geometry.triangleStream.map (fun p => (⟨p.1, p.2.1, p.2.2⟩ : Triangle)) ∧
    (geometry.accept t)._primitiveIndices =
      t._primitiveIndices ++ List.range' t._triangles.length geometry.triangleStream.length ∧
    (geometry.accept t)._centers.length = t._centers.length + geometry.triangleStream.length ∧
    (geometry.accept t)._kdNodes = t._kdNodes ∧
    (geometry.accept t)._axisStack = t._axisStack ∧
    (geometry.accept t)._vertices = t._vertices ∧
    (geometry.accept t)._bb = t._bb ∧
    (geometry.accept t)._geometry = t._geometry :=
  collect_spec geometry.triangleStream t

theorem buildDivide_spec (options : BuildOptions) (geometry : Geometry α)
    (vertices : List (Vec3 α)) :
    BuildPost options geometry vertices
      (KdTree.buildDivide options geometry vertices KdTree.empty) := by
  unfold KdTree.buildDivide
  simp only []
  obtain ⟨t2, ht2⟩ : ∃ t2 : KdTree α, t2 = KdTree.computeDivisions options
      { (KdTree.empty : KdTree α) with
        _geometry := some geometry, _bb := geometry.getBound, _vertices := some vertices } :=
    ⟨_, rfl⟩
  rw [← ht2]
  have a2 : t2._axisStack.length = options._maxNumLevels := by
    rw [ht2]; simp [KdTree.computeDivisions, computeDivisionsLoop_length, KdTree.empty]
  have b2 : t2._triangles = [] := by rw [ht2]; rfl
  have c2 : t2._primitiveIndices = [] := by rw [ht2]; rfl
  have d2 : t2._centers = [] := by rw [ht2]; rfl
  have e2 : t2._kdNodes = [] := by rw [ht2]; rfl
  have f2 : t2._vertices = some vertices := by rw [ht2]; rfl
  obtain ⟨h1, h2, h3, h4, h5, h6, h7, h8⟩ := accept_spec geometry t2
  rw [b2] at h1 h2
  rw [c2] at h2
  rw [d2] at h3
  rw [e2] at h4
  generalize geometry.accept t2 = t3 at *
  simp only [List.nil_append, List.length_nil, Nat.zero_add] at h1 h2 h3
  have hr : t3._primitiveIndices = List.range geometry.triangleStream.length := by
    rw [h2, List.range_eq_range']
  have hl : t3._axisStack.length = options._maxNumLevels := by rw [h5]; exact a2
  have ds := divide_spec options._targetNumTrianglesPerLeaf t3._axisStack vertices t3._triangles
    t3._centers t3._axisStack.length 0 (by omega) (by omega)
    ⟨(addNode t3._kdNodes
        { (KdNode.mk2 (-1) t3._primitiveIndices.length : KdNode α) with bb := t3._bb }).1,
      t3._primitiveIndices, t3._bb, []⟩ 0 0 geometry.triangleStream.length
    { (KdNode.mk2 (-1) t3._primitiveIndices.length : KdNode α) with bb := t3._bb }
    (by simp [addNode, h4]) (by simp [KdNode.mk2]) (by simp [KdNode.mk2, hr]) (by omega)
    (by simp [hr])
  have e0 : (addNode t3._kdNodes
      { (KdNode.mk2 (-1) t3._primitiveIndices.length : KdNode α) with bb := t3._bb }).2
      = ((0 : Nat) : Int) := by simp [addNode, h4]
  rw [e0]
  generalize KdTree.divide options._targetNumTrianglesPerLeaf t3._axisStack vertices
    t3._triangles t3._centers _ ((0 : Nat) : Int) 0 = r at ds ⊢
  obtain ⟨q1, q2, q3, q4, q5, q6, q7, q8, q9⟩ := ds
  simp only [addNode, h4, List.nil_append, List.length_singleton] at q6 q7 q8
  rw [hl] at q8 q9
  refine ⟨h1, h3, ?_, hl, ?_, rfl, ?_, ?_⟩
  · simp only []; rw [← hr]; exact q3
  · simp only []; rw [h6, f2]
  · simp only []; exact q8
  · obtain ⟨new, c1, c2⟩ := q9
    intro c hc
    rw [c1] at hc
    simp only [List.nil_append] at hc
    exact c2 c hc

theorem BoundingBox.contains_iff (bb : BoundingBox α) (v : Vec3 α) :
    bb.Contains v ↔ ∀ a : Nat, bb._min.get a ≤ v.get a ∧ v.get a ≤ bb._max.get a := by
  constructor
  · intro h a
    unfold Vec3.get
    obtain ⟨hx, hy, hz⟩ := h
    split_ifs
    · exact hx
    · exact hy
    · exact hz
  · intro h
    exact ⟨by simpa [Vec3.get] using h 0, by simpa [Vec3.get] using h 1,
      by simpa [Vec3.get] using h 2⟩

theorem BoundingBox.valid_iff (bb : BoundingBox α) :
    bb.valid = true ↔ bb._min.x ≤ bb._max.x ∧ bb._min.y ≤ bb._max.y ∧ bb._min.z ≤ bb._max.z := by
  unfold BoundingBox.valid
  simp [and_assoc]

theorem BoundingBox.valid_of_contains (bb : BoundingBox α) (v : Vec3 α) (h : bb.Contains v) :
    bb.valid = true := by
  rw [BoundingBox.valid_iff]
  obtain ⟨⟨a, b⟩, ⟨c, d⟩, ⟨e, f⟩⟩ := h
  exact ⟨le_trans a b, le_trans c d, le_trans e f⟩

theorem BoundingBox.expandBy_contains_self (bb : BoundingBox α) (v : Vec3 α) :
    (bb.expandBy v).Contains v := by
  unfold BoundingBox.Contains BoundingBox.expandBy
  simp only []
  refine ⟨⟨?_, ?_⟩, ⟨?_, ?_⟩, ⟨?_, ?_⟩⟩ <;> split_ifs <;> first | exact le_refl _ | (apply le_of_not_lt; assumption)

theorem BoundingBox.expandBy_contains (bb : BoundingBox α) (v w : Vec3 α) (h : bb.Contains w) :
    (bb.expandBy v).Contains w := by
  unfold BoundingBox.Contains BoundingBox.expandBy at *
  simp only []
  obtain ⟨⟨a, b⟩, ⟨c, d⟩, ⟨e, f⟩⟩ := h
  refine ⟨⟨?_, ?_⟩, ⟨?_, ?_⟩, ⟨?_, ?_⟩⟩ <;> split_ifs <;>
    first | assumption | exact le_trans (le_of_lt (by assumption)) (by assumption)
          | exact le_trans (by assumption) (le_of_lt (by assumption))

theorem BoundingBox.expandBy_bounded (bb : BoundingBox α) (v : Vec3 α) (h : bb.Bounded) :
    (bb.expandBy v).Bounded := by
  unfold BoundingBox.Bounded BoundingBox.expandBy at *
  simp only []
  obtain ⟨⟨a, b⟩, ⟨c, d⟩, ⟨e, f⟩⟩ := h
  refine ⟨⟨?_, ?_⟩, ⟨?_, ?_⟩, ⟨?_, ?_⟩⟩ <;> split_ifs <;> first | assumption | linarith

theorem FLT_MAX_pos : (0 : α) < FLT_MAX := by
  unfold FLT_MAX; norm_num

theorem BoundingBox.init_bounded : (BoundingBox.init : BoundingBox α).Bounded := by
  unfold BoundingBox.Bounded BoundingBox.init
  simp

theorem BoundingBox.init_not_valid : (BoundingBox.init : BoundingBox α).valid = false := by
  have h := FLT_MAX_pos (α := α)
  have h2 : ¬ ((FLT_MAX : α) ≤ -FLT_MAX) := by
    intro hc; linarith
  simp [BoundingBox.valid, BoundingBox.init, h2]

theorem leafBoundLoop_contains_of (vertices : List (Vec3 α)) (triangles : List Triangle)
    (prims : List Nat) (w : Vec3 α) (n : Nat) : ∀ (i : Int) (bb : BoundingBox α),
    bb.Contains w → (leafBoundLoop vertices triangles prims n i bb).Contains w := by
  induction n with
  | zero => intro i bb h; exact h
  | succ n ih =>
    intro i bb h
    simp only [leafBoundLoop]
    apply ih
    have h3 := BoundingBox.expandBy_contains _ (vertexAt vertices
      (triangles.getD (prims.getD i.toNat 0) ⟨0, 0, 0⟩)._p3) w
      (BoundingBox.expandBy_contains _ (vertexAt vertices
        (triangles.getD (prims.getD i.toNat 0) ⟨0, 0, 0⟩)._p2) w
        (BoundingBox.expandBy_contains bb (vertexAt vertices
          (triangles.getD (prims.getD i.toNat 0) ⟨0, 0, 0⟩)._p1) w h))
    obtain ⟨⟨a, b⟩, ⟨c, d⟩, ⟨e, f⟩⟩ := h3
    have he : (0 : α) ≤ 1 / 1000000 := by norm_num
    exact ⟨⟨by simp only []; linarith, by simp only []; linarith⟩,
      ⟨by simp only []; linarith, by simp only []; linarith⟩,
      ⟨by simp only []; linarith, by simp only []; linarith⟩⟩

theorem leafBoundLoop_contains (vertices : List (Vec3 α)) (triangles : List Triangle)
    (prims : List Nat) (n : Nat) : ∀ (i : Int) (bb : BoundingBox α) (j : Nat), j < n →
    ∀ v ∈ triangleVertices vertices triangles prims (i + j),
      (leafBoundLoop vertices triangles prims n i bb).Contains v := by
  induction n with
  | zero => intro i bb j hj; omega
  | succ n ih =>
    intro i bb j hj v hv
    rcases Nat.eq_zero_or_pos j with h0 | hpos
    · subst h0
      simp only [leafBoundLoop]
      apply leafBoundLoop_contains_of
      simp only [triangleVertices, Nat.cast_zero, add_zero, List.mem_cons, List.mem_singleton,
        List.not_mem_nil, or_false] at hv
      have key : (((bb.expandBy (vertexAt vertices
          (triangles.getD (prims.getD i.toNat 0) ⟨0, 0, 0⟩)._p1)).expandBy (vertexAt vertices
          (triangles.getD (prims.getD i.toNat 0) ⟨0, 0, 0⟩)._p2)).expandBy (vertexAt vertices
          (triangles.getD (prims.getD i.toNat 0) ⟨0, 0, 0⟩)._p3)).Contains v := by
        rcases hv with hv | hv | hv
        · rw [hv]
          exact BoundingBox.expandBy_contains _ _ _ (BoundingBox.expandBy_contains _ _ _
            (BoundingBox.expandBy_contains_self _ _))
        · rw [hv]
          exact BoundingBox.expandBy_contains _ _ _ (BoundingBox.expandBy_contains_self _ _)
        · rw [hv]
          exact BoundingBox.expandBy_contains_self _ _
      obtain ⟨⟨a, b⟩, ⟨c, d⟩, ⟨e, f⟩⟩ := key
      have he : (0 : α) ≤ 1 / 1000000 := by norm_num
      exact ⟨⟨by simp only []; linarith, by simp only []; linarith⟩,
        ⟨by simp only []; linarith, by simp only []; linarith⟩,
        ⟨by simp only []; linarith, by simp only []; linarith⟩⟩
    · simp only [leafBoundLoop]
      refine ih (i + 1) _ (j - 1) (by omega) v ?_
      have e : i + 1 + ((j - 1 : Nat) : Int) = i + (j : Int) := by omega
      rw [e]; exact hv

theorem leafBoundLoop_bounded (vertices : List (Vec3 α)) (triangles : List Triangle)
    (prims : List Nat) (n : Nat) : ∀ (i : Int) (bb : BoundingBox α),
    bb.Bounded → (leafBoundLoop vertices triangles prims n i bb).Bounded := by
  induction n with
  | zero => intro i bb h; exact h
  | succ n ih =>
    intro i bb h
    simp only [leafBoundLoop]
    apply ih
    have h3 := BoundingBox.expandBy_bounded _ (vertexAt vertices
      (triangles.getD (prims.getD i.toNat 0) ⟨0, 0, 0⟩)._p3)
      (BoundingBox.expandBy_bounded _ (vertexAt vertices
        (triangles.getD (prims.getD i.toNat 0) ⟨0, 0, 0⟩)._p2)
        (BoundingBox.expandBy_bounded bb (vertexAt vertices
          (triangles.getD (prims.getD i.toNat 0) ⟨0, 0, 0⟩)._p1) h))
    obtain ⟨⟨a, b⟩, ⟨c, d⟩, ⟨e, f⟩⟩ := h3
    have he : (0 : α) ≤ 1 / 1000000 := by norm_num
    exact ⟨⟨by simp only []; linarith, by simp only []; linarith⟩,
      ⟨by simp only []; linarith, by simp only []; linarith⟩,
      ⟨by simp only []; linarith, by simp only []; linarith⟩⟩

theorem BoundingBox.expandByBox_contains_left (bb o : BoundingBox α) (w : Vec3 α)
    (h : bb.Contains w) : (bb.expandByBox o).Contains w := by
  unfold BoundingBox.expandByBox
  by_cases hv : o.valid = true
  · rw [if_pos hv]
    unfold BoundingBox.Contains at *
    simp only []
    obtain ⟨⟨a, b⟩, ⟨c, d⟩, ⟨e, f⟩⟩ := h
    refine ⟨⟨?_, ?_⟩, ⟨?_, ?_⟩, ⟨?_, ?_⟩⟩ <;> split_ifs <;> first | assumption | linarith
  · rw [if_neg hv]; exact h

theorem BoundingBox.expandByBox_contains_right (bb o : BoundingBox α) (w : Vec3 α)
    (hv : o.valid = true) (h : o.Contains w) : (bb.expandByBox o).Contains w := by
  unfold BoundingBox.expandByBox
  rw [if_pos hv]
  unfold BoundingBox.Contains at *
  simp only []
  obtain ⟨⟨a, b⟩, ⟨c, d⟩, ⟨e, f⟩⟩ := h
  refine ⟨⟨?_, ?_⟩, ⟨?_, ?_⟩, ⟨?_, ?_⟩⟩ <;> split_ifs <;> first | assumption | linarith

theorem BoundingBox.expandByBox_bounded (bb o : BoundingBox α) (h : bb.Bounded)
    (ho : o.Bounded) : (bb.expandByBox o).Bounded := by
  unfold BoundingBox.expandByBox
  by_cases hv : o.valid = true
  · rw [if_pos hv]
    unfold BoundingBox.Bounded at *
    simp only []
    obtain ⟨⟨a, b⟩, ⟨c, d⟩, ⟨e, f⟩⟩ := h
    obtain ⟨⟨a2, b2⟩, ⟨c2, d2⟩, ⟨e2, f2⟩⟩ := ho
    refine ⟨⟨?_, ?_⟩, ⟨?_, ?_⟩, ⟨?_, ?_⟩⟩ <;> split_ifs <;> assumption
  · rw [if_neg hv]; exact h

theorem BoundingBox.expandByBox_valid (bb o : BoundingBox α) (hv : o.valid = true) :
    (bb.expandByBox o).valid = true := by
  rw [BoundingBox.valid_iff] at hv ⊢
  unfold BoundingBox.expandByBox
  rw [if_pos (by rw [BoundingBox.valid_iff]; exact hv)]
  simp only []
  obtain ⟨a, b, c⟩ := hv
  refine ⟨?_, ?_, ?_⟩ <;> split_ifs <;> linarith

theorem BoundingBox.expandByBox_valid_left (bb o : BoundingBox α) (hv : bb.valid = true) :
    (bb.expandByBox o).valid = true := by
  by_cases ho : o.valid = true
  · exact BoundingBox.expandByBox_valid bb o ho
  · unfold BoundingBox.expandByBox
    rw [if_neg ho]; exact hv

theorem BoundingBox.init_expandByBox (o : BoundingBox α) (hv : o.valid = true)
    (hb : o.Bounded) : BoundingBox.init.expandByBox o = o := by
  unfold BoundingBox.expandByBox
  rw [if_pos hv]
  obtain ⟨⟨a, b⟩, ⟨c, d⟩, ⟨e, f⟩⟩ := hb
  obtain ⟨mn, mx⟩ := o
  obtain ⟨x1, y1, z1⟩ := mn
  obtain ⟨x2, y2, z2⟩ := mx
  simp only [BoundingBox.init] at *
  have k1 : ∀ (u : α), u ≤ FLT_MAX → (if u < FLT_MAX then u else FLT_MAX) = u := by
    intro u hu
    split_ifs with h
    · rfl
    · exact le_antisymm (not_lt.mp h) hu
  have k2 : ∀ (u : α), -FLT_MAX ≤ u → (if u > -FLT_MAX then u else -FLT_MAX) = u := by
    intro u hu
    split_ifs with h
    · rfl
    · exact le_antisymm hu (not_lt.mp h)
  rw [k1 x1 a, k1 y1 c, k1 z1 e, k2 x2 b, k2 y2 d, k2 z2 f]

theorem Covers.level_le {target L : Nat} {vertices : List (Vec3 α)} {triangles : List Triangle}
    {nodes : List (KdNode α)} {P : List Nat} {h lo hi a b lvl : Nat}
    (c : Covers target L vertices triangles nodes P h lo hi a b lvl) : lvl ≤ L := by
  cases c <;> omega

theorem Covers.lo_le {target L : Nat} {vertices : List (Vec3 α)} {triangles : List Triangle}
    {nodes : List (KdNode α)} {P : List Nat} {h lo hi a b lvl : Nat}
    (c : Covers target L vertices triangles nodes P h lo hi a b lvl) : lo ≤ hi := by
  cases c <;> omega

/-- Every box of a subtree over a non-empty slice is valid, has corners within the initial
ones, and contains every vertex of every triangle of the slice. -/
theorem Covers.box {target L : Nat} {vertices : List (Vec3 α)} {triangles : List Triangle}
    {nodes : List (KdNode α)} {P : List Nat} {h lo hi a b lvl : Nat}
    (c : Covers target L vertices triangles nodes P h lo hi a b lvl) (hlt : lo < hi) :
    ∀ n, nodes[h]? = some n → n.bb.valid = true ∧ n.bb.Bounded ∧
      ∀ i, lo ≤ i → i < hi → ∀ v ∈ triangleVertices vertices triangles P (i : Int),
        n.bb.Contains v := by
  induction c with
  | leaf h lo hi a lvl n h1 h2 h3 h4 h5 h6 h7 =>
    intro n2 hn2
    rw [h1] at hn2; cases hn2
    have hc : ∀ i, lo ≤ i → i < hi → ∀ v ∈ triangleVertices vertices triangles P (i : Int),
        n.bb.Contains v := by
      intro i i1 i2 v hv
      rw [h5]
      refine leafBoundLoop_contains vertices triangles P (hi - lo) lo _ (i - lo) (by omega) v ?_
      have e : (lo : Int) + ((i - lo : Nat) : Int) = (i : Int) := by omega
      rw [e]; exact hv
    refine ⟨?_, ?_, hc⟩
    · have hv : vertexAt vertices
          (triangles.getD (P.getD ((lo : Nat) : Int).toNat 0) ⟨0, 0, 0⟩)._p1 ∈
          triangleVertices vertices triangles P (lo : Int) := by
        simp [triangleVertices]
      exact BoundingBox.valid_of_contains _ _ (hc lo (le_refl _) hlt _ hv)
    · rw [h5]
      exact leafBoundLoop_bounded _ _ _ _ _ _ BoundingBox.init_bounded
  | both h lo m hi a c b lvl n h1 h2 h3 h4 h5 h6 h7 h8 c1 c2 h9 ih1 ih2 =>
    intro n2 hn2
    rw [h1] at hn2; cases hn2
    obtain ⟨na, hna⟩ : ∃ na, nodes[a]? = some na := by cases c1 <;> exact ⟨_, by assumption⟩
    obtain ⟨nb, hnb⟩ : ∃ nb, nodes[a + 1]? = some nb := by
      cases c2 <;> exact ⟨_, by assumption⟩
    obtain ⟨va, ba, ca⟩ := ih1 h5 na hna
    obtain ⟨vb, bb, cb⟩ := ih2 h6 nb hnb
    have ga : getNode nodes (a : Int) = na := getNode_natCast _ _ _ hna
    have gb : getNode nodes ((a : Int) + 1) = nb := by
      have := getNode_natCast nodes (a + 1) nb hnb
      rw [← this]; push_cast; rfl
    rw [ga, gb] at h9
    rw [h9]
    refine ⟨BoundingBox.expandByBox_valid _ _ vb, ?_, ?_⟩
    · exact BoundingBox.expandByBox_bounded _ _
        (BoundingBox.expandByBox_bounded _ _ BoundingBox.init_bounded ba) bb
    · intro i i1 i2 v hv
      by_cases him : i < m
      · exact BoundingBox.expandByBox_contains_left _ _ _
          (BoundingBox.expandByBox_contains_right _ _ _ va (ca i i1 him v hv))
      · exact BoundingBox.expandByBox_contains_right _ _ _ vb (cb i (by omega) i2 v hv)
  | onlyLeft h lo hi a b lvl n h1 h2 h3 h4 h5 h6 h7 c1 h9 ih1 =>
    intro n2 hn2
    rw [h1] at hn2; cases hn2
    obtain ⟨na, hna⟩ : ∃ na, nodes[a]? = some na := by cases c1 <;> exact ⟨_, by assumption⟩
    obtain ⟨va, ba, ca⟩ := ih1 h5 na hna
    have ga : getNode nodes (a : Int) = na := getNode_natCast _ _ _ hna
    rw [ga] at h9
    rw [h9]
    refine ⟨BoundingBox.expandByBox_valid _ _ va, ?_, ?_⟩
    · exact BoundingBox.expandByBox_bounded _ _ BoundingBox.init_bounded ba
    · intro i i1 i2 v hv
      exact BoundingBox.expandByBox_contains_right _ _ _ va (ca i i1 i2 v hv)
  | onlyRight h lo hi a b lvl n h1 h2 h3 h4 h5 h6 h7 c1 h9 ih1 =>
    intro n2 hn2
    rw [h1] at hn2; cases hn2
    obtain ⟨na, hna⟩ : ∃ na, nodes[a]? = some na := by cases c1 <;> exact ⟨_, by assumption⟩
    obtain ⟨va, ba, ca⟩ := ih1 h5 na hna
    have ga : getNode nodes (a : Int) = na := getNode_natCast _ _ _ hna
    rw [ga] at h9
    rw [h9]
    refine ⟨BoundingBox.expandByBox_valid _ _ va, ?_, ?_⟩
    · exact BoundingBox.expandByBox_bounded _ _ BoundingBox.init_bounded ba
    · intro i i1 i2 v hv
      exact BoundingBox.expandByBox_contains_right _ _ _ va (ca i i1 i2 v hv)

/-- Every handle of the footprint of a subtree is itself the root of a subtree. -/
theorem Covers.sub {target L : Nat} {vertices : List (Vec3 α)} {triangles : List Triangle}
    {nodes : List (KdNode α)} {P : List Nat} {h lo hi a b lvl : Nat}
    (c : Covers target L vertices triangles nodes P h lo hi a b lvl) :
    ∀ j, (j = h ∨ (a ≤ j ∧ j < b)) → ∃ lo2 hi2 a2 b2 lvl2,
      Covers target L vertices triangles nodes P j lo2 hi2 a2 b2 lvl2 ∧ lo ≤ lo2 ∧ hi2 ≤ hi ∧
        (lo < hi → lo2 < hi2) := by
  induction c with
  | leaf h lo hi a lvl n h1 h2 h3 h4 h5 h6 h7 =>
    intro j hj
    have : j = h := by omega
    subst this
    exact ⟨lo, hi, a, a, lvl, Covers.leaf j lo hi a lvl n h1 h2 h3 h4 h5 h6 h7, le_refl _,
      le_refl _, fun x => x⟩
  | both h lo m hi a c b lvl n h1 h2 h3 h4 h5 h6 h7 h8 c1 c2 h9 ih1 ih2 =>
    intro j hj
    have r1 := c1.range_le
    have r2 := c2.range_le
    by_cases e0 : j = h
    · subst e0
      exact ⟨lo, hi, a, b, lvl, Covers.both j lo m hi a c b lvl n h1 h2 h3 h4 h5 h6 h7 h8 c1 c2
        h9, le_refl _, le_refl _, fun x => x⟩
    · by_cases e1 : j = a ∨ (a + 2 ≤ j ∧ j < c)
      · obtain ⟨lo2, hi2, a2, b2, lvl2, cc, x1, x2, x3⟩ := ih1 j e1
        exact ⟨lo2, hi2, a2, b2, lvl2, cc, x1, by omega, fun _ => x3 h5⟩
      · obtain ⟨lo2, hi2, a2, b2, lvl2, cc, x1, x2, x3⟩ := ih2 j (by omega)
        exact ⟨lo2, hi2, a2, b2, lvl2, cc, by omega, x2, fun _ => x3 h6⟩
  | onlyLeft h lo hi a b lvl n h1 h2 h3 h4 h5 h6 h7 c1 h9 ih1 =>
    intro j hj
    by_cases e0 : j = h
    · subst e0
      exact ⟨lo, hi, a, b, lvl, Covers.onlyLeft j lo hi a b lvl n h1 h2 h3 h4 h5 h6 h7 c1 h9,
        le_refl _, le_refl _, fun x => x⟩
    · exact ih1 j (by omega)
  | onlyRight h lo hi a b lvl n h1 h2 h3 h4 h5 h6 h7 c1 h9 ih1 =>
    intro j hj
    by_cases e0 : j = h
    · subst e0
      exact ⟨lo, hi, a, b, lvl, Covers.onlyRight j lo hi a b lvl n h1 h2 h3 h4 h5 h6 h7 c1 h9,
        le_refl _, le_refl _, fun x => x⟩
    · exact ih1 j (by omega)

theorem Covers.reach_sub {target L : Nat} {vertices : List (Vec3 α)} {triangles : List Triangle}
    {nodes : List (KdNode α)} {P : List Nat} {r k d : Nat} (hr : ReachFrom nodes r k d) :
    ∀ {lo hi a b lvl : Nat}, Covers target L vertices triangles nodes P r lo hi a b lvl →
    ∃ lo2 hi2 a2 b2, Covers target L vertices triangles nodes P k lo2 hi2 a2 b2 (lvl + d) ∧
      lo ≤ lo2 ∧ hi2 ≤ hi := by
  induction hr with
  | here r => intro lo hi a b lvl c; exact ⟨lo, hi, a, b, c, le_refl _, le_refl _⟩
  | first r h d n h1 h2 h3 _ ih =>
    intro lo hi a b lvl c
    have e : lvl + (d + 1) = lvl + 1 + d := by omega
    rw [e]
    cases c with
    | leaf _ _ _ _ _ n2 g1 g2 => rw [h1] at g1; cases g1; omega
    | both _ _ m _ _ c2 _ _ n2 g1 g2 g3 g4 g5 g6 g7 g8 c1 c3 g9 =>
      rw [h1] at g1; cases g1
      have : n.first.toNat = a := by omega
      rw [this] at ih
      obtain ⟨lo2, hi2, a2, b2, cc, x1, x2⟩ := ih c1
      exact ⟨lo2, hi2, a2, b2, cc, x1, by omega⟩
    | onlyLeft _ _ _ _ _ _ n2 g1 g2 g3 g4 g5 g6 g7 c1 g9 =>
      rw [h1] at g1; cases g1
      have : n.first.toNat = a := by omega
      rw [this] at ih
      exact ih c1
    | onlyRight _ _ _ _ _ _ n2 g1 g2 g3 => rw [h1] at g1; cases g1; omega
  | second r h d n h1 h2 h3 _ ih =>
    intro lo hi a b lvl c
    have e : lvl + (d + 1) = lvl + 1 + d := by omega
    rw [e]
    cases c with
    | leaf _ _ _ _ _ n2 g1 g2 => rw [h1] at g1; cases g1; omega
    | both _ _ m _ _ c2 _ _ n2 g1 g2 g3 g4 g5 g6 g7 g8 c1 c3 g9 =>
      rw [h1] at g1; cases g1
      have : n.second.toNat = a + 1 := by omega
      rw [this] at ih
      obtain ⟨lo2, hi2, a2, b2, cc, x1, x2⟩ := ih c3
      exact ⟨lo2, hi2, a2, b2, cc, by omega, x2⟩
    | onlyLeft _ _ _ _ _ _ n2 g1 g2 g3 => rw [h1] at g1; cases g1; omega
    | onlyRight _ _ _ _ _ _ n2 g1 g2 g3 g4 g5 g6 g7 c1 g9 =>
      rw [h1] at g1; cases g1
      have : n.second.toNat = a := by omega
      rw [this] at ih
      exact ih c1

/-- Every handle of the footprint of a subtree is reached from its root. -/
theorem Covers.reach {target L : Nat} {vertices : List (Vec3 α)} {triangles : List Triangle}
    {nodes : List (KdNode α)} {P : List Nat} {h lo hi a b lvl : Nat}
    (c : Covers target L vertices triangles nodes P h lo hi a b lvl) :
    ∀ j, (j = h ∨ (a ≤ j ∧ j < b)) → ∃ d, ReachFrom nodes h j d := by
  induction c with
  | leaf h lo hi a lvl n h1 h2 h3 h4 h5 h6 h7 =>
    intro j hj
    have : j = h := by omega
    subst this
    exact ⟨0, ReachFrom.here j⟩
  | both h lo m hi a c b lvl n h1 h2 h3 h4 h5 h6 h7 h8 c1 c2 h9 ih1 ih2 =>
    intro j hj
    have r1 := c1.range_le
    have r2 := c2.range_le
    by_cases e0 : j = h
    · subst e0; exact ⟨0, ReachFrom.here j⟩
    · by_cases e1 : j = a ∨ (a + 2 ≤ j ∧ j < c)
      · obtain ⟨d, hd⟩ := ih1 j e1
        refine ⟨d + 1, ReachFrom.first h j d n h1 (by omega) (by omega) ?_⟩
        have : n.first.toNat = a := by omega
        rw [this]; exact hd
      · obtain ⟨d, hd⟩ := ih2 j (by omega)
        refine ⟨d + 1, ReachFrom.second h j d n h1 (by omega) (by omega) ?_⟩
        have : n.second.toNat = a + 1 := by omega
        rw [this]; exact hd
  | onlyLeft h lo hi a b lvl n h1 h2 h3 h4 h5 h6 h7 c1 h9 ih1 =>
    intro j hj
    by_cases e0 : j = h
    · subst e0; exact ⟨0, ReachFrom.here j⟩
    · obtain ⟨d, hd⟩ := ih1 j (by omega)
      refine ⟨d + 1, ReachFrom.first h j d n h1 (by omega) (by omega) ?_⟩
      have : n.first.toNat = a := by omega
      rw [this]; exact hd
  | onlyRight h lo hi a b lvl n h1 h2 h3 h4 h5 h6 h7 c1 h9 ih1 =>
    intro j hj
    by_cases e0 : j = h
    · subst e0; exact ⟨0, ReachFrom.here j⟩
    · obtain ⟨d, hd⟩ := ih1 j (by omega)
      refine ⟨d + 1, ReachFrom.second h j d n h1 (by omega) (by omega) ?_⟩
      have : n.second.toNat = a := by omega
      rw [this]; exact hd

/-- The leaf slices of a subtree lie in its slice, are pairwise disjoint, and cover it. -/
theorem Covers.slices {target L : Nat} {vertices : List (Vec3 α)} {triangles : List Triangle}
    {nodes : List (KdNode α)} {P : List Nat} {h lo hi a b lvl : Nat}
    (c : Covers target L vertices triangles nodes P h lo hi a b lvl) :
    (∀ k i, LeafSliceFrom nodes h k i → lo ≤ i ∧ i < hi) ∧
    (∀ k1 k2 i, LeafSliceFrom nodes h k1 i → LeafSliceFrom nodes h k2 i → k1 = k2) ∧
    (∀ i, lo ≤ i → i < hi → ∃ k, LeafSliceFrom nodes h k i) := by
  induction c with
  | leaf h lo hi a lvl n h1 h2 h3 h4 h5 h6 h7 =>
    have key : ∀ k i, LeafSliceFrom nodes h k i → k = h ∧ lo ≤ i ∧ i < hi := by
      intro k i ⟨d, n2, hr, hn2, hf, hi1, hi2⟩
      cases hr with
      | here => rw [h1] at hn2; cases hn2; exact ⟨rfl, by omega, by omega⟩
      | first _ _ _ n3 g1 g2 => rw [h1] at g1; cases g1; omega
      | second _ _ _ n3 g1 g2 => rw [h1] at g1; cases g1; omega
    refine ⟨fun k i hk => (key k i hk).2, fun k1 k2 i hk1 hk2 => ?_, fun i i1 i2 => ?_⟩
    · rw [(key k1 i hk1).1, (key k2 i hk2).1]
    · exact ⟨h, 0, n, ReachFrom.here h, h1, by omega, by omega, by omega⟩
  | both h lo m hi a c b lvl n h1 h2 h3 h4 h5 h6 h7 h8 c1 c2 h9 ih1 ih2 =>
    obtain ⟨s1, u1, e1⟩ := ih1
    obtain ⟨s2, u2, e2⟩ := ih2
    have ea : n.first.toNat = a := by omega
    have eb : n.second.toNat = a + 1 := by omega
    have key : ∀ k i, LeafSliceFrom nodes h k i →
        LeafSliceFrom nodes a k i ∨ LeafSliceFrom nodes (a + 1) k i := by
      intro k i ⟨d, n2, hr, hn2, hf, hi1, hi2⟩
      cases hr with
      | here => rw [h1] at hn2; cases hn2; omega
      | first _ _ d2 n3 g1 g2 g3 g4 =>
        rw [h1] at g1; cases g1
        rw [ea] at g4
        exact Or.inl ⟨d2, n2, g4, hn2, hf, hi1, hi2⟩
      | second _ _ d2 n3 g1 g2 g3 g4 =>
        rw [h1] at g1; cases g1
        rw [eb] at g4
        exact Or.inr ⟨d2, n2, g4, hn2, hf, hi1, hi2⟩
    refine ⟨fun k i hk => ?_, fun k1 k2 i hk1 hk2 => ?_, fun i i1 i2 => ?_⟩
    · rcases key k i hk with g | g
      · have := s1 k i g; omega
      · have := s2 k i g; omega
    · rcases key k1 i hk1 with g1 | g1 <;> rcases key k2 i hk2 with g2 | g2
      · exact u1 k1 k2 i g1 g2
      · have := s1 k1 i g1; have := s2 k2 i g2; omega
      · have := s2 k1 i g1; have := s1 k2 i g2; omega
      · exact u2 k1 k2 i g1 g2
    · by_cases him : i < m
      · obtain ⟨k, d, n2, hr, rest⟩ := e1 i i1 him
        refine ⟨k, d + 1, n2, ReachFrom.first h k d n h1 (by omega) (by omega) ?_, rest⟩
        rw [ea]; exact hr
      · obtain ⟨k, d, n2, hr, rest⟩ := e2 i (by omega) i2
        refine ⟨k, d + 1, n2, ReachFrom.second h k d n h1 (by omega) (by omega) ?_, rest⟩
        rw [eb]; exact hr
  | onlyLeft h lo hi a b lvl n h1 h2 h3 h4 h5 h6 h7 c1 h9 ih1 =>
    obtain ⟨s1, u1, e1⟩ := ih1
    have ea : n.first.toNat = a := by omega
    have key : ∀ k i, LeafSliceFrom nodes h k i → LeafSliceFrom nodes a k i := by
      intro k i ⟨d, n2, hr, hn2, hf, hi1, hi2⟩
      cases hr with
      | here => rw [h1] at hn2; cases hn2; omega
      | first _ _ d2 n3 g1 g2 g3 g4 =>
        rw [h1] at g1; cases g1
        rw [ea] at g4
        exact ⟨d2, n2, g4, hn2, hf, hi1, hi2⟩
      | second _ _ d2 n3 g1 g2 g3 g4 => rw [h1] at g1; cases g1; omega
    refine ⟨fun k i hk => s1 k i (key k i hk),
      fun k1 k2 i hk1 hk2 => u1 k1 k2 i (key k1 i hk1) (key k2 i hk2), fun i i1 i2 => ?_⟩
    obtain ⟨k, d, n2, hr, rest⟩ := e1 i i1 i2
    refine ⟨k, d + 1, n2, ReachFrom.first h k d n h1 (by omega) (by omega) ?_, rest⟩
    rw [ea]; exact hr
  | onlyRight h lo hi a b lvl n h1 h2 h3 h4 h5 h6 h7 c1 h9 ih1 =>
    obtain ⟨s1, u1, e1⟩ := ih1
    have ea : n.second.toNat = a := by omega
    have key : ∀ k i, LeafSliceFrom nodes h k i → LeafSliceFrom nodes a k i := by
      intro k i ⟨d, n2, hr, hn2, hf, hi1, hi2⟩
      cases hr with
      | here => rw [h1] at hn2; cases hn2; omega
      | first _ _ d2 n3 g1 g2 g3 g4 => rw [h1] at g1; cases g1; omega
      | second _ _ d2 n3 g1 g2 g3 g4 =>
        rw [h1] at g1; cases g1
        rw [ea] at g4
        exact ⟨d2, n2, g4, hn2, hf, hi1, hi2⟩
    refine ⟨fun k i hk => s1 k i (key k i hk),
      fun k1 k2 i hk1 hk2 => u1 k1 k2 i (key k1 i hk1) (key k2 i hk2), fun i i1 i2 => ?_⟩
    obtain ⟨k, d, n2, hr, rest⟩ := e1 i i1 i2
    refine ⟨k, d + 1, n2, ReachFrom.second h k d n h1 (by omega) (by omega) ?_, rest⟩
    rw [ea]; exact hr

theorem build_of_vec3 (options : BuildOptions) (geometry : Geometry α) (t : KdTree α)
    (vertices : List (Vec3 α))
    (hv : geometry.getVertexArray = some (ArrayData.vec3Array vertices))
    (hs : options._targetNumTrianglesPerLeaf < vertices.length) :
    KdTree.build options geometry t =
      (!(KdTree.buildDivide options geometry vertices t).1._kdNodes.isEmpty,
        (KdTree.buildDivide options geometry vertices t).1,
        { options with
          _numVerticesProcessed := options._numVerticesProcessed + vertices.length }) := by
  unfold KdTree.build
  rw [hv]
  simp only []
  rw [if_neg (by omega)]

theorem buildDivide_nodes_ne_nil (options : BuildOptions) (geometry : Geometry α)
    (vertices : List (Vec3 α)) (t : KdTree α) :
    (KdTree.buildDivide options geometry vertices t).1._kdNodes.isEmpty = false := by
  unfold KdTree.buildDivide
  simp only []
  generalize geometry.accept _ = t3
  have ds := divide_spec options._targetNumTrianglesPerLeaf t3._axisStack vertices t3._triangles
    t3._centers t3._axisStack.length 0 (by omega) (by omega)
    ⟨(addNode t3._kdNodes
        { (KdNode.mk2 (-1) t3._primitiveIndices.length : KdNode α) with bb := t3._bb }).1,
      t3._primitiveIndices, t3._bb, []⟩ t3._kdNodes.length 0 t3._primitiveIndices.length
    { (KdNode.mk2 (-1) t3._primitiveIndices.length : KdNode α) with bb := t3._bb }
    (by simp [addNode]) (by simp [KdNode.mk2]) (by simp [KdNode.mk2]) (by omega)
    (by simp)
  have e0 : (addNode t3._kdNodes
      { (KdNode.mk2 (-1) t3._primitiveIndices.length : KdNode α) with bb := t3._bb }).2
      = (t3._kdNodes.length : Int) := by simp [addNode]
  rw [e0]
  generalize KdTree.divide options._targetNumTrianglesPerLeaf t3._axisStack vertices
    t3._triangles t3._centers _ (t3._kdNodes.length : Int) 0 = r at ds ⊢
  have := ds.nlen
  simp only [addNode, List.length_append, List.length_singleton] at this
  cases hx : r.1._kdNodes with
  | nil => rw [hx] at this; simp at this
  | cons x xs => rfl

theorem build_false_iff_aux (options : BuildOptions) (geometry : Geometry α) (t : KdTree α) :
    ((KdTree.build options geometry t).1 = false ↔
      (geometry.getVertexArray = none ∨
        (∃ size, geometry.getVertexArray = some (ArrayData.otherArray size)) ∨
        ∃ vertices, geometry.getVertexArray = some (ArrayData.vec3Array vertices) ∧
          vertices.length ≤ options._targetNumTrianglesPerLeaf)) ∧
    ((KdTree.build options geometry t).1 = false →
      (KdTree.build options geometry t).2 = (t, options)) := by
  cases hv : geometry.getVertexArray with
  | none => simp [KdTree.build, hv]
  | some arr =>
    cases arr with
    | otherArray size => simp [KdTree.build, hv]
    | vec3Array vertices =>
      by_cases hs : vertices.length ≤ options._targetNumTrianglesPerLeaf
      · simp [KdTree.build, hv, hs]
      · rw [build_of_vec3 options geometry t vertices hv (by omega),
          buildDivide_nodes_ne_nil]
        simp [hs]

theorem buildReturns_iff (options : BuildOptions) (geometry : Geometry α) :
    buildReturns options geometry = true ↔
      ∃ vertices, geometry.getVertexArray = some (ArrayData.vec3Array vertices) ∧
        options._targetNumTrianglesPerLeaf < vertices.length := by
  unfold buildReturns
  have h := (build_false_iff_aux options geometry (KdTree.empty : KdTree α)).1
  constructor
  · intro ht
    cases hv : geometry.getVertexArray with
    | none => rw [h.mpr (Or.inl hv)] at ht; cases ht
    | some arr =>
      cases arr with
      | otherArray size => rw [h.mpr (Or.inr (Or.inl ⟨size, hv⟩))] at ht; cases ht
      | vec3Array vertices =>
        refine ⟨vertices, rfl, ?_⟩
        by_contra hc
        rw [h.mpr (Or.inr (Or.inr ⟨vertices, hv, by omega⟩))] at ht; cases ht
  · intro ⟨vertices, hv, hs⟩
    rw [build_of_vec3 options geometry _ vertices hv hs, buildDivide_nodes_ne_nil]
    rfl

/-- A successful `build` on a fresh tree leaves the tree described by `BuildPost`. -/
theorem built_post (options : BuildOptions) (geometry : Geometry α)
    (h : buildReturns options geometry = true) :
    ∃ vertices, geometry.getVertexArray = some (ArrayData.vec3Array vertices) ∧
      builtTree options geometry =
        (KdTree.buildDivide options geometry vertices (KdTree.empty : KdTree α)).1 ∧
      buildCalls options geometry =
        (KdTree.buildDivide options geometry vertices (KdTree.empty : KdTree α)).2.calls ∧
      BuildPost options geometry vertices
        (KdTree.buildDivide options geometry vertices (KdTree.empty : KdTree α)) := by
  obtain ⟨vertices, hv, hs⟩ := (buildReturns_iff options geometry).mp h
  refine ⟨vertices, hv, ?_, ?_, buildDivide_spec options geometry vertices⟩
  · unfold builtTree
    rw [build_of_vec3 options geometry _ vertices hv hs]
  · unfold buildCalls
    rw [hv]
    simp only []
    rw [if_neg (by omega)]

/-- The axis that one round of the loop of `computeDivisions` picks is the lowest-numbered
axis of maximal extent. -/
theorem chosenAxis_spec (d : Vec3 α) (axis : Nat)
    (h : axis = if d.get 0 ≥ d.get 1 then (if d.get 0 ≥ d.get 2 then 0 else 2)
      else if d.get 1 ≥ d.get 2 then 1 else 2) :
    axis < 3 ∧ (∀ b, b < 3 → d.get b ≤ d.get axis) ∧ (∀ b, b < axis → d.get b < d.get axis) := by
  by_cases h1 : d.get 0 ≥ d.get 1
  · rw [if_pos h1] at h
    by_cases h2 : d.get 0 ≥ d.get 2
    · rw [if_pos h2] at h
      subst h
      refine ⟨by omega, fun b hb => ?_, fun b hb => by omega⟩
      interval_cases b
      · exact le_refl _
      · exact h1
      · exact h2
    · rw [if_neg h2] at h
      subst h
      have h2' := not_le.mp h2
      refine ⟨by omega, fun b hb => ?_, fun b hb => ?_⟩
      · interval_cases b
        · exact le_of_lt h2'
        · exact le_trans h1 (le_of_lt h2')
        · exact le_refl _
      · interval_cases b
        · exact h2'
        · exact lt_of_le_of_lt h1 h2'
  · rw [if_neg h1] at h
    have h1' := not_le.mp h1
    by_cases h2 : d.get 1 ≥ d.get 2
    · rw [if_pos h2] at h
      subst h
      refine ⟨by omega, fun b hb => ?_, fun b hb => ?_⟩
      · interval_cases b
        · exact le_of_lt h1'
        · exact le_refl _
        · exact h2
      · interval_cases b
        exact h1'
    · rw [if_neg h2] at h
      subst h
      have h2' := not_le.mp h2
      refine ⟨by omega, fun b hb => ?_, fun b hb => ?_⟩
      · interval_cases b
        · exact le_of_lt (lt_trans h1' h2')
        · exact le_of_lt h2'
        · exact le_refl _
      · interval_cases b
        · exact lt_trans h1' h2'
        · exact h2'

omit [LinearOrderedField α] in
theorem Vec3.get_set (v : Vec3 α) (a b : Nat) (c : α) (ha : a < 3) (hb : b < 3) :
    (v.set a c).get b = if b = a then c else v.get b := by
  interval_cases a <;> interval_cases b <;> simp [Vec3.get, Vec3.set]

/-- Halving the extent of the chosen axis is the same as counting one more level for it. -/
theorem currentExtent_cons (d : Vec3 α) (axis : Nat) (l : List Nat) (b : Nat)
    (ha : axis < 3) (hb : b < 3) :
    currentExtent (d.set axis (d.get axis / 2)) l b = currentExtent d (axis :: l) b := by
  unfold currentExtent
  rw [Vec3.get_set d axis b _ ha hb, List.count_cons]
  by_cases e : b = axis
  · subst e
    simp only [if_true, beq_self_eq_true]
    rw [pow_succ]
    field_simp
    left
    ring
  · have e2 : (axis == b) = false := by
      rw [beq_eq_false_iff_ne]; exact fun c => e c.symm
    rw [if_neg e, e2]
    simp

/-- The loop of `computeDivisions` appends `n` axis ids, each the lowest-numbered axis whose
current extent is maximal. -/
theorem computeDivisionsLoop_spec (n : Nat) :
    ∀ (d : Vec3 α) (st : List Nat), ∃ axes : List Nat,
      computeDivisionsLoop n d st = st ++ axes ∧ axes.length = n ∧
      ∀ L a, axes[L]? = some a → a < 3 ∧
        (∀ b, b < 3 → currentExtent d (axes.take L) b ≤ currentExtent d (axes.take L) a) ∧
        (∀ b, b < a → currentExtent d (axes.take L) b < currentExtent d (axes.take L) a) := by
  induction n with
  | zero =>
    intro d st
    exact ⟨[], by simp [computeDivisionsLoop], rfl, fun L a h => by simp at h⟩
  | succ n ih =>
    intro d st
    obtain ⟨axis, haxis⟩ : ∃ axis : Nat,
        axis = if d.get 0 ≥ d.get 1 then (if d.get 0 ≥ d.get 2 then 0 else 2)
          else if d.get 1 ≥ d.get 2 then 1 else 2 := ⟨_, rfl⟩
    obtain ⟨a3, amax, alow⟩ := chosenAxis_spec d axis haxis
    obtain ⟨axes, e, len, hprop⟩ := ih (d.set axis (d.get axis / 2)) (st ++ [axis])
    refine ⟨axis :: axes, ?_, by simp [len], ?_⟩
    · simp only [computeDivisionsLoop]
      rw [← haxis, e]
      simp
    · intro L a hL
      cases L with
      | zero =>
        simp only [List.getElem?_cons_zero, Option.some.injEq] at hL
        subst hL
        refine ⟨a3, fun b hb => ?_, fun b hb => ?_⟩
        · simpa [currentExtent] using amax b hb
        · simpa [currentExtent] using alow b hb
      | succ L =>
        simp only [List.getElem?_cons_succ] at hL
        obtain ⟨p1, p2, p3⟩ := hprop L a hL
        rw [List.take_succ_cons]
        refine ⟨p1, fun b hb => ?_, fun b hb => ?_⟩
        · rw [← currentExtent_cons d axis _ b a3 hb, ← currentExtent_cons d axis _ a a3 p1]
          exact p2 b hb
        · rw [← currentExtent_cons d axis _ b a3 (by omega),
            ← currentExtent_cons d axis _ a a3 p1]
          exact p3 b hb

theorem BoundingBox.expandBy_min_get (bb : BoundingBox α) (v : Vec3 α) (a : Nat) :
    (bb.expandBy v)._min.get a = min (bb._min.get a) (v.get a) := by
  unfold BoundingBox.expandBy Vec3.get
  simp only [min_def]
  split_ifs <;> first | rfl | linarith

theorem BoundingBox.expandBy_max_get (bb : BoundingBox α) (v : Vec3 α) (a : Nat) :
    (bb.expandBy v)._max.get a = max (bb._max.get a) (v.get a) := by
  unfold BoundingBox.expandBy Vec3.get
  simp only [max_def]
  split_ifs <;> first | rfl | linarith

/-- One round of the leaf loop: the lower corner is the minimum with the three vertices,
lowered by epsilon; the upper corner the maximum, raised by epsilon. -/
theorem leafBoundLoop_succ (vertices : List (Vec3 α)) (triangles : List Triangle)
    (prims : List Nat) (n : Nat) (i : Int) (bb : BoundingBox α) :
    ∃ bb2 : BoundingBox α,
      leafBoundLoop vertices triangles prims (n + 1) i bb =
        leafBoundLoop vertices triangles prims n (i + 1) bb2 ∧
      ∀ a, ∃ v1 v2 v3 : Vec3 α, triangleVertices vertices triangles prims i = [v1, v2, v3] ∧
        bb2._min.get a =
          min (min (min (bb._min.get a) (v1.get a)) (v2.get a)) (v3.get a) - 1 / 1000000 ∧
        bb2._max.get a =
          max (max (max (bb._max.get a) (v1.get a)) (v2.get a)) (v3.get a) + 1 / 1000000 := by
  refine ⟨_, by simp only [leafBoundLoop]; rfl, fun a => ⟨_, _, _, rfl, ?_, ?_⟩⟩
  · rw [← BoundingBox.expandBy_min_get, ← BoundingBox.expandBy_min_get,
      ← BoundingBox.expandBy_min_get]
    simp only [Vec3.get]
    split_ifs <;> rfl
  · rw [← BoundingBox.expandBy_max_get, ← BoundingBox.expandBy_max_get,
      ← BoundingBox.expandBy_max_get]
    simp only [Vec3.get]
    split_ifs <;> rfl

/-- Every round of the leaf loop lowers the lower corner by at least epsilon and raises the
upper corner by at least epsilon. -/
theorem leafBoundLoop_le_start (vertices : List (Vec3 α)) (triangles : List Triangle)
    (prims : List Nat) (a : Nat) (n : Nat) : ∀ (i : Int) (bb : BoundingBox α),
    (leafBoundLoop vertices triangles prims n i bb)._min.get a ≤
        bb._min.get a - n * (1 / 1000000) ∧
      bb._max.get a + n * (1 / 1000000) ≤
        (leafBoundLoop vertices triangles prims n i bb)._max.get a := by
  induction n with
  | zero => intro i bb; simp [leafBoundLoop]
  | succ n ih =>
    intro i bb
    obtain ⟨bb2, e, hb⟩ := leafBoundLoop_succ vertices triangles prims n i bb
    obtain ⟨v1, v2, v3, -, e1, e2⟩ := hb a
    obtain ⟨ih1, ih2⟩ := ih (i + 1) bb2
    rw [e]
    have m1 : min (min (min (bb._min.get a) (v1.get a)) (v2.get a)) (v3.get a) ≤
        bb._min.get a :=
      le_trans (min_le_left _ _) (le_trans (min_le_left _ _) (min_le_left _ _))
    have m2 : bb._max.get a ≤
        max (max (max (bb._max.get a) (v1.get a)) (v2.get a)) (v3.get a) :=
      le_trans (le_trans (le_max_left _ _) (le_max_left _ _)) (le_max_left _ _)
    push_cast
    constructor <;> linarith

/-- The box of the leaf loop keeps a margin of at least epsilon around every vertex of the
triangles it visits. -/
theorem leafBoundLoop_margin (vertices : List (Vec3 α)) (triangles : List Triangle)
    (prims : List Nat) (a : Nat) (n : Nat) : ∀ (i : Int) (bb : BoundingBox α) (j : Nat), j < n →
    ∀ v ∈ triangleVertices vertices triangles prims (i + j),
      (leafBoundLoop vertices triangles prims n i bb)._min.get a ≤ v.get a - 1 / 1000000 ∧
      v.get a + 1 / 1000000 ≤ (leafBoundLoop vertices triangles prims n i bb)._max.get a := by
  induction n with
  | zero => intro i bb j hj; omega
  | succ n ih =>
    intro i bb j hj v hv
    obtain ⟨bb2, e, hb⟩ := leafBoundLoop_succ vertices triangles prims n i bb
    obtain ⟨v1, v2, v3, etv, e1, e2⟩ := hb a
    rw [e]
    rcases Nat.eq_zero_or_pos j with h0 | hpos
    · subst h0
      simp only [Nat.cast_zero, add_zero] at hv
      rw [etv] at hv
      obtain ⟨s1, s2⟩ := leafBoundLoop_le_start vertices triangles prims a n (i + 1) bb2
      have hn : (0 : α) ≤ (n : α) * (1 / 1000000) := by positivity
      have k1 : min (min (min (bb._min.get a) (v1.get a)) (v2.get a)) (v3.get a) ≤ v.get a := by
        simp only [List.mem_cons, List.mem_singleton, List.not_mem_nil, or_false] at hv
        rcases hv with rfl | rfl | rfl
        · exact le_trans (min_le_left _ _) (le_trans (min_le_left _ _) (min_le_right _ _))
        · exact le_trans (min_le_left _ _) (min_le_right _ _)
        · exact min_le_right _ _
      have k2 : v.get a ≤ max (max (max (bb._max.get a) (v1.get a)) (v2.get a)) (v3.get a) := by
        simp only [List.mem_cons, List.mem_singleton, List.not_mem_nil, or_false] at hv
        rcases hv with rfl | rfl | rfl
        · exact le_trans (le_trans (le_max_right _ _) (le_max_left _ _)) (le_max_left _ _)
        · exact le_trans (le_max_right _ _) (le_max_left _ _)
        · exact le_max_right _ _
      constructor <;> linarith
    · have ej : i + (j : Int) = i + 1 + ((j - 1 : Nat) : Int) := by omega
      rw [ej] at hv
      exact ih (i + 1) bb2 (j - 1) (by omega) v hv

/-- The box of the leaf loop over `n` triangles exceeds a bound of the start box and of the
vertices by at most `n` times epsilon. -/
theorem leafBoundLoop_within (vertices : List (Vec3 α)) (triangles : List Triangle)
    (prims : List Nat) (a : Nat) (n : Nat) : ∀ (i : Int) (bb : BoundingBox α) (m M : α),
    m ≤ bb._min.get a → bb._max.get a ≤ M →
    (∀ j : Nat, j < n → ∀ v ∈ triangleVertices vertices triangles prims (i + j),
      m ≤ v.get a ∧ v.get a ≤ M) →
    m - n * (1 / 1000000) ≤ (leafBoundLoop vertices triangles prims n i bb)._min.get a ∧
      (leafBoundLoop vertices triangles prims n i bb)._max.get a ≤ M + n * (1 / 1000000) := by
  induction n with
  | zero => intro i bb m M h1 h2 _; simpa [leafBoundLoop] using ⟨h1, h2⟩
  | succ n ih =>
    intro i bb m M h1 h2 hv
    obtain ⟨bb2, e, hb⟩ := leafBoundLoop_succ vertices triangles prims n i bb
    obtain ⟨v1, v2, v3, etv, e1, e2⟩ := hb a
    rw [e]
    have h0 := hv 0 (by omega)
    simp only [Nat.cast_zero, add_zero] at h0
    rw [etv] at h0
    have a1 := h0 v1 (by simp)
    have a2 := h0 v2 (by simp)
    have a3 := h0 v3 (by simp)
    have k1 : m ≤ min (min (min (bb._min.get a) (v1.get a)) (v2.get a)) (v3.get a) :=
      le_min (le_min (le_min h1 a1.1) a2.1) a3.1
    have k2 : max (max (max (bb._max.get a) (v1.get a)) (v2.get a)) (v3.get a) ≤ M :=
      max_le (max_le (max_le h2 a1.2) a2.2) a3.2
    obtain ⟨r1, r2⟩ := ih (i + 1) bb2 (m - 1 / 1000000) (M + 1 / 1000000)
      (by rw [e1]; linarith) (by rw [e2]; linarith) (by
        intro j hj v hvj
        have ej : i + 1 + (j : Int) = i + ((j + 1 : Nat) : Int) := by push_cast; ring
        rw [ej] at hvj
        have := hv (j + 1) (by omega) v hvj
        constructor <;> linarith [this.1, this.2])
    push_cast
    constructor <;> linarith

theorem BoundingBox.init_get (a : Nat) :
    (BoundingBox.init : BoundingBox α)._min.get a = FLT_MAX ∧
      (BoundingBox.init : BoundingBox α)._max.get a = -FLT_MAX := by
  unfold BoundingBox.init Vec3.get
  constructor <;> split_ifs <;> rfl

end Shape

/-! ## The built tree -/

section BuildClaims

variable {α : Type} [LinearOrderedField α]

theorem oneTriangleMesh_builds : buildReturns BuildOptions.default oneTriangleMesh = true :=
  (buildReturns_iff _ _).mpr ⟨_, rfl, by decide⟩

theorem noTriangleMesh_builds : buildReturns BuildOptions.default noTriangleMesh = true :=
  (buildReturns_iff _ _).mpr ⟨_, rfl, by decide⟩

/-- C2: after a build (on a fresh tree) that returns true, the primitive indices, the
triangles and the centres have the same length, and the primitive indices are a permutation
of `0 .. |T|-1`. -/
theorem build_primitiveIndices_perm (options : BuildOptions) (geometry : Geometry α)
    (h : buildReturns options geometry = true) :
    (builtTree options geometry)._primitiveIndices.length =
        (builtTree options geometry)._triangles.length ∧
      (builtTree options geometry)._triangles.length =
        (builtTree options geometry)._centers.length ∧
      (builtTree options geometry)._primitiveIndices.Perm
        (List.range (builtTree options geometry)._triangles.length) := by
  obtain ⟨vertices, hv, ht, -, post⟩ := built_post options geometry h
  rw [ht]
  have hT : (KdTree.buildDivide options geometry vertices KdTree.empty).1._triangles.length
      = geometry.triangleStream.length := by rw [post.triangles_eq]; simp
  rw [hT, post.centers_len]
  refine ⟨?_, rfl, post.perm⟩
  rw [post.perm.length_eq]; simp

/-- Witness of C2 on a mesh of one triangle. -/
theorem build_primitiveIndices_perm_witness :
    buildReturns BuildOptions.default oneTriangleMesh = true ∧
    ((builtTree BuildOptions.default oneTriangleMesh)._primitiveIndices.length =
        (builtTree BuildOptions.default oneTriangleMesh)._triangles.length ∧
      (builtTree BuildOptions.default oneTriangleMesh)._triangles.length =
        (builtTree BuildOptions.default oneTriangleMesh)._centers.length ∧
      (builtTree BuildOptions.default oneTriangleMesh)._primitiveIndices.Perm
        (List.range (builtTree BuildOptions.default oneTriangleMesh)._triangles.length)) :=
  ⟨oneTriangleMesh_builds,
    build_primitiveIndices_perm BuildOptions.default oneTriangleMesh oneTriangleMesh_builds⟩

theorem perm_range_getElem? (P : List Nat) (N : Nat) (hp : P.Perm (List.range N)) :
    (∀ id, id < N → ∃ i : Nat, P[i]? = some id) ∧
    (∀ (i j id : Nat), P[i]? = some id → P[j]? = some id → i = j) ∧
    (∀ (i id : Nat), P[i]? = some id → id < N ∧ i < N) := by
  have hnd : P.Nodup := hp.nodup_iff.mpr (List.nodup_range N)
  have hlen : P.length = N := by rw [hp.length_eq]; simp
  refine ⟨fun id hid => ?_, fun i j id hi hj => ?_, fun i id hi => ?_⟩
  · have : id ∈ P := hp.mem_iff.mpr (List.mem_range.mpr hid)
    obtain ⟨i, hi, he⟩ := List.getElem_of_mem this
    exact ⟨i, by rw [List.getElem?_eq_getElem hi, he]⟩
  · have hi2 := getElem?_lt_length _ _ _ hi
    have hj2 := getElem?_lt_length _ _ _ hj
    rw [List.getElem?_eq_getElem hi2] at hi
    rw [List.getElem?_eq_getElem hj2] at hj
    have : P[i] = P[j] := by
      rw [Option.some.inj hi, Option.some.inj hj]
    exact (List.Nodup.getElem_inj_iff hnd).mp this
  · have hi2 := getElem?_lt_length _ _ _ hi
    rw [List.getElem?_eq_getElem hi2] at hi
    have : id ∈ P := by rw [← Option.some.inj hi]; exact List.getElem_mem hi2
    exact ⟨List.mem_range.mp (hp.mem_iff.mp this), by omega⟩

/-- C3: in the tree of a build (on a fresh tree) that returns true, the slices of the
leaves reached from the root lie within the positions `0 .. |T|-1`; every such position
belongs to the slice of exactly one such leaf; hence every triangle id occurs in the slice
of exactly one leaf. -/
theorem build_leaf_slices (options : BuildOptions) (geometry : Geometry α)
    (h : buildReturns options geometry = true) :
    (∀ k i, LeafSliceFrom (builtTree options geometry)._kdNodes 0 k i →
      i < (builtTree options geometry)._triangles.length) ∧
    (∀ i, i < (builtTree options geometry)._triangles.length →
      ∃! k, LeafSliceFrom (builtTree options geometry)._kdNodes 0 k i) ∧
    (∀ id, id < (builtTree options geometry)._triangles.length →
      ∃! k, ∃ i, LeafSliceFrom (builtTree options geometry)._kdNodes 0 k i ∧
        (builtTree options geometry)._primitiveIndices[i]? = some id) := by
  obtain ⟨vertices, hv, ht, -, post⟩ := built_post options geometry h
  rw [ht]
  have hT : (KdTree.buildDivide options geometry vertices KdTree.empty).1._triangles.length
      = geometry.triangleStream.length := by rw [post.triangles_eq]; simp
  rw [hT]
  obtain ⟨s1, s2, s3⟩ := post.covers.slices
  obtain ⟨p1, p2, p3⟩ := perm_range_getElem? _ _ post.perm
  refine ⟨fun k i hk => (s1 k i hk).2, fun i hi => ?_, fun id hid => ?_⟩
  · obtain ⟨k, hk⟩ := s3 i (Nat.zero_le _) hi
    exact ⟨k, hk, fun k2 hk2 => s2 k2 k i hk2 hk⟩
  · obtain ⟨i, hi⟩ := p1 id hid
    obtain ⟨k, hk⟩ := s3 i (Nat.zero_le _) (p3 i id hi).2
    refine ⟨k, ⟨i, hk, hi⟩, ?_⟩
    intro k2 ⟨i2, hk2, hi2⟩
    have : i2 = i := p2 i2 i id hi2 hi
    subst this
    exact s2 k2 k i2 hk2 hk

/-- Witness of C3 on a mesh of one triangle. -/
theorem build_leaf_slices_witness :
    buildReturns BuildOptions.default oneTriangleMesh = true ∧
    ((∀ k i, LeafSliceFrom (builtTree BuildOptions.default oneTriangleMesh)._kdNodes 0 k i →
      i < (builtTree BuildOptions.default oneTriangleMesh)._triangles.length) ∧
    (∀ i, i < (builtTree BuildOptions.default oneTriangleMesh)._triangles.length →
      ∃! k, LeafSliceFrom (builtTree BuildOptions.default oneTriangleMesh)._kdNodes 0 k i) ∧
    (∀ id, id < (builtTree BuildOptions.default oneTriangleMesh)._triangles.length →
      ∃! k, ∃ i, LeafSliceFrom (builtTree BuildOptions.default oneTriangleMesh)._kdNodes 0 k i ∧
        (builtTree BuildOptions.default oneTriangleMesh)._primitiveIndices[i]? = some id)) :=
  ⟨oneTriangleMesh_builds,
    build_leaf_slices BuildOptions.default oneTriangleMesh oneTriangleMesh_builds⟩

/-- C4: after a build (on a fresh tree) that returns true, for every leaf of the node pool
and every position of its slice, the three vertices of the triangle at that position lie in
the box of the leaf, on every axis. -/
theorem build_leaf_box_contains (options : BuildOptions) (geometry : Geometry α)
    (h : buildReturns options geometry = true) (k : Nat) (n : KdNode α)
    (hk : (builtTree options geometry)._kdNodes[k]? = some n) (hleaf : n.first < 0) (i : Nat)
    (hi1 : -n.first - 1 ≤ (i : Int)) (hi2 : (i : Int) ≤ -n.first - 1 + n.second - 1)
    (v : Vec3 α)
    (hv : v ∈ triangleVertices ((builtTree options geometry)._vertices.getD [])
      (builtTree options geometry)._triangles (builtTree options geometry)._primitiveIndices
      (i : Int)) (a : Nat) :
    n.bb._min.get a ≤ v.get a ∧ v.get a ≤ n.bb._max.get a := by
  obtain ⟨vertices, hva, ht, -, post⟩ := built_post options geometry h
  rw [ht] at hk hv
  rw [post.vertices_eq] at hv
  have hlen := getElem?_lt_length _ _ _ hk
  have r1 := post.covers.range_le
  obtain ⟨lo2, hi2', a2, b2, lvl2, c, -, -, -⟩ := post.covers.sub k (by omega)
  have key : n.bb.Contains v := by
    cases c with
    | leaf _ _ _ _ _ n2 g1 g2 g3 g4 g5 g6 g7 =>
      rw [hk] at g1; cases g1
      have hc := Covers.leaf k lo2 hi2' a2 lvl2 n hk g2 g3 g4 g5 g6 g7
      exact (hc.box (by omega) n hk).2.2 i (by omega) (by omega) v hv
    | both _ _ _ _ _ _ _ _ n2 g1 g2 => rw [hk] at g1; cases g1; omega
    | onlyLeft _ _ _ _ _ _ n2 g1 g2 => rw [hk] at g1; cases g1; omega
    | onlyRight _ _ _ _ _ _ n2 g1 g2 => rw [hk] at g1; cases g1; omega
  exact (BoundingBox.contains_iff _ _).mp key a

/-- Witness of C4: the root leaf of the one-triangle mesh, its first vertex, the x axis. -/
theorem build_leaf_box_contains_witness :
    (getNode (builtTree BuildOptions.default oneTriangleMesh)._kdNodes 0).bb._min.get 0 ≤
        (⟨0, 0, 0⟩ : Vec3 ℚ).get 0 ∧
      (⟨0, 0, 0⟩ : Vec3 ℚ).get 0 ≤
        (getNode (builtTree BuildOptions.default oneTriangleMesh)._kdNodes 0).bb._max.get 0 :=
  build_leaf_box_contains BuildOptions.default oneTriangleMesh oneTriangleMesh_builds 0
    (getNode (builtTree BuildOptions.default oneTriangleMesh)._kdNodes 0) (by decide!)
    (by decide!) 0 (by decide!) (by decide!) ⟨0, 0, 0⟩ (by decide!) 0

/-- C5 as stated fails: for the mesh with three vertices (more than the default target of
two) and no triangle, `build` returns true and the root node has an invalid box. -/
theorem build_boxes_valid_counterexample :
    buildReturns BuildOptions.default noTriangleMesh = true ∧
      ∃ n, (builtTree BuildOptions.default noTriangleMesh)._kdNodes[0]? = some n ∧
        n.bb.valid = false := by
  decide!

/-- C5 (amended): after a build (on a fresh tree) that returns true on a mesh with at least
one triangle, every node of the node pool has a valid box. -/
theorem build_boxes_valid (options : BuildOptions) (geometry : Geometry α)
    (h : buildReturns options geometry = true) (hne : geometry.triangleStream ≠ []) (k : Nat)
    (n : KdNode α) (hk : (builtTree options geometry)._kdNodes[k]? = some n) :
    n.bb.valid = true ∧
      ∀ a : Nat, n.bb._min.get a ≤ n.bb._max.get a := by
  obtain ⟨vertices, hva, ht, -, post⟩ := built_post options geometry h
  rw [ht] at hk
  have hlen := getElem?_lt_length _ _ _ hk
  have r1 := post.covers.range_le
  have hpos : 0 < geometry.triangleStream.length := List.length_pos.mpr hne
  obtain ⟨lo2, hi2, a2, b2, lvl2, c, -, -, hlt⟩ := post.covers.sub k (by omega)
  have hv := (c.box (hlt hpos) n hk).1
  refine ⟨hv, ?_⟩
  rw [BoundingBox.valid_iff] at hv
  intro a
  unfold Vec3.get
  split_ifs
  · exact hv.1
  · exact hv.2.1
  · exact hv.2.2

/-- Witness of C5 (amended): the root of the one-triangle mesh. -/
theorem build_boxes_valid_witness :
    (getNode (builtTree BuildOptions.default oneTriangleMesh)._kdNodes 0).bb.valid = true ∧
      ∀ a : Nat,
        (getNode (builtTree BuildOptions.default oneTriangleMesh)._kdNodes 0).bb._min.get a ≤
          (getNode (builtTree BuildOptions.default oneTriangleMesh)._kdNodes 0).bb._max.get a :=
  build_boxes_valid BuildOptions.default oneTriangleMesh oneTriangleMesh_builds (by decide) 0
    (getNode (builtTree BuildOptions.default oneTriangleMesh)._kdNodes 0) (by decide!)

theorem BoundingBox.expandByBox_get (b1 b2 : BoundingBox α) (hv : b2.valid = true) (a : Nat) :
    (b1.expandByBox b2)._min.get a = min (b1._min.get a) (b2._min.get a) ∧
      (b1.expandByBox b2)._max.get a = max (b1._max.get a) (b2._max.get a) := by
  unfold BoundingBox.expandByBox
  rw [if_pos hv]
  unfold Vec3.get
  simp only []
  split_ifs <;> simp_all [min_def, max_def, le_of_lt]

theorem twoTriangleMesh_builds : buildReturns onePerLeaf twoTriangleMesh = true :=
  (buildReturns_iff _ _).mpr ⟨_, rfl, by decide⟩

/-- C6: after a build (on a fresh tree) that returns true, the box of every internal node
with two present (non-zero) children is the union of the boxes of the two children: on every
axis its minimum is the smaller of the children's minima and its maximum the larger of the
children's maxima. -/
theorem build_internal_box_union (options : BuildOptions) (geometry : Geometry α)
    (h : buildReturns options geometry = true) (k : Nat) (n : KdNode α)
    (hk : (builtTree options geometry)._kdNodes[k]? = some n) (hint : ¬n.first < 0)
    (hfirst : n.first ≠ 0) (hsecond : n.second ≠ 0) (a : Nat) :
    n.bb._min.get a =
        min ((getNode (builtTree options geometry)._kdNodes n.first).bb._min.get a)
          ((getNode (builtTree options geometry)._kdNodes n.second).bb._min.get a) ∧
      n.bb._max.get a =
        max ((getNode (builtTree options geometry)._kdNodes n.first).bb._max.get a)
          ((getNode (builtTree options geometry)._kdNodes n.second).bb._max.get a) := by
  obtain ⟨vertices, hva, ht, -, post⟩ := built_post options geometry h
  rw [ht] at hk ⊢
  have hlen := getElem?_lt_length _ _ _ hk
  have r1 := post.covers.range_le
  obtain ⟨lo2, hi2, a2, b2, lvl2, c, -, -, -⟩ := post.covers.sub k (by omega)
  cases c with
  | leaf _ _ _ _ _ n2 g1 g2 => rw [hk] at g1; cases g1; omega
  | both _ _ m _ _ c2 _ _ n2 g1 g2 g3 g4 g5 g6 g7 g8 c1 c3 g9 =>
    rw [hk] at g1; cases g1
    obtain ⟨na, hna⟩ : ∃ na, (KdTree.buildDivide options geometry vertices
        KdTree.empty).1._kdNodes[a2]? = some na := by cases c1 <;> exact ⟨_, by assumption⟩
    obtain ⟨nb, hnb⟩ : ∃ nb, (KdTree.buildDivide options geometry vertices
        KdTree.empty).1._kdNodes[a2 + 1]? = some nb := by
      cases c3 <;> exact ⟨_, by assumption⟩
    obtain ⟨va, ba, -⟩ := c1.box g5 na hna
    obtain ⟨vb, -, -⟩ := c3.box g6 nb hnb
    rw [g9, g2, g3, BoundingBox.init_expandByBox _ (by
      rw [getNode_natCast _ _ _ hna]; exact va) (by
      rw [getNode_natCast _ _ _ hna]; exact ba)]
    refine BoundingBox.expandByBox_get _ _ ?_ a
    have := getNode_natCast _ _ _ hnb
    push_cast at this
    rw [this]; exact vb
  | onlyLeft _ _ _ _ _ _ n2 g1 g2 g3 => rw [hk] at g1; cases g1; omega
  | onlyRight _ _ _ _ _ _ n2 g1 g2 g3 => rw [hk] at g1; cases g1; omega

/-- Witness of C6: the root of the two-triangle mesh built with one triangle per leaf. -/
theorem build_internal_box_union_witness :
    (getNode (builtTree onePerLeaf twoTriangleMesh)._kdNodes 0).bb._min.get 0 =
        min ((getNode (builtTree onePerLeaf twoTriangleMesh)._kdNodes
            (getNode (builtTree onePerLeaf twoTriangleMesh)._kdNodes 0).first).bb._min.get 0)
          ((getNode (builtTree onePerLeaf twoTriangleMesh)._kdNodes
            (getNode (builtTree onePerLeaf twoTriangleMesh)._kdNodes 0).second).bb._min.get 0) ∧
      (getNode (builtTree onePerLeaf twoTriangleMesh)._kdNodes 0).bb._max.get 0 =
        max ((getNode (builtTree onePerLeaf twoTriangleMesh)._kdNodes
            (getNode (builtTree onePerLeaf twoTriangleMesh)._kdNodes 0).first).bb._max.get 0)
          ((getNode (builtTree onePerLeaf twoTriangleMesh)._kdNodes
            (getNode (builtTree onePerLeaf twoTriangleMesh)._kdNodes 0).second).bb._max.get 0) :=
  build_internal_box_union onePerLeaf twoTriangleMesh twoTriangleMesh_builds 0
    (getNode (builtTree onePerLeaf twoTriangleMesh)._kdNodes 0) (by decide!) (by decide!)
    (by decide!) (by decide!) 0

omit [LinearOrderedField α] in
theorem reachFrom_nil (r k d : Nat) (h : ReachFrom ([] : List (KdNode α)) r k d) : d = 0 := by
  cases h with
  | here => rfl
  | first _ _ _ n g1 => simp at g1
  | second _ _ _ n g1 => simp at g1

theorem builtTree_of_not_returns (options : BuildOptions) (geometry : Geometry α)
    (h : ¬buildReturns options geometry = true) :
    builtTree options geometry = KdTree.empty ∧ buildCalls options geometry = [] := by
  have hf : (KdTree.build options geometry (KdTree.empty : KdTree α)).1 = false := by
    simpa [buildReturns] using h
  have h2 := (build_false_iff_aux options geometry (KdTree.empty : KdTree α)).2 hf
  refine ⟨by unfold builtTree; rw [h2], ?_⟩
  rcases (build_false_iff_aux options geometry (KdTree.empty : KdTree α)).1.mp hf with
    hv | ⟨s, hv⟩ | ⟨vs, hv, hs⟩
  · unfold buildCalls; rw [hv]
  · unfold buildCalls; rw [hv]
  · unfold buildCalls; rw [hv]; simp only []; rw [if_pos hs]

/-- C7: for every mesh and all build options, `build` (on a fresh tree) never enters
`divide` with a level above `_maxNumLevels`; every node reached from the root lies at depth
at most `_maxNumLevels`, and every node of the pool is reached from the root. -/
theorem build_depth_bounded (options : BuildOptions) (geometry : Geometry α) :
    (∀ c ∈ buildCalls options geometry, c.2 ≤ options._maxNumLevels) ∧
    (∀ k d, ReachFrom (builtTree options geometry)._kdNodes 0 k d →
      d ≤ options._maxNumLevels) ∧
    (∀ k, k < (builtTree options geometry)._kdNodes.length →
      ∃ d, ReachFrom (builtTree options geometry)._kdNodes 0 k d ∧
        d ≤ options._maxNumLevels) := by
  by_cases h : buildReturns options geometry = true
  · obtain ⟨vertices, hva, ht, hc, post⟩ := built_post options geometry h
    rw [ht, hc]
    have depth : ∀ k d, ReachFrom (KdTree.buildDivide options geometry vertices
        KdTree.empty).1._kdNodes 0 k d → d ≤ options._maxNumLevels := by
      intro k d hr
      obtain ⟨lo2, hi2, a2, b2, c, -, -⟩ := post.covers.reach_sub hr
      have := c.level_le
      omega
    refine ⟨post.calls, depth, ?_⟩
    intro k hk
    obtain ⟨d, hd⟩ := post.covers.reach k (by omega)
    exact ⟨d, hd, depth k d hd⟩
  · obtain ⟨e1, e2⟩ := builtTree_of_not_returns options geometry h
    rw [e1, e2]
    refine ⟨fun c hc => by simp at hc, fun k d hr => ?_, fun k hk => ?_⟩
    · have := reachFrom_nil _ _ _ hr
      omega
    · simp [KdTree.empty] at hk

/-- The levels of the `divide` calls of an actual build are bounded (an instance of C7 on
the two-triangle mesh, with a non-empty call log). -/
theorem build_depth_bounded_witness :
    buildCalls onePerLeaf twoTriangleMesh ≠ [] ∧
    (∀ c ∈ buildCalls onePerLeaf twoTriangleMesh, c.2 ≤ onePerLeaf._maxNumLevels) :=
  ⟨by decide!, (build_depth_bounded onePerLeaf twoTriangleMesh).1⟩

/-- C8: `build` returns false exactly when the vertex array is absent, is not a `Vec3Array`,
or has at most `_targetNumTrianglesPerLeaf` entries; and when it returns false the tree and
the options are unchanged. -/
theorem build_false_iff (options : BuildOptions) (geometry : Geometry α) (t : KdTree α) :
    ((KdTree.build options geometry t).1 = false ↔
      (geometry.getVertexArray = none ∨
        (∃ size, geometry.getVertexArray = some (ArrayData.otherArray size)) ∨
        ∃ vertices, geometry.getVertexArray = some (ArrayData.vec3Array vertices) ∧
          vertices.length ≤ options._targetNumTrianglesPerLeaf)) ∧
    ((KdTree.build options geometry t).1 = false →
      (KdTree.build options geometry t).2 = (t, options)) :=
  build_false_iff_aux options geometry t

/-- Witness of C8: a geometry without vertex array, and a non-empty tree that stays as it
is. -/
theorem build_false_iff_witness :
    (KdTree.build BuildOptions.default noVertexMesh
        (builtTree onePerLeaf twoTriangleMesh)).1 = false ∧
      (KdTree.build BuildOptions.default noVertexMesh
        (builtTree onePerLeaf twoTriangleMesh)).2 =
        (builtTree onePerLeaf twoTriangleMesh, BuildOptions.default) :=
  ⟨rfl, (build_false_iff BuildOptions.default noVertexMesh
    (builtTree onePerLeaf twoTriangleMesh)).2 rfl⟩

/-- C15: after a build (on a fresh tree) that returns true, every leaf of the node pool is
reached from the root, and at whatever depth it is reached it either holds at most
`_targetNumTrianglesPerLeaf` triangles or lies at depth exactly `_maxNumLevels`. -/
theorem build_leaf_size_or_depth (options : BuildOptions) (geometry : Geometry α)
    (h : buildReturns options geometry = true) (k : Nat) (n : KdNode α)
    (hk : (builtTree options geometry)._kdNodes[k]? = some n) (hleaf : n.first < 0) :
    (∃ d, ReachFrom (builtTree options geometry)._kdNodes 0 k d) ∧
    ∀ d, ReachFrom (builtTree options geometry)._kdNodes 0 k d →
      n.second ≤ (options._targetNumTrianglesPerLeaf : Int) ∨ d = options._maxNumLevels := by
  obtain ⟨vertices, hva, ht, -, post⟩ := built_post options geometry h
  rw [ht] at hk ⊢
  have hlen := getElem?_lt_length _ _ _ hk
  have r1 := post.covers.range_le
  refine ⟨post.covers.reach k (by omega), ?_⟩
  intro d hd
  obtain ⟨lo2, hi2, a2, b2, c, -, -⟩ := post.covers.reach_sub hd
  obtain ⟨lvl, hlvl⟩ : ∃ lvl, lvl = 0 + d := ⟨_, rfl⟩
  rw [← hlvl] at c
  have key : n.second ≤ (options._targetNumTrianglesPerLeaf : Int) ∨
      lvl = options._maxNumLevels := by
    cases c with
    | leaf _ _ _ _ _ n2 g1 g2 g3 g4 g5 g6 g7 =>
      rw [hk] at g1; cases g1
      by_cases hs : n.second ≤ (options._targetNumTrianglesPerLeaf : Int)
      · exact Or.inl hs
      · right
        by_contra hne
        exact g7 ⟨by omega, by omega⟩
    | both _ _ _ _ _ _ _ _ n2 g1 g2 g3 g4 => rw [hk] at g1; cases g1; omega
    | onlyLeft _ _ _ _ _ _ n2 g1 g2 g3 g4 => rw [hk] at g1; cases g1; omega
    | onlyRight _ _ _ _ _ _ n2 g1 g2 g3 g4 => rw [hk] at g1; cases g1; omega
  rcases key with k1 | k2
  · exact Or.inl k1
  · exact Or.inr (by omega)

/-- Witness of C15: with no level of subdivision the root of the two-triangle mesh stays a
leaf of two triangles (more than the target of one), at depth `0 = _maxNumLevels`. -/
theorem build_leaf_size_or_depth_witness :
    buildReturns noLevels twoTriangleMesh = true ∧
      (getNode (builtTree noLevels twoTriangleMesh)._kdNodes 0).first = -1 ∧
      (getNode (builtTree noLevels twoTriangleMesh)._kdNodes 0).second = 2 ∧
      ((∃ d, ReachFrom (builtTree noLevels twoTriangleMesh)._kdNodes 0 0 d) ∧
        ∀ d, ReachFrom (builtTree noLevels twoTriangleMesh)._kdNodes 0 0 d →
          (getNode (builtTree noLevels twoTriangleMesh)._kdNodes 0).second ≤
              (noLevels._targetNumTrianglesPerLeaf : Int) ∨
            d = noLevels._maxNumLevels) :=
  ⟨by decide!, by decide!, by decide!,
    build_leaf_size_or_depth noLevels twoTriangleMesh (by decide!) 0 _ (by decide!)
      (by decide!)⟩

/-- C16: for a non-empty slice `istart .. iend` of the primitive indices, the partition
block of `divide` returns (the loop terminates) with `left = right + 1` and
`istart - 1 ≤ right ≤ iend`; the positions `istart .. right` hold centres `≤ mid` on the
axis and the positions `left .. iend` centres `> mid`; the two child lengths are not
negative and add up to the length of the slice. -/
theorem partition_spec (centers : List (Vec3 α)) (axis : Nat) (mid : α) (P : List Nat)
    (istart iend : Int) (h0 : 0 ≤ istart) (hle : istart ≤ iend) (hlen : iend < P.length) :
    (partitionPrims centers axis mid P istart iend).2.1 =
      (partitionPrims centers axis mid P istart iend).2.2 + 1 ∧
    istart - 1 ≤ (partitionPrims centers axis mid P istart iend).2.2 ∧
    (partitionPrims centers axis mid P istart iend).2.2 ≤ iend ∧
    (∀ i : Int, istart ≤ i → i ≤ (partitionPrims centers axis mid P istart iend).2.2 →
      centerAt centers (partitionPrims centers axis mid P istart iend).1 i axis ≤ mid) ∧
    (∀ i : Int, (partitionPrims centers axis mid P istart iend).2.1 ≤ i → i ≤ iend →
      mid < centerAt centers (partitionPrims centers axis mid P istart iend).1 i axis) ∧
    0 ≤ (partitionPrims centers axis mid P istart iend).2.2 - istart + 1 ∧
    0 ≤ iend - (partitionPrims centers axis mid P istart iend).2.1 + 1 ∧
    ((partitionPrims centers axis mid P istart iend).2.2 - istart + 1) +
      (iend - (partitionPrims centers axis mid P istart iend).2.1 + 1) = iend - istart + 1 := by
  obtain ⟨-, -, -, e, b1, b2, inv1, inv2⟩ :=
    partitionPrims_spec centers axis mid P istart iend h0 hle hlen
  refine ⟨e, b1, b2, ?_, ?_, by omega, by omega, by omega⟩
  · intro i i1 i2
    exact inv1 i i1 (by omega)
  · intro i i1 i2
    exact inv2 i (by omega) i2

/-- Witness of C16: four centres `0, 5, 1, 7` on the x axis split at `3`; one exchange. -/
theorem partition_spec_witness :
    partitionPrims [(⟨0, 0, 0⟩ : Vec3 ℚ), ⟨5, 0, 0⟩, ⟨1, 0, 0⟩, ⟨7, 0, 0⟩] 0 3 [0, 1, 2, 3] 0 3 =
        ([0, 2, 1, 3], 2, 1) ∧
      (∀ i : Int, 0 ≤ i →
        i ≤ (partitionPrims [(⟨0, 0, 0⟩ : Vec3 ℚ), ⟨5, 0, 0⟩, ⟨1, 0, 0⟩, ⟨7, 0, 0⟩] 0 3
          [0, 1, 2, 3] 0 3).2.2 →
        centerAt [(⟨0, 0, 0⟩ : Vec3 ℚ), ⟨5, 0, 0⟩, ⟨1, 0, 0⟩, ⟨7, 0, 0⟩]
          (partitionPrims [(⟨0, 0, 0⟩ : Vec3 ℚ), ⟨5, 0, 0⟩, ⟨1, 0, 0⟩, ⟨7, 0, 0⟩] 0 3
            [0, 1, 2, 3] 0 3).1 i 0 ≤ 3) :=
  ⟨by decide!,
    (partition_spec [(⟨0, 0, 0⟩ : Vec3 ℚ), ⟨5, 0, 0⟩, ⟨1, 0, 0⟩, ⟨7, 0, 0⟩] 0 3 [0, 1, 2, 3]
      0 3 (by decide) (by decide) (by decide)).2.2.2.1⟩

/-- C17: `computeDivisions` appends exactly `_maxNumLevels` axis ids to the axis stack, and
the id appended at level `L` is an axis `0`, `1` or `2` whose current extent (the extent of
the root box on that axis, halved once for each earlier level that chose it) is maximal and
larger than that of every lower-numbered axis. -/
theorem computeDivisions_spec (options : BuildOptions) (t : KdTree α) :
    ∃ axes : List Nat,
      (t.computeDivisions options)._axisStack = t._axisStack ++ axes ∧
      axes.length = options._maxNumLevels ∧
      ∀ L a, axes[L]? = some a → a < 3 ∧
        (∀ b, b < 3 →
          currentExtent ⟨t._bb._max.x - t._bb._min.x, t._bb._max.y - t._bb._min.y,
              t._bb._max.z - t._bb._min.z⟩ (axes.take L) b ≤
            currentExtent ⟨t._bb._max.x - t._bb._min.x, t._bb._max.y - t._bb._min.y,
              t._bb._max.z - t._bb._min.z⟩ (axes.take L) a) ∧
        (∀ b, b < a →
          currentExtent ⟨t._bb._max.x - t._bb._min.x, t._bb._max.y - t._bb._min.y,
              t._bb._max.z - t._bb._min.z⟩ (axes.take L) b <
            currentExtent ⟨t._bb._max.x - t._bb._min.x, t._bb._max.y - t._bb._min.y,
              t._bb._max.z - t._bb._min.z⟩ (axes.take L) a) := by
  unfold KdTree.computeDivisions
  exact computeDivisionsLoop_spec options._maxNumLevels _ t._axisStack

/-- Witness of C17: for the extents `4, 2, 1` and four levels the axes are `0, 0, 1, 0`
(at level 1 the extents are `2, 2, 1`, at level 2 `1, 2, 1`, at level 3 `1, 1, 1`). -/
theorem computeDivisions_spec_witness :
    (boxedTree.computeDivisions ⟨0, 2, 4⟩)._axisStack = [0, 0, 1, 0] ∧
      ∃ axes : List Nat,
        (boxedTree.computeDivisions ⟨0, 2, 4⟩)._axisStack = boxedTree._axisStack ++ axes ∧
        axes.length = 4 :=
  ⟨by decide!,
    (computeDivisions_spec ⟨0, 2, 4⟩ boxedTree).imp fun _ hx => ⟨hx.1, hx.2.1⟩⟩

/-- C20 as stated fails: with the default options the two-triangle mesh is one leaf of two
triangles; the least x coordinate of its vertices is `0`, and the lower corner of the box
lies at `x = -2/1000000`, not at `-1/1000000`: the epsilon is subtracted once for each
triangle of the leaf. -/
theorem build_leaf_box_inflation_counterexample :
    buildReturns BuildOptions.default twoTriangleMesh = true ∧
      (getNode (builtTree BuildOptions.default twoTriangleMesh)._kdNodes 0).first = -1 ∧
      (getNode (builtTree BuildOptions.default twoTriangleMesh)._kdNodes 0).second = 2 ∧
      ((triangleVertices ((builtTree BuildOptions.default twoTriangleMesh)._vertices.getD [])
          (builtTree BuildOptions.default twoTriangleMesh)._triangles
          (builtTree BuildOptions.default twoTriangleMesh)._primitiveIndices 0 ++
        triangleVertices ((builtTree BuildOptions.default twoTriangleMesh)._vertices.getD [])
          (builtTree BuildOptions.default twoTriangleMesh)._triangles
          (builtTree BuildOptions.default twoTriangleMesh)._primitiveIndices 1).map
        (fun v => v.get 0)) = [0, 1, 0, 10, 11, 10] ∧
      (getNode (builtTree BuildOptions.default twoTriangleMesh)._kdNodes 0).bb._min.get 0 =
        -2 / 1000000 ∧
      (getNode (builtTree BuildOptions.default twoTriangleMesh)._kdNodes 0).bb._min.get 0 ≠
        0 - 1 / 1000000 := by
  decide!

/-- C20 (amended): after a build (on a fresh tree) that returns true, for every leaf of the
node pool with `second ≥ 1` triangles and every axis `a`, with `m` the least and `M` the
greatest coordinate on that axis of the vertices of the triangles of its slice (both within
the range of the finite single-precision values): the lower corner of the box lies between
`m - second * 1e-6` and `m - 1e-6`, the upper corner between `M + 1e-6` and
`M + second * 1e-6`; for a leaf of exactly one triangle they are `m - 1e-6` and
`M + 1e-6`. -/
theorem build_leaf_box_inflation (options : BuildOptions) (geometry : Geometry α)
    (h : buildReturns options geometry = true) (k : Nat) (n : KdNode α)
    (hk : (builtTree options geometry)._kdNodes[k]? = some n) (hleaf : n.first < 0)
    (a : Nat) (m M : α)
    (hbound : ∀ i : Nat, -n.first - 1 ≤ (i : Int) → (i : Int) ≤ -n.first - 1 + n.second - 1 →
      ∀ v ∈ triangleVertices ((builtTree options geometry)._vertices.getD [])
        (builtTree options geometry)._triangles (builtTree options geometry)._primitiveIndices
        (i : Int), m ≤ v.get a ∧ v.get a ≤ M)
    (hmin : ∃ i : Nat, -n.first - 1 ≤ (i : Int) ∧ (i : Int) ≤ -n.first - 1 + n.second - 1 ∧
      ∃ v ∈ triangleVertices ((builtTree options geometry)._vertices.getD [])
        (builtTree options geometry)._triangles (builtTree options geometry)._primitiveIndices
        (i : Int), v.get a = m)
    (hmax : ∃ i : Nat, -n.first - 1 ≤ (i : Int) ∧ (i : Int) ≤ -n.first - 1 + n.second - 1 ∧
      ∃ v ∈ triangleVertices ((builtTree options geometry)._vertices.getD [])
        (builtTree options geometry)._triangles (builtTree options geometry)._primitiveIndices
        (i : Int), v.get a = M)
    (hfloat : m ≤ FLT_MAX ∧ -FLT_MAX ≤ M) :
    (m - (n.second : α) * (1 / 1000000) ≤ n.bb._min.get a ∧
      n.bb._min.get a ≤ m - 1 / 1000000) ∧
    (M + 1 / 1000000 ≤ n.bb._max.get a ∧
      n.bb._max.get a ≤ M + (n.second : α) * (1 / 1000000)) ∧
    (n.second = 1 →
      n.bb._min.get a = m - 1 / 1000000 ∧ n.bb._max.get a = M + 1 / 1000000) := by
  obtain ⟨vertices, hva, ht, -, post⟩ := built_post options geometry h
  rw [ht] at hk hbound hmin hmax
  rw [post.vertices_eq] at hbound hmin hmax
  simp only [Option.getD_some] at hbound hmin hmax
  have hlen := getElem?_lt_length _ _ _ hk
  have r1 := post.covers.range_le
  obtain ⟨lo, hi, a2, b2, lvl2, c, -, -, -⟩ := post.covers.sub k (by omega)
  have key : (m - (n.second : α) * (1 / 1000000) ≤ n.bb._min.get a ∧
      n.bb._min.get a ≤ m - 1 / 1000000) ∧
      (M + 1 / 1000000 ≤ n.bb._max.get a ∧
        n.bb._max.get a ≤ M + (n.second : α) * (1 / 1000000)) := by
    cases c with
    | leaf _ _ _ _ _ n2 g1 g2 g3 g4 g5 g6 g7 =>
      rw [hk] at g1; cases g1
      have hsec : (n.second : α) = ((hi - lo : Nat) : α) := by
        rw [g3]
        have e : ((hi : Int) - (lo : Int)) = ((hi - lo : Nat) : Int) := by omega
        rw [e]; simp
      rw [hsec, g5]
      obtain ⟨w1, w2⟩ := leafBoundLoop_within vertices
        (KdTree.buildDivide options geometry vertices KdTree.empty).1._triangles
        (KdTree.buildDivide options geometry vertices KdTree.empty).1._primitiveIndices a
        (hi - lo) lo BoundingBox.init m M
        (by rw [(BoundingBox.init_get a).1]; exact hfloat.1)
        (by rw [(BoundingBox.init_get a).2]; exact hfloat.2)
        (by
          intro j hj v hv
          have e : (lo : Int) + (j : Int) = ((lo + j : Nat) : Int) := by push_cast; rfl
          rw [e] at hv
          exact hbound (lo + j) (by omega) (by omega) v hv)
      obtain ⟨i1, i1a, i1b, v1, hv1, ev1⟩ := hmin
      obtain ⟨i2, i2a, i2b, v2, hv2, ev2⟩ := hmax
      have e1 : (i1 : Int) = (lo : Int) + ((i1 - lo : Nat) : Int) := by omega
      have e2 : (i2 : Int) = (lo : Int) + ((i2 - lo : Nat) : Int) := by omega
      rw [e1] at hv1
      rw [e2] at hv2
      have q1 := (leafBoundLoop_margin vertices
        (KdTree.buildDivide options geometry vertices KdTree.empty).1._triangles
        (KdTree.buildDivide options geometry vertices KdTree.empty).1._primitiveIndices a
        (hi - lo) lo BoundingBox.init (i1 - lo) (by omega) v1 hv1).1
      have q2 := (leafBoundLoop_margin vertices
        (KdTree.buildDivide options geometry vertices KdTree.empty).1._triangles
        (KdTree.buildDivide options geometry vertices KdTree.empty).1._primitiveIndices a
        (hi - lo) lo BoundingBox.init (i2 - lo) (by omega) v2 hv2).2
      rw [ev1] at q1
      rw [ev2] at q2
      exact ⟨⟨w1, q1⟩, ⟨q2, w2⟩⟩
    | both _ _ _ _ _ _ _ _ n2 g1 g2 => rw [hk] at g1; cases g1; omega
    | onlyLeft _ _ _ _ _ _ n2 g1 g2 => rw [hk] at g1; cases g1; omega
    | onlyRight _ _ _ _ _ _ n2 g1 g2 => rw [hk] at g1; cases g1; omega
  refine ⟨key.1, key.2, fun h1 => ?_⟩
  obtain ⟨⟨k1, k2⟩, ⟨k3, k4⟩⟩ := key
  rw [h1] at k1 k4
  simp only [Int.cast_one, one_mul] at k1 k4
  exact ⟨le_antisymm k2 k1, le_antisymm k4 k3⟩

/-- Witness of C20: the leaf of two triangles of the two-triangle mesh, the x axis, least
coordinate `0` and greatest coordinate `11`. -/
theorem build_leaf_box_inflation_witness :
    buildReturns BuildOptions.default twoTriangleMesh = true ∧
    (getNode (builtTree BuildOptions.default twoTriangleMesh)._kdNodes 0).second = 2 ∧
    (0 - ((getNode (builtTree BuildOptions.default twoTriangleMesh)._kdNodes 0).second : ℚ) *
          (1 / 1000000) ≤
        (getNode (builtTree BuildOptions.default twoTriangleMesh)._kdNodes 0).bb._min.get 0 ∧
      (getNode (builtTree BuildOptions.default twoTriangleMesh)._kdNodes 0).bb._min.get 0 ≤
        0 - 1 / 1000000) ∧
    (11 + 1 / 1000000 ≤
        (getNode (builtTree BuildOptions.default twoTriangleMesh)._kdNodes 0).bb._max.get 0 ∧
      (getNode (builtTree BuildOptions.default twoTriangleMesh)._kdNodes 0).bb._max.get 0 ≤
        11 + ((getNode (builtTree BuildOptions.default twoTriangleMesh)._kdNodes 0).second : ℚ) *
          (1 / 1000000)) := by
  have hf : (getNode (builtTree BuildOptions.default twoTriangleMesh)._kdNodes 0).first = -1 := by
    decide!
  have hs : (getNode (builtTree BuildOptions.default twoTriangleMesh)._kdNodes 0).second = 2 := by
    decide!
  have r := build_leaf_box_inflation BuildOptions.default twoTriangleMesh (by decide!) 0
    (getNode (builtTree BuildOptions.default twoTriangleMesh)._kdNodes 0) (by decide!)
    (by decide!) 0 0 11
    (by
      intro i h1 h2
      rw [hf] at h1
      rw [hf, hs] at h2
      have hi : i = 0 ∨ i = 1 := by omega
      rcases hi with rfl | rfl <;> decide!)
    ⟨0, by decide!, by decide!, ⟨0, 0, 0⟩, by decide!, by decide!⟩
    ⟨1, by decide!, by decide!, ⟨11, 0, 0⟩, by decide!, by decide!⟩
    (by decide!)
  exact ⟨by decide!, hs, r.1, r.2.1⟩

end BuildClaims

/-! ## The clipper -/

section Clip

variable {α : Type} [LinearOrderedField α]

omit [LinearOrderedField α] in
theorem Vec3.ext_iff' (v w : Vec3 α) : v = w ↔ v.x = w.x ∧ v.y = w.y ∧ v.z = w.z := by
  cases v; cases w; simp

theorem Vec3.get_lerp (s e : Vec3 α) (t : α) (a : Nat) :
    (s.add ((e.sub s).scale t)).get a = s.get a + (e.get a - s.get a) * t := by
  unfold Vec3.get Vec3.add Vec3.sub Vec3.scale
  split_ifs <;> rfl

theorem Vec3.clip_expr (s e : Vec3 α) (k D : α) :
    s.add (((e.sub s).scale k).divide D) = s.add ((e.sub s).scale (k / D)) := by
  unfold Vec3.add Vec3.sub Vec3.scale Vec3.divide
  simp only [mul_div_assoc]

theorem OnSegment.move_start (s e q : Vec3 α) (lam t : α) (h1 : lam ≤ t)
    (h2 : t ≤ 1) (hq : q = s.add ((e.sub s).scale t)) :
    OnSegment q (s.add ((e.sub s).scale lam)) e := by
  by_cases hl : lam = 1
  · have ht : t = 1 := le_antisymm h2 (hl ▸ h1)
    refine ⟨0, le_refl _, zero_le_one, ?_⟩
    rw [hq, ht, hl, Vec3.ext_iff']
    simp only [Vec3.add, Vec3.sub, Vec3.scale]
    refine ⟨by ring, by ring, by ring⟩
  · have hlt : lam < 1 := lt_of_le_of_ne (le_trans h1 h2) hl
    have hpos : 0 < 1 - lam := by linarith
    refine ⟨(t - lam) / (1 - lam), div_nonneg (by linarith) (le_of_lt hpos),
      (div_le_one hpos).mpr (by linarith), ?_⟩
    rw [hq, Vec3.ext_iff']
    simp only [Vec3.add, Vec3.sub, Vec3.scale]
    refine ⟨?_, ?_, ?_⟩ <;> field_simp <;> ring

theorem OnSegment.move_end (s e q : Vec3 α) (mu t : α) (h0 : 0 ≤ t) (h1 : t ≤ mu)
    (hq : q = s.add ((e.sub s).scale t)) :
    OnSegment q s (s.add ((e.sub s).scale mu)) := by
  by_cases hm : mu = 0
  · have ht : t = 0 := le_antisymm (hm ▸ h1) h0
    refine ⟨0, le_refl _, zero_le_one, ?_⟩
    rw [hq, ht, Vec3.ext_iff']
    simp only [Vec3.add, Vec3.sub, Vec3.scale]
    refine ⟨by ring, by ring, by ring⟩
  · have hpos : 0 < mu := lt_of_le_of_ne (le_trans h0 h1) (Ne.symm hm)
    refine ⟨t / mu, div_nonneg h0 (le_of_lt hpos), (div_le_one hpos).mpr h1, ?_⟩
    rw [hq, Vec3.ext_iff']
    simp only [Vec3.add, Vec3.sub, Vec3.scale]
    refine ⟨?_, ?_, ?_⟩ <;> field_simp <;> ring

theorem OnSegment.point_at (s e : Vec3 α) (lam : α) (h0 : 0 ≤ lam) (h1 : lam ≤ 1) :
    OnSegment (s.add ((e.sub s).scale lam)) s e :=
  ⟨lam, h0, h1, rfl⟩

theorem OnSegment.trans (p u w s e : Vec3 α) (hp : OnSegment p u w) (hu : OnSegment u s e)
    (hw : OnSegment w s e) : OnSegment p s e := by
  obtain ⟨t, t0, t1, rfl⟩ := hp
  obtain ⟨tu, u0, u1, rfl⟩ := hu
  obtain ⟨tw, w0, w1, rfl⟩ := hw
  refine ⟨tu + (tw - tu) * t, ?_, ?_, ?_⟩
  · nlinarith [mul_nonneg t0 w0, mul_nonneg (sub_nonneg.mpr t1) u0]
  · nlinarith [mul_nonneg t0 (sub_nonneg.mpr w1),
      mul_nonneg (sub_nonneg.mpr t1) (sub_nonneg.mpr u1)]
  · rw [Vec3.ext_iff']
    simp only [Vec3.add, Vec3.sub, Vec3.scale]
    refine ⟨by ring, by ring, by ring⟩

theorem OnSegment.refl_start (s e : Vec3 α) : OnSegment s s e := by
  refine ⟨0, le_refl _, zero_le_one, ?_⟩
  rw [Vec3.ext_iff']
  simp only [Vec3.add, Vec3.sub, Vec3.scale]
  refine ⟨by ring, by ring, by ring⟩

theorem OnSegment.refl_end (s e : Vec3 α) : OnSegment e s e := by
  refine ⟨1, zero_le_one, le_refl _, ?_⟩
  rw [Vec3.ext_iff']
  simp only [Vec3.add, Vec3.sub, Vec3.scale]
  refine ⟨by ring, by ring, by ring⟩

/-- A point of a segment lies in every slab that holds both end points. -/
theorem OnSegment.slab (p s e : Vec3 α) (a : Nat) (lo hi : α) (hp : OnSegment p s e)
    (hs : lo ≤ s.get a ∧ s.get a ≤ hi) (he : lo ≤ e.get a ∧ e.get a ≤ hi) :
    lo ≤ p.get a ∧ p.get a ≤ hi := by
  obtain ⟨t, t0, t1, rfl⟩ := hp
  rw [Vec3.get_lerp]
  constructor
  · nlinarith [mul_nonneg t0 (sub_nonneg.mpr he.1),
      mul_nonneg (sub_nonneg.mpr t1) (sub_nonneg.mpr hs.1)]
  · nlinarith [mul_nonneg t0 (sub_nonneg.mpr he.2),
      mul_nonneg (sub_nonneg.mpr t1) (sub_nonneg.mpr hs.2)]

/-- Moving the start of a segment to the plane `axis a = c` keeps the points beyond it. -/
theorem OnSegment.clip_start (s e q : Vec3 α) (a : Nat) (c : α) (hq : OnSegment q s e)
    (h : (s.get a < c ∧ c ≤ q.get a) ∨ (c < s.get a ∧ q.get a ≤ c)) :
    OnSegment q (s.add (((e.sub s).scale (c - s.get a)).divide (e.get a - s.get a))) e := by
  obtain ⟨t, t0, t1, hqe⟩ := hq
  have hqa : q.get a = s.get a + (e.get a - s.get a) * t := by rw [hqe, Vec3.get_lerp]
  rw [Vec3.clip_expr]
  apply OnSegment.move_start s e q _ t _ t1 hqe
  rcases h with ⟨h1, h2⟩ | ⟨h1, h2⟩
  · have hD : 0 < e.get a - s.get a := by
      by_contra hc
      have := mul_nonpos_of_nonpos_of_nonneg (not_lt.mp hc) t0
      linarith
    rw [div_le_iff₀ hD]; linarith
  · have hD : e.get a - s.get a < 0 := by
      by_contra hc
      have := mul_nonneg (not_lt.mp hc) t0
      linarith
    rw [div_le_iff_of_neg hD]; linarith

/-- Moving the end of a segment to the plane `axis a = c` keeps the points before it. -/
theorem OnSegment.clip_end (s e q : Vec3 α) (a : Nat) (c : α) (hq : OnSegment q s e)
    (h : (q.get a ≤ c ∧ c < e.get a) ∨ (c ≤ q.get a ∧ e.get a < c)) :
    OnSegment q s (s.add (((e.sub s).scale (c - s.get a)).divide (e.get a - s.get a))) := by
  obtain ⟨t, t0, t1, hqe⟩ := hq
  have hqa : q.get a = s.get a + (e.get a - s.get a) * t := by rw [hqe, Vec3.get_lerp]
  rw [Vec3.clip_expr]
  apply OnSegment.move_end s e q _ t t0 _ hqe
  rcases h with ⟨h1, h2⟩ | ⟨h1, h2⟩
  · have hD : 0 < e.get a - s.get a := by
      by_contra hc
      have := mul_nonpos_of_nonpos_of_nonneg (not_lt.mp hc) (sub_nonneg.mpr t1)
      nlinarith
    rw [le_div_iff₀ hD]; linarith
  · have hD : e.get a - s.get a < 0 := by
      by_contra hc
      have := mul_nonneg (not_lt.mp hc) (sub_nonneg.mpr t1)
      nlinarith
    rw [le_div_iff_of_neg hD]; linarith

/-- The point that the clipper computes on the plane `axis a = c`. -/
theorem OnSegment.clip_point (s e : Vec3 α) (a : Nat) (c : α)
    (h : (s.get a ≤ c ∧ c ≤ e.get a ∧ s.get a < e.get a) ∨
      (e.get a ≤ c ∧ c ≤ s.get a ∧ e.get a < s.get a)) :
    OnSegment (s.add (((e.sub s).scale (c - s.get a)).divide (e.get a - s.get a))) s e ∧
      (s.add (((e.sub s).scale (c - s.get a)).divide (e.get a - s.get a))).get a = c := by
  rw [Vec3.clip_expr]
  have hD : e.get a - s.get a ≠ 0 := by
    rcases h with ⟨_, _, h3⟩ | ⟨_, _, h3⟩
    · exact ne_of_gt (by linarith)
    · exact ne_of_lt (by linarith)
  refine ⟨OnSegment.point_at s e _ ?_ ?_, ?_⟩
  · rcases h with ⟨h1, h2, h3⟩ | ⟨h1, h2, h3⟩
    · exact div_nonneg (by linarith) (by linarith)
    · exact div_nonneg_of_nonpos (by linarith) (by linarith)
  · rcases h with ⟨h1, h2, h3⟩ | ⟨h1, h2, h3⟩
    · rw [div_le_one (by linarith)]; linarith
    · rw [div_le_one_of_neg (by linarith)]; linarith
  · rw [Vec3.get_lerp]
    field_simp

/-- A segment with a point in the slab of `bb` on axis `a` passes the block for that axis,
and the point stays on the clipped segment. -/
theorem clipAxis_complete (a : Nat) (s e q : Vec3 α) (bb : BoundingBox α)
    (hq : OnSegment q s e) (hin : bb._min.get a ≤ q.get a ∧ q.get a ≤ bb._max.get a) :
    (clipAxis a s e bb).1 = true ∧
      OnSegment q (clipAxis a s e bb).2.1 (clipAxis a s e bb).2.2 := by
  unfold clipAxis
  by_cases hse : s.get a ≤ e.get a
  · have hb := OnSegment.slab q s e a (s.get a) (e.get a) hq ⟨le_refl _, hse⟩ ⟨hse, le_refl _⟩
    rw [if_pos hse, if_neg (by linarith), if_neg (by linarith)]
    simp only [true_and]
    by_cases h1 : s.get a < bb._min.get a
    · rw [if_pos h1]
      have hq1 := OnSegment.clip_start s e q a (bb._min.get a) hq (Or.inl ⟨h1, hin.1⟩)
      by_cases h2 : e.get a > bb._max.get a
      · rw [if_pos h2]
        exact OnSegment.clip_end _ e q a (bb._max.get a) hq1 (Or.inl ⟨hin.2, h2⟩)
      · rw [if_neg h2]; exact hq1
    · rw [if_neg h1]
      by_cases h2 : e.get a > bb._max.get a
      · rw [if_pos h2]
        exact OnSegment.clip_end _ e q a (bb._max.get a) hq (Or.inl ⟨hin.2, h2⟩)
      · rw [if_neg h2]; exact hq
  · have hes : e.get a ≤ s.get a := le_of_lt (not_le.mp hse)
    have hq' : OnSegment q e s := by
      obtain ⟨t, t0, t1, rfl⟩ := hq
      refine ⟨1 - t, by linarith, by linarith, ?_⟩
      rw [Vec3.ext_iff']
      simp only [Vec3.add, Vec3.sub, Vec3.scale]
      refine ⟨by ring, by ring, by ring⟩
    have hb := OnSegment.slab q e s a (e.get a) (s.get a) hq' ⟨le_refl _, hes⟩ ⟨hes, le_refl _⟩
    rw [if_neg hse, if_neg (by linarith), if_neg (by linarith)]
    simp only [true_and]
    by_cases h1 : e.get a < bb._min.get a
    · rw [if_pos h1]
      have hq1 := OnSegment.clip_end s e q a (bb._min.get a) hq (Or.inr ⟨hin.1, h1⟩)
      by_cases h2 : s.get a > bb._max.get a
      · rw [if_pos h2]
        exact OnSegment.clip_start s _ q a (bb._max.get a) hq1 (Or.inr ⟨h2, hin.2⟩)
      · rw [if_neg h2]; exact hq1
    · rw [if_neg h1]
      by_cases h2 : s.get a > bb._max.get a
      · rw [if_pos h2]
        exact OnSegment.clip_start s e q a (bb._max.get a) hq (Or.inr ⟨h2, hin.2⟩)
      · rw [if_neg h2]; exact hq

/-- When the block for axis `a` does not reject, the clipped end points lie on the given
segment and, for a slab that is not empty, inside the slab. -/
theorem clipAxis_sound (a : Nat) (s e : Vec3 α) (bb : BoundingBox α)
    (hv : bb._min.get a ≤ bb._max.get a) (h : (clipAxis a s e bb).1 = true) :
    OnSegment (clipAxis a s e bb).2.1 s e ∧ OnSegment (clipAxis a s e bb).2.2 s e ∧
      (bb._min.get a ≤ (clipAxis a s e bb).2.1.get a ∧
        (clipAxis a s e bb).2.1.get a ≤ bb._max.get a) ∧
      (bb._min.get a ≤ (clipAxis a s e bb).2.2.get a ∧
        (clipAxis a s e bb).2.2.get a ≤ bb._max.get a) := by
  unfold clipAxis at h ⊢
  by_cases hse : s.get a ≤ e.get a
  · rw [if_pos hse] at h ⊢
    by_cases r1 : e.get a < bb._min.get a
    · rw [if_pos r1] at h; cases h
    rw [if_neg r1] at h ⊢
    by_cases r2 : s.get a > bb._max.get a
    · rw [if_pos r2] at h; cases h
    rw [if_neg r2]
    simp only []
    have hs1 : ∃ s1, s1 = (if s.get a < bb._min.get a then
        s.add (((e.sub s).scale (bb._min.get a - s.get a)).divide (e.get a - s.get a))
        else s) ∧ OnSegment s1 s e ∧ bb._min.get a ≤ s1.get a ∧ s1.get a ≤ bb._max.get a ∧
        s1.get a ≤ e.get a := by
      by_cases h1 : s.get a < bb._min.get a
      · rw [if_pos h1]
        obtain ⟨p1, p2⟩ := OnSegment.clip_point s e a (bb._min.get a)
          (Or.inl ⟨le_of_lt h1, not_lt.mp r1, by linarith [not_lt.mp r1]⟩)
        exact ⟨_, rfl, p1, by rw [p2], by rw [p2]; exact hv, by rw [p2]; exact not_lt.mp r1⟩
      · rw [if_neg h1]
        exact ⟨_, rfl, OnSegment.refl_start s e, not_lt.mp h1, not_lt.mp r2, hse⟩
    obtain ⟨s1, hs1e, on1, b1, b2, b3⟩ := hs1
    rw [← hs1e]
    by_cases h2 : e.get a > bb._max.get a
    · rw [if_pos h2]
      obtain ⟨p1, p2⟩ := OnSegment.clip_point s1 e a (bb._max.get a)
        (Or.inl ⟨b2, le_of_lt h2, by linarith⟩)
      exact ⟨on1, OnSegment.trans _ s1 e s e p1 on1 (OnSegment.refl_end s e), ⟨b1, b2⟩,
        by rw [p2]; exact ⟨hv, le_refl _⟩⟩
    · rw [if_neg h2]
      exact ⟨on1, OnSegment.refl_end s e, ⟨b1, b2⟩, not_lt.mp r1, not_lt.mp h2⟩
  · have hes : e.get a < s.get a := not_le.mp hse
    rw [if_neg hse] at h ⊢
    by_cases r1 : s.get a < bb._min.get a
    · rw [if_pos r1] at h; cases h
    rw [if_neg r1] at h ⊢
    by_cases r2 : e.get a > bb._max.get a
    · rw [if_pos r2] at h; cases h
    rw [if_neg r2]
    simp only []
    have he1 : ∃ e1, e1 = (if e.get a < bb._min.get a then
        s.add (((e.sub s).scale (bb._min.get a - s.get a)).divide (e.get a - s.get a))
        else e) ∧ OnSegment e1 s e ∧ bb._min.get a ≤ e1.get a ∧ e1.get a ≤ bb._max.get a ∧
        e1.get a ≤ s.get a := by
      by_cases h1 : e.get a < bb._min.get a
      · rw [if_pos h1]
        obtain ⟨p1, p2⟩ := OnSegment.clip_point s e a (bb._min.get a)
          (Or.inr ⟨le_of_lt h1, not_lt.mp r1, hes⟩)
        exact ⟨_, rfl, p1, by rw [p2], by rw [p2]; exact hv, by rw [p2]; exact not_lt.mp r1⟩
      · rw [if_neg h1]
        exact ⟨_, rfl, OnSegment.refl_end s e, not_lt.mp h1, not_lt.mp r2, le_of_lt hes⟩
    obtain ⟨e1, he1e, on1, b1, b2, b3⟩ := he1
    rw [← he1e]
    by_cases h2 : s.get a > bb._max.get a
    · rw [if_pos h2]
      obtain ⟨p1, p2⟩ := OnSegment.clip_point s e1 a (bb._max.get a)
        (Or.inr ⟨b2, le_of_lt h2, by linarith⟩)
      exact ⟨OnSegment.trans _ s e1 s e p1 (OnSegment.refl_start s e) on1, on1,
        by rw [p2]; exact ⟨hv, le_refl _⟩, ⟨b1, b2⟩⟩
    · rw [if_neg h2]
      exact ⟨OnSegment.refl_start s e, on1, ⟨not_lt.mp r1, not_lt.mp h2⟩, ⟨b1, b2⟩⟩

/-- A segment with a point in the box is not rejected by `intersectAndClip`, and the point
stays on the clipped segment. -/
theorem intersectAndClip_complete (s e q : Vec3 α) (bb : BoundingBox α)
    (hq : OnSegment q s e) (hin : bb.Contains q) :
    (intersectAndClip s e bb).1 = true ∧
      OnSegment q (intersectAndClip s e bb).2.1 (intersectAndClip s e bb).2.2 := by
  have hc := (BoundingBox.contains_iff bb q).mp hin
  unfold intersectAndClip
  obtain ⟨x1, x2⟩ := clipAxis_complete 0 s e q bb hq (hc 0)
  simp only []
  rw [if_neg (by rw [x1]; simp)]
  obtain ⟨y1, y2⟩ := clipAxis_complete 1 _ _ q bb x2 (hc 1)
  rw [if_neg (by rw [y1]; simp)]
  exact clipAxis_complete 2 _ _ q bb y2 (hc 2)

/-- When `intersectAndClip` accepts a segment against a valid box, the clipped start point
lies on the segment and in the box. -/
theorem intersectAndClip_sound (s e : Vec3 α) (bb : BoundingBox α) (hv : bb.valid = true)
    (h : (intersectAndClip s e bb).1 = true) :
    OnSegment (intersectAndClip s e bb).2.1 s e ∧ bb.Contains (intersectAndClip s e bb).2.1 := by
  rw [BoundingBox.valid_iff] at hv
  have v0 : bb._min.get 0 ≤ bb._max.get 0 := by simpa [Vec3.get] using hv.1
  have v1 : bb._min.get 1 ≤ bb._max.get 1 := by simpa [Vec3.get] using hv.2.1
  have v2 : bb._min.get 2 ≤ bb._max.get 2 := by simpa [Vec3.get] using hv.2.2
  unfold intersectAndClip at h ⊢
  simp only [] at h ⊢
  by_cases cx : (clipAxis 0 s e bb).1 = false
  · rw [if_pos cx] at h; rw [cx] at h; cases h
  rw [if_neg cx] at h ⊢
  have cx' : (clipAxis 0 s e bb).1 = true := by simpa using cx
  obtain ⟨a1, a2, a3, a4⟩ := clipAxis_sound 0 s e bb v0 cx'
  by_cases cy : (clipAxis 1 (clipAxis 0 s e bb).2.1 (clipAxis 0 s e bb).2.2 bb).1 = false
  · rw [if_pos cy] at h; rw [cy] at h; cases h
  rw [if_neg cy] at h ⊢
  have cy' : (clipAxis 1 (clipAxis 0 s e bb).2.1 (clipAxis 0 s e bb).2.2 bb).1 = true := by
    simpa using cy
  obtain ⟨b1, b2, b3, b4⟩ := clipAxis_sound 1 _ _ bb v1 cy'
  obtain ⟨c1, c2, c3, c4⟩ := clipAxis_sound 2 _ _ bb v2 h
  generalize clipAxis 0 s e bb = rx at *
  generalize clipAxis 1 rx.2.1 rx.2.2 bb = ry at *
  generalize clipAxis 2 ry.2.1 ry.2.2 bb = rz at *
  have onY1 : OnSegment ry.2.1 s e := OnSegment.trans _ _ _ s e b1 a1 a2
  have onY2 : OnSegment ry.2.2 s e := OnSegment.trans _ _ _ s e b2 a1 a2
  have onZ1 : OnSegment rz.2.1 s e := OnSegment.trans _ _ _ s e c1 onY1 onY2
  refine ⟨onZ1, ?_⟩
  have y0a := OnSegment.slab _ _ _ 0 _ _ b1 a3 a4
  have y0b := OnSegment.slab _ _ _ 0 _ _ b2 a3 a4
  have z0 := OnSegment.slab _ _ _ 0 _ _ c1 y0a y0b
  have z1 := OnSegment.slab _ _ _ 1 _ _ c1 b3 b4
  exact ⟨by simpa [Vec3.get] using z0, by simpa [Vec3.get] using z1,
    by simpa [Vec3.get] using c3⟩

theorem OrderedOn.of_start (s1 e1 s e : Vec3 α) (h1 : OnSegment s1 s e)
    (h2 : OnSegment e1 s1 e) : OrderedOn s1 e1 s e := by
  obtain ⟨t, t0, t1, rfl⟩ := h1
  obtain ⟨u, u0, u1, rfl⟩ := h2
  refine ⟨t, t + (1 - t) * u, t0, ?_, ?_, rfl, ?_⟩
  · nlinarith [mul_nonneg (sub_nonneg.mpr t1) u0]
  · nlinarith [mul_nonneg (sub_nonneg.mpr t1) (sub_nonneg.mpr u1)]
  · rw [Vec3.ext_iff']
    simp only [Vec3.add, Vec3.sub, Vec3.scale]
    refine ⟨by ring, by ring, by ring⟩

theorem OrderedOn.of_end (s1 e1 s e : Vec3 α) (h1 : OnSegment e1 s e)
    (h2 : OnSegment s1 s e1) : OrderedOn s1 e1 s e := by
  obtain ⟨u, u0, u1, rfl⟩ := h1
  obtain ⟨w, w0, w1, rfl⟩ := h2
  refine ⟨u * w, u, mul_nonneg u0 w0, ?_, u1, ?_, rfl⟩
  · nlinarith [mul_nonneg u0 (sub_nonneg.mpr w1)]
  · rw [Vec3.ext_iff']
    simp only [Vec3.add, Vec3.sub, Vec3.scale]
    refine ⟨by ring, by ring, by ring⟩

theorem OrderedOn.compose (s2 e2 s1 e1 s e : Vec3 α) (h2 : OrderedOn s2 e2 s1 e1)
    (h1 : OrderedOn s1 e1 s e) : OrderedOn s2 e2 s e := by
  obtain ⟨t1, t2, a0, a1, a2, rfl, rfl⟩ := h1
  obtain ⟨u1, u2, b0, b1, b2, rfl, rfl⟩ := h2
  refine ⟨t1 + (t2 - t1) * u1, t1 + (t2 - t1) * u2, ?_, ?_, ?_, ?_, ?_⟩
  · nlinarith [mul_nonneg (sub_nonneg.mpr a1) b0]
  · nlinarith [mul_nonneg (sub_nonneg.mpr a1) (sub_nonneg.mpr b1)]
  · nlinarith [mul_nonneg (sub_nonneg.mpr a1) (sub_nonneg.mpr b2)]
  · rw [Vec3.ext_iff']
    simp only [Vec3.add, Vec3.sub, Vec3.scale]
    refine ⟨by ring, by ring, by ring⟩
  · rw [Vec3.ext_iff']
    simp only [Vec3.add, Vec3.sub, Vec3.scale]
    refine ⟨by ring, by ring, by ring⟩

/-- When the block for axis `a` does not reject, against a slab that is not empty, the
clipped end points lie on the given segment in the given order. -/
theorem clipAxis_ordered (a : Nat) (s e : Vec3 α) (bb : BoundingBox α)
    (hv : bb._min.get a ≤ bb._max.get a) (h : (clipAxis a s e bb).1 = true) :
    OrderedOn (clipAxis a s e bb).2.1 (clipAxis a s e bb).2.2 s e := by
  unfold clipAxis at h ⊢
  by_cases hse : s.get a ≤ e.get a
  · rw [if_pos hse] at h ⊢
    by_cases r1 : e.get a < bb._min.get a
    · rw [if_pos r1] at h; cases h
    rw [if_neg r1] at h ⊢
    by_cases r2 : s.get a > bb._max.get a
    · rw [if_pos r2] at h; cases h
    rw [if_neg r2]
    simp only []
    have hs1 : ∃ s1, s1 = (if s.get a < bb._min.get a then
        s.add (((e.sub s).scale (bb._min.get a - s.get a)).divide (e.get a - s.get a))
        else s) ∧ OnSegment s1 s e ∧ s1.get a ≤ bb._max.get a := by
      by_cases h1 : s.get a < bb._min.get a
      · rw [if_pos h1]
        obtain ⟨p1, p2⟩ := OnSegment.clip_point s e a (bb._min.get a)
          (Or.inl ⟨le_of_lt h1, not_lt.mp r1, by linarith [not_lt.mp r1]⟩)
        exact ⟨_, rfl, p1, by rw [p2]; exact hv⟩
      · rw [if_neg h1]
        exact ⟨_, rfl, OnSegment.refl_start s e, not_lt.mp r2⟩
    obtain ⟨s1, hs1e, on1, b2⟩ := hs1
    rw [← hs1e]
    apply OrderedOn.of_start _ _ _ _ on1
    by_cases h2 : e.get a > bb._max.get a
    · rw [if_pos h2]
      exact (OnSegment.clip_point s1 e a (bb._max.get a)
        (Or.inl ⟨b2, le_of_lt h2, by linarith⟩)).1
    · rw [if_neg h2]
      exact OnSegment.refl_end s1 e
  · have hes : e.get a < s.get a := not_le.mp hse
    rw [if_neg hse] at h ⊢
    by_cases r1 : s.get a < bb._min.get a
    · rw [if_pos r1] at h; cases h
    rw [if_neg r1] at h ⊢
    by_cases r2 : e.get a > bb._max.get a
    · rw [if_pos r2] at h; cases h
    rw [if_neg r2]
    simp only []
    have he1 : ∃ e1, e1 = (if e.get a < bb._min.get a then
        s.add (((e.sub s).scale (bb._min.get a - s.get a)).divide (e.get a - s.get a))
        else e) ∧ OnSegment e1 s e ∧ e1.get a ≤ bb._max.get a ∧
        (s.get a > bb._max.get a → e1.get a < s.get a) := by
      by_cases h1 : e.get a < bb._min.get a
      · rw [if_pos h1]
        obtain ⟨p1, p2⟩ := OnSegment.clip_point s e a (bb._min.get a)
          (Or.inr ⟨le_of_lt h1, not_lt.mp r1, hes⟩)
        exact ⟨_, rfl, p1, by rw [p2]; exact hv, fun hgt => by rw [p2]; linarith⟩
      · rw [if_neg h1]
        exact ⟨_, rfl, OnSegment.refl_end s e, not_lt.mp r2, fun _ => hes⟩
    obtain ⟨e1, he1e, on1, b2, b3⟩ := he1
    rw [← he1e]
    apply OrderedOn.of_end _ _ _ _ on1
    by_cases h2 : s.get a > bb._max.get a
    · rw [if_pos h2]
      exact (OnSegment.clip_point s e1 a (bb._max.get a)
        (Or.inr ⟨b2, le_of_lt h2, b3 h2⟩)).1
    · rw [if_neg h2]
      exact OnSegment.refl_start s e1

/-- When `intersectAndClip` accepts a segment against a valid box, both clipped end points
lie in the box and on the segment, in the order of the segment. -/
theorem intersectAndClip_ends (s e : Vec3 α) (bb : BoundingBox α) (hv : bb.valid = true)
    (h : (intersectAndClip s e bb).1 = true) :
    bb.Contains (intersectAndClip s e bb).2.1 ∧ bb.Contains (intersectAndClip s e bb).2.2 ∧
      OrderedOn (intersectAndClip s e bb).2.1 (intersectAndClip s e bb).2.2 s e := by
  rw [BoundingBox.valid_iff] at hv
  have v0 : bb._min.get 0 ≤ bb._max.get 0 := by simpa [Vec3.get] using hv.1
  have v1 : bb._min.get 1 ≤ bb._max.get 1 := by simpa [Vec3.get] using hv.2.1
  have v2 : bb._min.get 2 ≤ bb._max.get 2 := by simpa [Vec3.get] using hv.2.2
  unfold intersectAndClip at h ⊢
  simp only [] at h ⊢
  by_cases cx : (clipAxis 0 s e bb).1 = false
  · rw [if_pos cx] at h; rw [cx] at h; cases h
  rw [if_neg cx] at h ⊢
  have cx' : (clipAxis 0 s e bb).1 = true := by simpa using cx
  obtain ⟨a1, a2, a3, a4⟩ := clipAxis_sound 0 s e bb v0 cx'
  have oa := clipAxis_ordered 0 s e bb v0 cx'
  by_cases cy : (clipAxis 1 (clipAxis 0 s e bb).2.1 (clipAxis 0 s e bb).2.2 bb).1 = false
  · rw [if_pos cy] at h; rw [cy] at h; cases h
  rw [if_neg cy] at h ⊢
  have cy' : (clipAxis 1 (clipAxis 0 s e bb).2.1 (clipAxis 0 s e bb).2.2 bb).1 = true := by
    simpa using cy
  obtain ⟨b1, b2, b3, b4⟩ := clipAxis_sound 1 _ _ bb v1 cy'
  have ob := clipAxis_ordered 1 _ _ bb v1 cy'
  obtain ⟨c1, c2, c3, c4⟩ := clipAxis_sound 2 _ _ bb v2 h
  have oc := clipAxis_ordered 2 _ _ bb v2 h
  generalize clipAxis 0 s e bb = rx at *
  generalize clipAxis 1 rx.2.1 rx.2.2 bb = ry at *
  generalize clipAxis 2 ry.2.1 ry.2.2 bb = rz at *
  have y0a := OnSegment.slab _ _ _ 0 _ _ b1 a3 a4
  have y0b := OnSegment.slab _ _ _ 0 _ _ b2 a3 a4
  have z0a := OnSegment.slab _ _ _ 0 _ _ c1 y0a y0b
  have z0b := OnSegment.slab _ _ _ 0 _ _ c2 y0a y0b
  have z1a := OnSegment.slab _ _ _ 1 _ _ c1 b3 b4
  have z1b := OnSegment.slab _ _ _ 1 _ _ c2 b3 b4
  refine ⟨?_, ?_, ?_⟩
  · exact ⟨by simpa [Vec3.get] using z0a, by simpa [Vec3.get] using z1a,
      by simpa [Vec3.get] using c3⟩
  · exact ⟨by simpa [Vec3.get] using z0b, by simpa [Vec3.get] using z1b,
      by simpa [Vec3.get] using c4⟩
  · exact OrderedOn.compose _ _ _ _ _ _ oc (OrderedOn.compose _ _ _ _ _ _ ob oa)

theorem OrderedOn.on_segment {s1 e1 s e : Vec3 α} (h : OrderedOn s1 e1 s e) :
    OnSegment s1 s e ∧ OnSegment e1 s e := by
  obtain ⟨t1, t2, a0, a1, a2, rfl, rfl⟩ := h
  exact ⟨⟨t1, a0, le_trans a1 a2, rfl⟩, ⟨t2, le_trans a0 a1, a2, rfl⟩⟩

/-- C18: for a valid box, `intersectAndClip` returns true exactly when the closed segment
has a point in the box; and when it returns true the updated `s` and `e` lie in the box and
on the given segment, `s` not after `e` in the direction of the segment, and the points
between them are exactly the points of the given segment that lie in the box. -/
theorem intersectAndClip_spec (s e : Vec3 α) (bb : BoundingBox α) (hv : bb.valid = true) :
    ((intersectAndClip s e bb).1 = true ↔ ∃ q, OnSegment q s e ∧ bb.Contains q) ∧
    ((intersectAndClip s e bb).1 = true →
      bb.Contains (intersectAndClip s e bb).2.1 ∧
      bb.Contains (intersectAndClip s e bb).2.2 ∧
      (∃ t1 t2 : α, 0 ≤ t1 ∧ t1 ≤ t2 ∧ t2 ≤ 1 ∧
        (intersectAndClip s e bb).2.1 = s.add ((e.sub s).scale t1) ∧
        (intersectAndClip s e bb).2.2 = s.add ((e.sub s).scale t2)) ∧
      ∀ q, OnSegment q (intersectAndClip s e bb).2.1 (intersectAndClip s e bb).2.2 ↔
        (OnSegment q s e ∧ bb.Contains q)) := by
  have main : (intersectAndClip s e bb).1 = true →
      bb.Contains (intersectAndClip s e bb).2.1 ∧
      bb.Contains (intersectAndClip s e bb).2.2 ∧
      OrderedOn (intersectAndClip s e bb).2.1 (intersectAndClip s e bb).2.2 s e ∧
      ∀ q, OnSegment q (intersectAndClip s e bb).2.1 (intersectAndClip s e bb).2.2 ↔
        (OnSegment q s e ∧ bb.Contains q) := by
    intro h
    obtain ⟨c1, c2, ord⟩ := intersectAndClip_ends s e bb hv h
    obtain ⟨o1, o2⟩ := ord.on_segment
    refine ⟨c1, c2, ord, fun q => ⟨fun hq => ⟨OnSegment.trans _ _ _ s e hq o1 o2, ?_⟩,
      fun hq => (intersectAndClip_complete s e q bb hq.1 hq.2).2⟩⟩
    rw [BoundingBox.contains_iff] at c1 c2 ⊢
    intro a
    exact OnSegment.slab q _ _ a _ _ hq (c1 a) (c2 a)
  refine ⟨⟨fun h => ?_, fun ⟨q, hq, hin⟩ => (intersectAndClip_complete s e q bb hq hin).1⟩,
    fun h => ?_⟩
  · obtain ⟨c1, -, ord, -⟩ := main h
    exact ⟨_, ord.on_segment.1, c1⟩
  · obtain ⟨c1, c2, ord, hq⟩ := main h
    exact ⟨c1, c2, ord, hq⟩

/-- Witness of C18: the unit box and a segment along the x axis through it; the segment is
clipped to the part from `x = 0` to `x = 1`. -/
theorem intersectAndClip_spec_witness :
    (⟨⟨0, 0, 0⟩, ⟨1, 1, 1⟩⟩ : BoundingBox ℚ).valid = true ∧
      intersectAndClip (⟨-1, 1 / 2, 1 / 2⟩ : Vec3 ℚ) ⟨2, 1 / 2, 1 / 2⟩ ⟨⟨0, 0, 0⟩, ⟨1, 1, 1⟩⟩ =
        (true, ⟨0, 1 / 2, 1 / 2⟩, ⟨1, 1 / 2, 1 / 2⟩) ∧
      ((intersectAndClip (⟨-1, 1 / 2, 1 / 2⟩ : Vec3 ℚ) ⟨2, 1 / 2, 1 / 2⟩
          ⟨⟨0, 0, 0⟩, ⟨1, 1, 1⟩⟩).1 = true ↔
        ∃ q, OnSegment q (⟨-1, 1 / 2, 1 / 2⟩ : Vec3 ℚ) ⟨2, 1 / 2, 1 / 2⟩ ∧
          (⟨⟨0, 0, 0⟩, ⟨1, 1, 1⟩⟩ : BoundingBox ℚ).Contains q) :=
  ⟨by decide!, by decide!,
    (intersectAndClip_spec (⟨-1, 1 / 2, 1 / 2⟩ : Vec3 ℚ) ⟨2, 1 / 2, 1 / 2⟩
      ⟨⟨0, 0, 0⟩, ⟨1, 1, 1⟩⟩ (by decide!)).1⟩

theorem ilog2_spec : ∀ (fuel n : Nat), 0 < n → n ≤ fuel →
    2 ^ ilog2 fuel n ≤ n ∧ n < 2 ^ (ilog2 fuel n + 1) := by
  intro fuel
  induction fuel with
  | zero => intro n h1 h2; omega
  | succ fuel ih =>
    intro n h1 h2
    simp only [ilog2]
    by_cases hn : n < 2
    · rw [if_pos hn]
      have : n = 1 := by omega
      subst this
      simp
    · rw [if_neg hn]
      obtain ⟨a1, a2⟩ := ih (n / 2) (by omega) (by omega)
      constructor
      · rw [pow_succ]
        omega
      · rw [pow_succ]
        omega

/-- The exponent that `binade` returns is not too large. -/
theorem binade_le (q : ℚ) (hq : q ≠ 0) : (2 : ℚ) ^ binade q ≤ |q| := by
  unfold binade
  simp only []
  split_ifs with h
  · exact h
  · have hn : 0 < q.num.natAbs := Int.natAbs_pos.mpr (Rat.num_ne_zero.mpr hq)
    have hd : 0 < q.den := q.den_pos
    obtain ⟨n1, -⟩ := ilog2_spec q.num.natAbs q.num.natAbs hn (le_refl _)
    obtain ⟨-, d2⟩ := ilog2_spec q.den q.den hd (le_refl _)
    have habs : |q| = (q.num.natAbs : ℚ) / (q.den : ℚ) := by
      rw [Rat.abs_def, Rat.divInt_eq_div]
      push_cast
      congr 1
      rw [Nat.cast_natAbs, Int.cast_abs]
    rw [habs]
    have e : ((ilog2 q.num.natAbs q.num.natAbs : Int) - (ilog2 q.den q.den : Int) - 1) =
        (ilog2 q.num.natAbs q.num.natAbs : Int) - ((ilog2 q.den q.den + 1 : Nat) : Int) := by
      push_cast; ring
    rw [e, zpow_sub₀ (by norm_num : (2 : ℚ) ≠ 0), zpow_natCast, zpow_natCast]
    have n1' : ((2 : ℚ) ^ ilog2 q.num.natAbs q.num.natAbs) ≤ (q.num.natAbs : ℚ) := by
      exact_mod_cast n1
    have d2' : (q.den : ℚ) ≤ (2 : ℚ) ^ (ilog2 q.den q.den + 1) := by
      exact_mod_cast le_of_lt d2
    have hdq : (0 : ℚ) < (q.den : ℚ) := by exact_mod_cast hd
    have hp : (0 : ℚ) < (2 : ℚ) ^ (ilog2 q.den q.den + 1) := by positivity
    rw [div_le_div_iff₀ hp hdq]
    have hp2 : (0 : ℚ) ≤ (2 : ℚ) ^ ilog2 q.num.natAbs q.num.natAbs := by positivity
    have hnq : (0 : ℚ) ≤ (q.num.natAbs : ℚ) := by positivity
    calc (2 : ℚ) ^ ilog2 q.num.natAbs q.num.natAbs * (q.den : ℚ)
        ≤ (2 : ℚ) ^ ilog2 q.num.natAbs q.num.natAbs * (2 : ℚ) ^ (ilog2 q.den q.den + 1) :=
          mul_le_mul_of_nonneg_left d2' hp2
      _ ≤ (q.num.natAbs : ℚ) * (2 : ℚ) ^ (ilog2 q.den q.den + 1) :=
          mul_le_mul_of_nonneg_right n1' (le_of_lt hp)

/-- A rational of absolute value at least one does not round to zero. -/
theorem roundHalfEven_ne_zero (z : ℚ) (hz : 1 ≤ |z|) : roundHalfEven z ≠ 0 := by
  unfold roundHalfEven
  simp only []
  have f1 : (⌊z⌋ : ℚ) ≤ z := Int.floor_le z
  have f2 : z < (⌊z⌋ : ℚ) + 1 := Int.lt_floor_add_one z
  rcases le_or_lt 0 z with hpos | hneg
  · rw [abs_of_nonneg hpos] at hz
    have : 1 ≤ ⌊z⌋ := Int.le_floor.mpr (by exact_mod_cast hz)
    split_ifs <;> omega
  · rw [abs_of_neg hneg] at hz
    have hle : ⌊z⌋ ≤ -1 := by
      have : ⌊z⌋ < 0 := Int.floor_lt.mpr (by exact_mod_cast hneg)
      omega
    by_cases h2 : ⌊z⌋ ≤ -2
    · split_ifs <;> omega
    · have hm : ⌊z⌋ = -1 := by omega
      have hz1 : z = -1 := by
        rw [hm] at f1
        push_cast at f1
        linarith
      rw [hm, hz1]
      norm_num

/-- Every value of `round32` is a multiple of `2^-149`. -/
theorem round32_grid (q : ℚ) : ∃ j : Int, round32 q = (j : ℚ) * (2 : ℚ) ^ (-149 : Int) := by
  unfold round32
  by_cases hq : q = 0
  · rw [if_pos hq]; exact ⟨0, by simp⟩
  · rw [if_neg hq]
    simp only []
    have he : (-126 : Int) ≤ max (binade q) (-126) := le_max_right _ _
    obtain ⟨k, hk⟩ : ∃ k : Nat, max (binade q) (-126) - 23 = (k : Int) + (-149) :=
      ⟨(max (binade q) (-126) + 126).toNat, by omega⟩
    rw [hk, zpow_add₀ (by norm_num : (2 : ℚ) ≠ 0), zpow_natCast]
    refine ⟨roundHalfEven (q / ((2 : ℚ) ^ k * (2 : ℚ) ^ (-149 : Int))) * 2 ^ k, ?_⟩
    push_cast
    ring

/-- The difference of two different single-precision values does not round to zero
(gradual underflow). -/
theorem round32_sub_ne_zero (x y : ℚ) (hx : round32 x = x) (hy : round32 y = y)
    (hne : x ≠ y) : round32 (x - y) ≠ 0 := by
  have hq : x - y ≠ 0 := sub_ne_zero.mpr hne
  obtain ⟨jx, ex⟩ := round32_grid x
  obtain ⟨jy, ey⟩ := round32_grid y
  rw [hx] at ex
  rw [hy] at ey
  unfold round32
  rw [if_neg hq]
  simp only []
  have hu : (0 : ℚ) < (2 : ℚ) ^ (max (binade (x - y)) (-126) - 23) := by positivity
  apply mul_ne_zero _ (ne_of_gt hu)
  have key : 1 ≤ |(x - y) / (2 : ℚ) ^ (max (binade (x - y)) (-126) - 23)| := by
    rw [abs_div, abs_of_pos hu, le_div_iff₀ hu, one_mul]
    rcases le_or_lt (-126) (binade (x - y)) with hb | hb
    · rw [max_eq_left hb]
      have h1 := binade_le (x - y) hq
      have h2 : (2 : ℚ) ^ (binade (x - y) - 23) ≤ (2 : ℚ) ^ binade (x - y) :=
        zpow_le_zpow_right₀ (by norm_num) (by omega)
      exact le_trans h2 h1
    · rw [max_eq_right (le_of_lt hb)]
      have e : x - y = ((jx - jy : Int) : ℚ) * (2 : ℚ) ^ (-149 : Int) := by
        rw [ex, ey]; push_cast; ring
      have hj : jx - jy ≠ 0 := by
        intro h0
        rw [h0] at e
        simp at e
        exact hq e
      have hp : (0 : ℚ) < (2 : ℚ) ^ (-149 : Int) := by positivity
      rw [e, abs_mul, abs_of_pos hp]
      norm_num
      have : (1 : ℚ) ≤ |((jx - jy : Int) : ℚ)| := by
        rw [← Int.cast_abs]
        exact_mod_cast Int.one_le_abs hj
      push_cast at this
      exact this
  have := roundHalfEven_ne_zero _ key
  exact_mod_cast this

/-- Sample values of the single-precision rounding: `0.1f`, a tie above `2^24` going to the
even neighbour, a value below the least normal number, and a tie among the subnormals. -/
theorem round32_samples :
    round32 (1 / 10) = 13421773 / 134217728 ∧ round32 16777217 = 16777216 ∧
      round32 16777219 = 16777220 ∧
      round32 (5 / 2 * 2 ^ (-149 : Int)) = 2 * 2 ^ (-149 : Int) ∧
      round32 (1 / 3 * 2 ^ (-149 : Int)) = 0 := by
  refine ⟨by decide!, by decide!, by decide!, by decide!, by decide!⟩

theorem clipPointWith_id (s e : Vec3 α) (k D : α) :
    clipPointWith id s e k D = s.add (((e.sub s).scale k).divide D) := rfl

theorem clipAxisWith_id (a : Nat) (s e : Vec3 α) (bb : BoundingBox α) :
    clipAxisWith id a s e bb = clipAxis a s e bb := rfl

/-- In exact arithmetic, against a slab that is not empty, no division of the block for
axis `a` is by zero. -/
theorem clipAxisDivisors_ne_zero (a : Nat) (s e : Vec3 α) (bb : BoundingBox α)
    (hv : bb._min.get a ≤ bb._max.get a) : ∀ d ∈ clipAxisDivisors id a s e bb, d ≠ 0 := by
  intro d hd
  unfold clipAxisDivisors at hd
  simp only [clipPointWith_id, id] at hd
  by_cases hse : s.get a ≤ e.get a
  · rw [if_pos hse] at hd
    by_cases r1 : e.get a < bb._min.get a
    · rw [if_pos r1] at hd; simp at hd
    rw [if_neg r1] at hd
    by_cases r2 : s.get a > bb._max.get a
    · rw [if_pos r2] at hd; simp at hd
    rw [if_neg r2] at hd
    have hd2 : d ∈ (if s.get a < bb._min.get a then [e.get a - s.get a] else []) ++
        (if e.get a > bb._max.get a then
          [e.get a - (if s.get a < bb._min.get a then
            s.add (((e.sub s).scale (bb._min.get a - s.get a)).divide (e.get a - s.get a))
            else s).get a] else []) := by
      split_ifs at hd ⊢ <;> simp_all
    clear hd
    simp only [List.mem_append] at hd2
    rcases hd2 with hd | hd
    · by_cases h1 : s.get a < bb._min.get a
      · rw [if_pos h1] at hd
        simp only [List.mem_singleton] at hd
        rw [hd]
        exact ne_of_gt (by linarith [not_lt.mp r1])
      · rw [if_neg h1] at hd; simp at hd
    · by_cases h2 : e.get a > bb._max.get a
      · rw [if_pos h2] at hd
        simp only [List.mem_singleton] at hd
        rw [hd]
        by_cases h1 : s.get a < bb._min.get a
        · rw [if_pos h1]
          obtain ⟨-, p2⟩ := OnSegment.clip_point s e a (bb._min.get a)
            (Or.inl ⟨le_of_lt h1, not_lt.mp r1, by linarith [not_lt.mp r1]⟩)
          rw [p2]
          exact ne_of_gt (by linarith)
        · rw [if_neg h1]
          exact ne_of_gt (by linarith [not_lt.mp r2])
      · rw [if_neg h2] at hd; simp at hd
  · have hes : e.get a < s.get a := not_le.mp hse
    rw [if_neg hse] at hd
    by_cases r1 : s.get a < bb._min.get a
    · rw [if_pos r1] at hd; simp at hd
    rw [if_neg r1] at hd
    by_cases r2 : e.get a > bb._max.get a
    · rw [if_pos r2] at hd; simp at hd
    rw [if_neg r2] at hd
    have hd2 : d ∈ (if e.get a < bb._min.get a then [e.get a - s.get a] else []) ++
        (if s.get a > bb._max.get a then
          [(if e.get a < bb._min.get a then
            s.add (((e.sub s).scale (bb._min.get a - s.get a)).divide (e.get a - s.get a))
            else e).get a - s.get a] else []) := by
      split_ifs at hd ⊢ <;> simp_all
    clear hd
    simp only [List.mem_append] at hd2
    rcases hd2 with hd | hd
    · by_cases h1 : e.get a < bb._min.get a
      · rw [if_pos h1] at hd
        simp only [List.mem_singleton] at hd
        rw [hd]
        exact ne_of_lt (by linarith)
      · rw [if_neg h1] at hd; simp at hd
    · by_cases h2 : s.get a > bb._max.get a
      · rw [if_pos h2] at hd
        simp only [List.mem_singleton] at hd
        rw [hd]
        by_cases h1 : e.get a < bb._min.get a
        · rw [if_pos h1]
          obtain ⟨-, p2⟩ := OnSegment.clip_point s e a (bb._min.get a)
            (Or.inr ⟨le_of_lt h1, not_lt.mp r1, hes⟩)
          rw [p2]
          exact ne_of_lt (by linarith)
        · rw [if_neg h1]
          exact ne_of_lt (by linarith)
      · rw [if_neg h2] at hd; simp at hd

/-- In exact arithmetic, for a valid box, no division of a call of `intersectAndClip` is by
zero. -/
theorem intersectAndClipDivisors_ne_zero (s e : Vec3 α) (bb : BoundingBox α)
    (hv : bb.valid = true) : ∀ d ∈ intersectAndClipDivisors id s e bb, d ≠ 0 := by
  rw [BoundingBox.valid_iff] at hv
  have v0 : bb._min.get 0 ≤ bb._max.get 0 := by simpa [Vec3.get] using hv.1
  have v1 : bb._min.get 1 ≤ bb._max.get 1 := by simpa [Vec3.get] using hv.2.1
  have v2 : bb._min.get 2 ≤ bb._max.get 2 := by simpa [Vec3.get] using hv.2.2
  intro d hd
  unfold intersectAndClipDivisors at hd
  simp only [] at hd
  have k0 := clipAxisDivisors_ne_zero 0 s e bb v0
  have k1 := clipAxisDivisors_ne_zero 1 (clipAxisWith id 0 s e bb).2.1
    (clipAxisWith id 0 s e bb).2.2 bb v1
  have k2 := clipAxisDivisors_ne_zero 2
    (clipAxisWith id 1 (clipAxisWith id 0 s e bb).2.1 (clipAxisWith id 0 s e bb).2.2 bb).2.1
    (clipAxisWith id 1 (clipAxisWith id 0 s e bb).2.1 (clipAxisWith id 0 s e bb).2.2 bb).2.2
    bb v2
  split_ifs at hd
  all_goals
    try simp only [List.mem_append] at hd
    first
      | exact k0 d hd
      | (rcases hd with hd | hd
         · exact k0 d hd
         · exact k1 d hd)
      | (rcases hd with (hd | hd) | hd
         · exact k0 d hd
         · exact k1 d hd
         · exact k2 d hd)

/-- In single precision, the first division that the block for axis `a` performs on end
points that are single-precision values is not by zero. -/
theorem clipAxisDivisors_head_ne_zero (a : Nat) (s e : Vec3 ℚ) (bb : BoundingBox ℚ)
    (hs : round32 (s.get a) = s.get a) (he : round32 (e.get a) = e.get a) :
    ∀ d, (clipAxisDivisors round32 a s e bb).head? = some d → d ≠ 0 := by
  intro d hd
  unfold clipAxisDivisors at hd
  by_cases hse : s.get a ≤ e.get a
  · rw [if_pos hse] at hd
    by_cases r1 : e.get a < bb._min.get a
    · rw [if_pos r1] at hd; simp at hd
    rw [if_neg r1] at hd
    by_cases r2 : s.get a > bb._max.get a
    · rw [if_pos r2] at hd; simp at hd
    rw [if_neg r2] at hd
    simp only [] at hd
    by_cases h1 : s.get a < bb._min.get a
    · have hne : e.get a ≠ s.get a := ne_of_gt (by linarith [not_lt.mp r1])
      have hr := round32_sub_ne_zero _ _ he hs hne
      simp only [if_pos h1] at hd
      have hd' : d = round32 (e.get a - s.get a) := by
        split_ifs at hd <;> simp_all
      rw [hd']; exact hr
    · simp only [if_neg h1] at hd
      by_cases h2 : e.get a > bb._max.get a
      · have hne : e.get a ≠ s.get a := ne_of_gt (by linarith [not_lt.mp r2])
        have hr := round32_sub_ne_zero _ _ he hs hne
        simp only [if_pos h2] at hd
        have hd' : d = round32 (e.get a - s.get a) := by simp_all
        rw [hd']; exact hr
      · simp [if_neg h2] at hd
  · have hes : e.get a < s.get a := not_le.mp hse
    have hne : e.get a ≠ s.get a := ne_of_lt hes
    have hr := round32_sub_ne_zero _ _ he hs hne
    rw [if_neg hse] at hd
    by_cases r1 : s.get a < bb._min.get a
    · rw [if_pos r1] at hd; simp at hd
    rw [if_neg r1] at hd
    by_cases r2 : e.get a > bb._max.get a
    · rw [if_pos r2] at hd; simp at hd
    rw [if_neg r2] at hd
    simp only [] at hd
    by_cases h1 : e.get a < bb._min.get a
    · simp only [if_pos h1] at hd
      have hd' : d = round32 (e.get a - s.get a) := by
        split_ifs at hd <;> simp_all
      rw [hd']; exact hr
    · simp only [if_neg h1] at hd
      by_cases h2 : s.get a > bb._max.get a
      · simp only [if_pos h2] at hd
        have hd' : d = round32 (e.get a - s.get a) := by simp_all
        rw [hd']; exact hr
      · simp [if_neg h2] at hd

/-- C19 as stated fails. In exact arithmetic and in single precision alike: for the segment
`(0,0,0) -> (1,0,0)` and the box with the finite bounds `min = (1,0,0)`, `max = (0,0,0)`
(not valid on the x axis), the block for the x axis moves `s` onto `e` and then divides by
`e.x - s.x = 0`. In single precision also for a valid box: for the segment
`(-16777216,0,0) -> (4,1,0)` and the box `[3, 7/2] x [0,1] x [0,1]` (all of them
single-precision values) the first clip of the x block rounds `s.x` to `4 = e.x`, and the
second division is by `0`, where exact arithmetic divides by `1`. -/
theorem intersectAndClip_division_counterexample :
    intersectAndClipDivisors id (⟨0, 0, 0⟩ : Vec3 ℚ) ⟨1, 0, 0⟩ ⟨⟨1, 0, 0⟩, ⟨0, 0, 0⟩⟩ =
      [1, 0] ∧
    intersectAndClipDivisors round32 ⟨0, 0, 0⟩ ⟨1, 0, 0⟩ ⟨⟨1, 0, 0⟩, ⟨0, 0, 0⟩⟩ = [1, 0] ∧
    ([-16777216, 0, 4, 1, 3, 7 / 2] : List ℚ).map round32 = [-16777216, 0, 4, 1, 3, 7 / 2] ∧
    (⟨⟨3, 0, 0⟩, ⟨7 / 2, 1, 1⟩⟩ : BoundingBox ℚ).valid = true ∧
    intersectAndClipDivisors round32 ⟨-16777216, 0, 0⟩ ⟨4, 1, 0⟩ ⟨⟨3, 0, 0⟩, ⟨7 / 2, 1, 1⟩⟩ =
      [16777220, 0] ∧
    intersectAndClipDivisors id (⟨-16777216, 0, 0⟩ : Vec3 ℚ) ⟨4, 1, 0⟩
      ⟨⟨3, 0, 0⟩, ⟨7 / 2, 1, 1⟩⟩ = [16777220, 1] := by
  refine ⟨by decide!, by decide!, by decide!, by decide!, by decide!, by decide!⟩

/-- C19 (amended): in single precision, the first division that an axis block of
`intersectAndClip` performs on end points that are single-precision values has a non-zero
denominator (the operands of the subtraction differ); and in exact arithmetic, for every
segment and every valid box (`min ≤ max` on every axis), no division performed by
`intersectAndClip` has a zero denominator. -/
theorem intersectAndClip_division :
    (∀ (a : Nat) (s e : Vec3 ℚ) (bb : BoundingBox ℚ),
      round32 (s.get a) = s.get a → round32 (e.get a) = e.get a →
      ∀ d, (clipAxisDivisors round32 a s e bb).head? = some d → d ≠ 0) ∧
    (∀ (s e : Vec3 α) (bb : BoundingBox α), bb.valid = true →
      ∀ d ∈ intersectAndClipDivisors id s e bb, d ≠ 0) :=
  ⟨fun a s e bb hs he => clipAxisDivisors_head_ne_zero a s e bb hs he,
    fun s e bb hv => intersectAndClipDivisors_ne_zero s e bb hv⟩

/-- Witness of C19: the unit box and a segment that is clipped at both ends; two
divisions, by `3` and by `2`, in single precision and in exact arithmetic. -/
theorem intersectAndClip_division_witness :
    intersectAndClipDivisors round32 ⟨-1, 1 / 2, 1 / 2⟩ ⟨2, 1 / 2, 1 / 2⟩
        ⟨⟨0, 0, 0⟩, ⟨1, 1, 1⟩⟩ = [3, 2] ∧
      (∀ d, (clipAxisDivisors round32 0 ⟨-1, 1 / 2, 1 / 2⟩ ⟨2, 1 / 2, 1 / 2⟩
        ⟨⟨0, 0, 0⟩, ⟨1, 1, 1⟩⟩).head? = some d → d ≠ 0) ∧
      (⟨⟨0, 0, 0⟩, ⟨1, 1, 1⟩⟩ : BoundingBox ℚ).valid = true ∧
      intersectAndClipDivisors id (⟨-1, 1 / 2, 1 / 2⟩ : Vec3 ℚ) ⟨2, 1 / 2, 1 / 2⟩
        ⟨⟨0, 0, 0⟩, ⟨1, 1, 1⟩⟩ = [3, 2] ∧
      ∀ d ∈ intersectAndClipDivisors id (⟨-1, 1 / 2, 1 / 2⟩ : Vec3 ℚ) ⟨2, 1 / 2, 1 / 2⟩
        ⟨⟨0, 0, 0⟩, ⟨1, 1, 1⟩⟩, d ≠ 0 :=
  ⟨by decide!,
    (@intersectAndClip_division ℚ _).1 0 ⟨-1, 1 / 2, 1 / 2⟩ ⟨2, 1 / 2, 1 / 2⟩
      ⟨⟨0, 0, 0⟩, ⟨1, 1, 1⟩⟩ (by decide!) (by decide!),
    by decide!, by decide!,
    (@intersectAndClip_division ℚ _).2 ⟨-1, 1 / 2, 1 / 2⟩ ⟨2, 1 / 2, 1 / 2⟩
      ⟨⟨0, 0, 0⟩, ⟨1, 1, 1⟩⟩ (by decide!)⟩

end Clip

/-! ## The triangle test -/

section TriangleTest

variable {α : Type} [LinearOrderedField α]

/-- The three determinants of the edge tests are one and the same number. -/
theorem det_identities (v1 v2 v3 s d : Vec3 α) :
    (v1.sub v2).dot ((v3.sub v2).cross d) = (v3.sub v1).dot ((v2.sub v1).cross d) ∧
    (v2.sub v3).dot ((v1.sub v3).cross d) = (v3.sub v1).dot ((v2.sub v1).cross d) ∧
    (s.sub v1).dot ((v2.sub v1).cross d) + (s.sub v2).dot ((v3.sub v2).cross d) +
      (s.sub v3).dot ((v1.sub v3).cross d) = (v3.sub v1).dot ((v2.sub v1).cross d) := by
  simp only [Vec3.sub, Vec3.dot, Vec3.cross]
  refine ⟨by ring, by ring, by ring⟩

/-- The weighted vertex sum, scaled by the determinant, differs from the scaled origin by a
multiple of the direction (its cross product with the direction vanishes). -/
theorem cross_identity (v1 v2 v3 s d : Vec3 α) :
    ((((v1.scale ((s.sub v2).dot ((v3.sub v2).cross d))).add
        (v2.scale ((s.sub v3).dot ((v1.sub v3).cross d)))).add
        (v3.scale ((s.sub v1).dot ((v2.sub v1).cross d)))).sub
        (s.scale ((v3.sub v1).dot ((v2.sub v1).cross d)))).cross d = ⟨0, 0, 0⟩ := by
  rw [Vec3.ext_iff']
  simp only [Vec3.sub, Vec3.dot, Vec3.cross, Vec3.add, Vec3.scale]
  refine ⟨by ring, by ring, by ring⟩

theorem edgeReject_false (ds d : α) (h : ¬edgeReject ds d = true) :
    (0 ≤ d ∧ 0 ≤ ds ∧ ds ≤ d) ∨ (d < 0 ∧ d ≤ ds ∧ ds ≤ 0) := by
  unfold edgeReject at h
  by_cases hd : d ≥ 0
  · rw [if_pos hd] at h
    simp only [Bool.or_eq_true, decide_eq_true_eq, not_or, not_lt] at h
    exact Or.inl ⟨hd, h.1, h.2⟩
  · rw [if_neg hd] at h
    simp only [Bool.or_eq_true, decide_eq_true_eq, not_or, not_lt] at h
    exact Or.inr ⟨not_le.mp hd, h.2, h.1⟩

set_option maxHeartbeats 1000000 in
/-- What an accepted triangle test means in exact arithmetic: the triangle is not degenerate,
the common determinant `D` of the edge tests is not zero, the three weights are the
quotients `ds/D`, are non-negative and sum to one (nothing is renormalised), and the
distance along the direction is within `[0, _length]`. -/
theorem intersectTriangle_some (normalize : Vec3 α → Vec3 α) (vertices : List (Vec3 α))
    (rd : RayData α) (pi : Nat) (tri : Triangle) (r : LineSegmentIntersection α)
    (h : intersectTriangle normalize vertices rd pi tri = some r) :
    ∃ v1 v2 v3 : Vec3 α, ∃ ds12 ds23 ds31 D : α,
      v1 = vertexAt vertices tri._p1 ∧ v2 = vertexAt vertices tri._p2 ∧
      v3 = vertexAt vertices tri._p3 ∧
      ds12 = (rd._s.sub v1).dot ((v2.sub v1).cross rd._d) ∧
      ds23 = (rd._s.sub v2).dot ((v3.sub v2).cross rd._d) ∧
      ds31 = (rd._s.sub v3).dot ((v1.sub v3).cross rd._d) ∧
      D = (v3.sub v1).dot ((v2.sub v1).cross rd._d) ∧
      ¬(v1 = v2 ∨ v2 = v3 ∨ v1 = v3) ∧ D ≠ 0 ∧
      0 ≤ ds23 / D ∧ 0 ≤ ds31 / D ∧ 0 ≤ ds12 / D ∧ ds23 / D + ds31 / D + ds12 / D = 1 ∧
      0 ≤ ((weightedPoint v1 v2 v3 (ds23 / D) (ds31 / D) (ds12 / D)).sub rd._s).dot rd._d ∧
      ((weightedPoint v1 v2 v3 (ds23 / D) (ds31 / D) (ds12 / D)).sub rd._s).dot rd._d ≤
        rd._length ∧
      r = { ratio := ((weightedPoint v1 v2 v3 (ds23 / D) (ds31 / D) (ds12 / D)).sub
              rd._s).dot rd._d * rd._inverse_length
            primitiveIndex := pi
            intersectionPoint := weightedPoint v1 v2 v3 (ds23 / D) (ds31 / D) (ds12 / D)
            intersectionNormal := normalize ((v2.sub v1).cross (v3.sub v2))
            indexList := [tri._p1, tri._p2, tri._p3]
            ratioList := [ds23 / D, ds31 / D, ds12 / D] } := by
  obtain ⟨v1, hv1⟩ : ∃ v, v = vertexAt vertices tri._p1 := ⟨_, rfl⟩
  obtain ⟨v2, hv2⟩ : ∃ v, v = vertexAt vertices tri._p2 := ⟨_, rfl⟩
  obtain ⟨v3, hv3⟩ : ∃ v, v = vertexAt vertices tri._p3 := ⟨_, rfl⟩
  obtain ⟨ds12, hds12⟩ : ∃ x, x = (rd._s.sub v1).dot ((v2.sub v1).cross rd._d) := ⟨_, rfl⟩
  obtain ⟨d312, hd312⟩ : ∃ x, x = (v3.sub v1).dot ((v2.sub v1).cross rd._d) := ⟨_, rfl⟩
  obtain ⟨ds23, hds23⟩ : ∃ x, x = (rd._s.sub v2).dot ((v3.sub v2).cross rd._d) := ⟨_, rfl⟩
  obtain ⟨d123, hd123⟩ : ∃ x, x = (v1.sub v2).dot ((v3.sub v2).cross rd._d) := ⟨_, rfl⟩
  obtain ⟨ds31, hds31⟩ : ∃ x, x = (rd._s.sub v3).dot ((v1.sub v3).cross rd._d) := ⟨_, rfl⟩
  obtain ⟨d231, hd231⟩ : ∃ x, x = (v2.sub v3).dot ((v1.sub v3).cross rd._d) := ⟨_, rfl⟩
  unfold intersectTriangle at h
  simp only [] at h
  rw [← hv1, ← hv2, ← hv3, ← hds12, ← hd312, ← hds23, ← hd123, ← hds31, ← hd231] at h
  obtain ⟨i1, i2, i3⟩ := det_identities v1 v2 v3 rd._s rd._d
  rw [← hd123, ← hd312] at i1
  rw [← hd231, ← hd312] at i2
  rw [← hds12, ← hds23, ← hds31, ← hd312] at i3
  have i1s := i1.symm
  have i2s := i2.symm
  subst i1s i2s
  by_cases c1 : v1 = v2 ∨ v2 = v3 ∨ v1 = v3
  · rw [if_pos c1] at h; cases h
  rw [if_neg c1] at h
  by_cases c2 : edgeReject ds12 d312 = true
  · rw [if_pos c2] at h; cases h
  rw [if_neg c2] at h
  by_cases c3 : edgeReject ds23 d312 = true
  · rw [if_pos c3] at h; cases h
  rw [if_neg c3] at h
  by_cases c4 : edgeReject ds31 d312 = true
  · rw [if_pos c4] at h; cases h
  rw [if_neg c4] at h
  by_cases c5 : ds12 ≠ 0 ∧ d312 = 0
  · rw [if_pos c5] at h; cases h
  rw [if_neg c5] at h
  by_cases c6 : ds23 ≠ 0 ∧ d312 = 0
  · rw [if_pos c6] at h; cases h
  rw [if_neg c6] at h
  by_cases c7 : ds31 ≠ 0 ∧ d312 = 0
  · rw [if_pos c7] at h; cases h
  rw [if_neg c7] at h
  have e2 := edgeReject_false _ _ c2
  have e3 := edgeReject_false _ _ c3
  have e4 := edgeReject_false _ _ c4
  by_cases hD : d312 = 0
  · -- parallel: all three `ds` vanish and the weights sum to zero
    have z12 : ds12 = 0 := by
      rcases e2 with ⟨_, a, b⟩ | ⟨a, _, _⟩
      · exact le_antisymm (hD ▸ b) a
      · rw [hD] at a; exact absurd a (lt_irrefl _)
    have z23 : ds23 = 0 := by
      rcases e3 with ⟨_, a, b⟩ | ⟨a, _, _⟩
      · exact le_antisymm (hD ▸ b) a
      · rw [hD] at a; exact absurd a (lt_irrefl _)
    have z31 : ds31 = 0 := by
      rcases e4 with ⟨_, a, b⟩ | ⟨a, _, _⟩
      · exact le_antisymm (hD ▸ b) a
      · rw [hD] at a; exact absurd a (lt_irrefl _)
    rw [if_pos (by simp [z12, z23, z31])] at h
    cases h
  have k : ∀ x : α, (if x = 0 then 0 else x / d312) = x / d312 := by
    intro x
    split_ifs with hx
    · rw [hx, zero_div]
    · rfl
  simp only [k] at h
  have tot : ds23 / d312 + ds31 / d312 + ds12 / d312 = 1 := by
    rw [← add_div, ← add_div, div_eq_one_iff_eq hD]
    linarith
  rw [tot] at h
  simp only [ne_eq, not_true_eq_false, false_and, if_false] at h
  have n12 : 0 ≤ ds12 / d312 := by
    rcases e2 with ⟨a, b, _⟩ | ⟨a, _, b⟩
    · exact div_nonneg b a
    · exact div_nonneg_of_nonpos b (le_of_lt a)
  have n23 : 0 ≤ ds23 / d312 := by
    rcases e3 with ⟨a, b, _⟩ | ⟨a, _, b⟩
    · exact div_nonneg b a
    · exact div_nonneg_of_nonpos b (le_of_lt a)
  have n31 : 0 ≤ ds31 / d312 := by
    rcases e4 with ⟨a, b, _⟩ | ⟨a, _, b⟩
    · exact div_nonneg b a
    · exact div_nonneg_of_nonpos b (le_of_lt a)
  by_cases c9 : ((weightedPoint v1 v2 v3 (ds23 / d312) (ds31 / d312) (ds12 / d312)).sub
      rd._s).dot rd._d < 0
  · unfold weightedPoint at c9; rw [if_pos c9] at h; cases h
  have c9u := c9
  unfold weightedPoint at c9u
  rw [if_neg c9u] at h
  by_cases c10 : ((weightedPoint v1 v2 v3 (ds23 / d312) (ds31 / d312) (ds12 / d312)).sub
      rd._s).dot rd._d > rd._length
  · unfold weightedPoint at c10; rw [if_pos c10] at h; cases h
  have c10u := c10
  unfold weightedPoint at c10u
  rw [if_neg c10u] at h
  refine ⟨v1, v2, v3, ds12, ds23, ds31, d312, hv1, hv2, hv3, hds12, hds23, hds31, hd312, c1, hD,
    n23, n31, n12, tot, not_lt.mp c9, not_lt.mp c10, ?_⟩
  exact (Option.some.inj h).symm

/-- A point with non-negative weights summing to one lies in every box that holds the three
vertices. -/
theorem weightedPoint_contains (bb : BoundingBox α) (v1 v2 v3 : Vec3 α) (r1 r2 r3 : α)
    (h1 : bb.Contains v1) (h2 : bb.Contains v2) (h3 : bb.Contains v3)
    (n1 : 0 ≤ r1) (n2 : 0 ≤ r2) (n3 : 0 ≤ r3) (hs : r1 + r2 + r3 = 1) :
    bb.Contains (weightedPoint v1 v2 v3 r1 r2 r3) := by
  obtain ⟨⟨a1, a2⟩, ⟨a3, a4⟩, ⟨a5, a6⟩⟩ := h1
  obtain ⟨⟨b1, b2⟩, ⟨b3, b4⟩, ⟨b5, b6⟩⟩ := h2
  obtain ⟨⟨c1, c2⟩, ⟨c3, c4⟩, ⟨c5, c6⟩⟩ := h3
  have key : ∀ m x1 x2 x3 : α, m ≤ x1 → m ≤ x2 → m ≤ x3 → m ≤ x1 * r1 + x2 * r2 + x3 * r3 := by
    intro m x1 x2 x3 g1 g2 g3
    have p1 := mul_nonneg n1 (sub_nonneg.mpr g1)
    have p2 := mul_nonneg n2 (sub_nonneg.mpr g2)
    have p3 := mul_nonneg n3 (sub_nonneg.mpr g3)
    have hm : m * (r1 + r2 + r3) = m := by rw [hs, mul_one]
    linarith
  have key2 : ∀ m x1 x2 x3 : α, x1 ≤ m → x2 ≤ m → x3 ≤ m → x1 * r1 + x2 * r2 + x3 * r3 ≤ m := by
    intro m x1 x2 x3 g1 g2 g3
    have p1 := mul_nonneg n1 (sub_nonneg.mpr g1)
    have p2 := mul_nonneg n2 (sub_nonneg.mpr g2)
    have p3 := mul_nonneg n3 (sub_nonneg.mpr g3)
    have hm : m * (r1 + r2 + r3) = m := by rw [hs, mul_one]
    linarith
  simp only [BoundingBox.Contains, weightedPoint, Vec3.add, Vec3.scale]
  exact ⟨⟨key _ _ _ _ a1 b1 c1, key2 _ _ _ _ a2 b2 c2⟩, ⟨key _ _ _ _ a3 b3 c3,
    key2 _ _ _ _ a4 b4 c4⟩, ⟨key _ _ _ _ a5 b5 c5, key2 _ _ _ _ a6 b6 c6⟩⟩

/-- A vector whose cross product with a unit vector vanishes is its own projection. -/
theorem eq_dot_scale_of_cross_eq_zero (u d : Vec3 α) (hc : u.cross d = ⟨0, 0, 0⟩)
    (hd : d.dot d = 1) : u = d.scale (u.dot d) := by
  rw [Vec3.ext_iff'] at hc ⊢
  simp only [Vec3.cross, Vec3.dot, Vec3.scale] at hc hd ⊢
  obtain ⟨c1, c2, c3⟩ := hc
  refine ⟨?_, ?_, ?_⟩
  · linear_combination (-u.x) * hd + d.y * c3 - d.z * c2
  · linear_combination (-u.y) * hd + d.z * c1 - d.x * c3
  · linear_combination (-u.z) * hd + d.x * c2 - d.y * c1

theorem RayData.Normalised.dot_self {rd : RayData α} {start end_ : Vec3 α}
    (h : rd.Normalised start end_) : rd._d.dot rd._d = 1 := by
  obtain ⟨_, hpos, hsq, hinv, hd⟩ := h
  rw [hd, hinv]
  have hne : rd._length ≠ 0 := ne_of_gt hpos
  simp only [Vec3.dot, Vec3.scale, Vec3.sub] at hsq ⊢
  field_simp
  linear_combination (-1 : α) * hsq

/-- The point of an accepted test lies on the segment, at the parameter that the record
reports as its ratio, and that ratio is within `[0, 1]`. -/
theorem hit_on_segment (v1 v2 v3 : Vec3 α) (rd : RayData α) (start end_ : Vec3 α)
    (hrd : rd.Normalised start end_) (ds12 ds23 ds31 D : α)
    (h12 : ds12 = (rd._s.sub v1).dot ((v2.sub v1).cross rd._d))
    (h23 : ds23 = (rd._s.sub v2).dot ((v3.sub v2).cross rd._d))
    (h31 : ds31 = (rd._s.sub v3).dot ((v1.sub v3).cross rd._d))
    (hD : D = (v3.sub v1).dot ((v2.sub v1).cross rd._d)) (hD0 : D ≠ 0)
    (hlo : 0 ≤ ((weightedPoint v1 v2 v3 (ds23 / D) (ds31 / D) (ds12 / D)).sub rd._s).dot rd._d)
    (hhi : ((weightedPoint v1 v2 v3 (ds23 / D) (ds31 / D) (ds12 / D)).sub rd._s).dot rd._d ≤
      rd._length) :
    weightedPoint v1 v2 v3 (ds23 / D) (ds31 / D) (ds12 / D) =
        start.add ((end_.sub start).scale
          (((weightedPoint v1 v2 v3 (ds23 / D) (ds31 / D) (ds12 / D)).sub rd._s).dot rd._d *
            rd._inverse_length)) ∧
      0 ≤ ((weightedPoint v1 v2 v3 (ds23 / D) (ds31 / D) (ds12 / D)).sub rd._s).dot rd._d *
        rd._inverse_length ∧
      ((weightedPoint v1 v2 v3 (ds23 / D) (ds31 / D) (ds12 / D)).sub rd._s).dot rd._d *
        rd._inverse_length ≤ 1 := by
  have hunit := hrd.dot_self
  obtain ⟨hs, hpos, hsq, hinv, hd⟩ := hrd
  have hcross : ((weightedPoint v1 v2 v3 (ds23 / D) (ds31 / D) (ds12 / D)).sub rd._s).cross
      rd._d = ⟨0, 0, 0⟩ := by
    have ci := cross_identity v1 v2 v3 rd._s rd._d
    rw [← h12, ← h23, ← h31, ← hD] at ci
    rw [Vec3.ext_iff'] at ci ⊢
    simp only [Vec3.cross, Vec3.sub, Vec3.add, Vec3.scale, weightedPoint] at ci ⊢
    obtain ⟨c1, c2, c3⟩ := ci
    refine ⟨?_, ?_, ?_⟩
    · field_simp
      linear_combination c1
    · field_simp
      linear_combination c2
    · field_simp
      linear_combination c3
  have hproj := eq_dot_scale_of_cross_eq_zero _ _ hcross hunit
  generalize weightedPoint v1 v2 v3 (ds23 / D) (ds31 / D) (ds12 / D) = P at *
  generalize (P.sub rd._s).dot rd._d = dd at *
  have hinvpos : 0 < rd._inverse_length := by rw [hinv]; exact one_div_pos.mpr hpos
  refine ⟨?_, mul_nonneg hlo (le_of_lt hinvpos), ?_⟩
  · rw [Vec3.ext_iff'] at hproj ⊢
    rw [hd, hs] at hproj
    simp only [Vec3.sub, Vec3.add, Vec3.scale] at hproj ⊢
    obtain ⟨p1, p2, p3⟩ := hproj
    refine ⟨?_, ?_, ?_⟩
    · linear_combination p1
    · linear_combination p2
    · linear_combination p3
  · rw [hinv, mul_one_div, div_le_one hpos]
    exact hhi

end TriangleTest

/-! ## The query on the built tree -/

section QueryProofs

variable {α : Type} [LinearOrderedField α]

theorem intersectLeafLoop_eq (normalize : Vec3 α → Vec3 α) (vertices : List (Vec3 α))
    (triangles : List Triangle) (prims : List Nat) (rd : RayData α) (n : Nat) :
    ∀ (i : Nat) (sink : List (LineSegmentIntersection α)),
      intersectLeafLoop normalize vertices triangles prims rd n (i : Int) sink =
        sink ++ (List.range' i n).filterMap (hitAt normalize vertices triangles prims rd) := by
  induction n with
  | zero => intro i sink; simp [intersectLeafLoop]
  | succ n ih =>
    intro i sink
    simp only [intersectLeafLoop, Int.toNat_ofNat, List.range'_succ]
    have e : ((i : Int) + 1) = ((i + 1 : Nat) : Int) := by push_cast; rfl
    cases hh : intersectTriangle normalize vertices rd (prims.getD i 0)
        (triangles.getD (prims.getD i 0) ⟨0, 0, 0⟩) with
    | none =>
      simp only []
      rw [e, ih, List.filterMap_cons_none (by unfold hitAt; exact hh)]
    | some r =>
      simp only []
      rw [e, ih, List.filterMap_cons_some (by unfold hitAt; exact hh)]
      simp

/-- The point of an accepted test at a position of a slice lies in every box that contains
the vertices of the triangle at that position. -/
theorem hitAt_contains (normalize : Vec3 α → Vec3 α) (vertices : List (Vec3 α))
    (triangles : List Triangle) (prims : List Nat) (rd : RayData α) (j : Nat)
    (r : LineSegmentIntersection α)
    (h : hitAt normalize vertices triangles prims rd j = some r) (bb : BoundingBox α)
    (hb : ∀ v ∈ triangleVertices vertices triangles prims (j : Int), bb.Contains v) :
    bb.Contains r.intersectionPoint := by
  unfold hitAt at h
  obtain ⟨v1, v2, v3, ds12, ds23, ds31, D, e1, e2, e3, -, -, -, -, -, -, n1, n2, n3, hs, -, -,
    hr⟩ := intersectTriangle_some _ _ _ _ _ _ h
  rw [hr]
  simp only []
  have m : ∀ v, v = v1 ∨ v = v2 ∨ v = v3 →
      v ∈ triangleVertices vertices triangles prims (j : Int) := by
    intro v hv
    simp only [triangleVertices, Int.toNat_ofNat, List.mem_cons, List.mem_singleton,
      List.not_mem_nil, or_false]
    rw [← e1, ← e2, ← e3]; exact hv
  exact weightedPoint_contains bb v1 v2 v3 _ _ _ (hb v1 (m v1 (Or.inl rfl)))
    (hb v2 (m v2 (Or.inr (Or.inl rfl)))) (hb v3 (m v3 (Or.inr (Or.inr rfl)))) n1 n2 n3 hs

/-- A hit at a position of the slice of a subtree, with its point on the segment, makes the
clipper accept the segment against the box of the root of the subtree, and the point stays
on the clipped segment. -/
theorem Covers.clip_accepts {target L : Nat} {vertices : List (Vec3 α)}
    {triangles : List Triangle} {nodes : List (KdNode α)} {P : List Nat}
    {h lo hi a b lvl : Nat}
    (c : Covers target L vertices triangles nodes P h lo hi a b lvl) (n : KdNode α)
    (hn : nodes[h]? = some n) (normalize : Vec3 α → Vec3 α) (rd : RayData α) (ls le : Vec3 α)
    (j : Nat) (hj1 : lo ≤ j) (hj2 : j < hi) (r : LineSegmentIntersection α)
    (hr : hitAt normalize vertices triangles P rd j = some r)
    (hon : OnSegment r.intersectionPoint ls le) :
    (intersectAndClip ls le n.bb).1 = true ∧
      OnSegment r.intersectionPoint (intersectAndClip ls le n.bb).2.1
        (intersectAndClip ls le n.bb).2.2 := by
  have hb := (c.box (by omega) n hn).2.2 j hj1 hj2
  exact intersectAndClip_complete ls le _ n.bb hon
    (hitAt_contains normalize vertices triangles P rd j r hr n.bb hb)

theorem decide_length_append_nil {β : Type} (sink : List β) :
    decide (sink.length ≠ (sink ++ ([] : List β)).length) = false := by
  simp

/-- The recursive query on a subtree of the built pool returns, inserts only hits of
positions of the slice of the subtree (in order, each at most once), and inserts every hit
whose point is on the segment it is given. -/
theorem intersectNode_spec (normalize : Vec3 α → Vec3 α) (t : KdTree α) (target L : Nat)
    (vertices : List (Vec3 α)) (hv : t._vertices = some vertices) {h lo hi a b lvl : Nat}
    (c : Covers target L vertices t._triangles t._kdNodes t._primitiveIndices h lo hi a b lvl) :
    ∀ (fuel : Nat), b - a + 1 ≤ fuel → ∀ (n : KdNode α), t._kdNodes[h]? = some n →
    ∀ (rd : RayData α) (ls le : Vec3 α) (sink : List (LineSegmentIntersection α)),
      ∃ new, t.intersectNode normalize fuel n rd ls le sink =
          some (decide (sink.length ≠ (sink ++ new).length), sink ++ new) ∧
        new.Sublist ((List.range' lo (hi - lo)).filterMap
          (hitAt normalize vertices t._triangles t._primitiveIndices rd)) ∧
        (∀ j, lo ≤ j → j < hi → ∀ r,
          hitAt normalize vertices t._triangles t._primitiveIndices rd j = some r →
          OnSegment r.intersectionPoint ls le → r ∈ new) := by
  induction c with
  | leaf h lo hi a lvl n0 h1 h2 h3 h4 h5 h6 h7 =>
    intro fuel hf n hn rd ls le sink
    rw [h1] at hn; cases hn
    have cc := Covers.leaf h lo hi a lvl n0 h1 h2 h3 h4 h5 h6 h7
    obtain ⟨f, rfl⟩ : ∃ f, fuel = f + 1 := ⟨fuel - 1, by omega⟩
    simp only [KdTree.intersectNode]
    by_cases hc : (intersectAndClip ls le n0.bb).1 = false
    · rw [if_pos hc]
      refine ⟨[], by simp, List.nil_sublist _, ?_⟩
      intro j j1 j2 r hr hon
      have := (cc.clip_accepts n0 h1 normalize rd ls le j j1 j2 r hr hon).1
      rw [hc] at this; cases this
    · rw [if_neg hc, if_pos (by omega)]
      have e1 : -n0.first - 1 = (lo : Int) := by omega
      have e2 : (-n0.first - 1 + n0.second - (-n0.first - 1)).toNat = hi - lo := by omega
      rw [e2, e1, hv]
      simp only [Option.getD_some, intersectLeafLoop_eq]
      refine ⟨_, rfl, List.Sublist.refl _, ?_⟩
      intro j j1 j2 r hr _
      rw [List.mem_filterMap]
      exact ⟨j, by rw [List.mem_range']; exact ⟨j - lo, by omega, by omega⟩, hr⟩
  | both h lo m hi a c b lvl n0 h1 h2 h3 h4 h5 h6 h7 h8 c1 c2 h9 ih1 ih2 =>
    intro fuel hf n hn rd ls le sink
    rw [h1] at hn; cases hn
    have cc := Covers.both h lo m hi a c b lvl n0 h1 h2 h3 h4 h5 h6 h7 h8 c1 c2 h9
    have r1 := c1.range_le
    have r2 := c2.range_le
    obtain ⟨f, rfl⟩ : ∃ f, fuel = f + 1 := ⟨fuel - 1, by omega⟩
    obtain ⟨na, hna⟩ : ∃ na, t._kdNodes[a]? = some na := by
      cases c1 <;> exact ⟨_, by assumption⟩
    obtain ⟨nb, hnb⟩ : ∃ nb, t._kdNodes[a + 1]? = some nb := by
      cases c2 <;> exact ⟨_, by assumption⟩
    have ga : getNode t._kdNodes n0.first = na := by
      rw [h2]; exact getNode_natCast _ _ _ hna
    have gb : getNode t._kdNodes n0.second = nb := by
      rw [h3]
      have := getNode_natCast _ _ _ hnb
      push_cast at this; exact this
    simp only [KdTree.intersectNode]
    by_cases hc : (intersectAndClip ls le n0.bb).1 = false
    · rw [if_pos hc]
      refine ⟨[], by simp, List.nil_sublist _, ?_⟩
      intro j j1 j2 r hr hon
      have := (cc.clip_accepts n0 h1 normalize rd ls le j j1 j2 r hr hon).1
      rw [hc] at this; cases this
    · have p1 : n0.first > 0 := by omega
      have p2 : n0.second > 0 := by omega
      rw [if_neg hc, if_neg (by omega), if_pos p1, ga]
      obtain ⟨newL, eL, sL, cL⟩ := ih1 f (by omega) na hna rd (intersectAndClip ls le n0.bb).2.1
        (intersectAndClip ls le n0.bb).2.2 sink
      rw [eL]
      simp only [Option.map_some']
      rw [if_pos p2, gb]
      obtain ⟨newR, eR, sR, cR⟩ := ih2 f (by omega) nb hnb rd (intersectAndClip ls le n0.bb).2.1
        (intersectAndClip ls le n0.bb).2.2 (sink ++ newL)
      rw [eR]
      simp only [Option.map_some']
      refine ⟨newL ++ newR, by rw [List.append_assoc], ?_, ?_⟩
      · have e : List.range' lo (hi - lo) = List.range' lo (m - lo) ++ List.range' m (hi - m) := by
          have := List.range'_append_1 lo (m - lo) (hi - m)
          rw [show lo + (m - lo) = m by omega, show (hi - m) + (m - lo) = hi - lo by omega] at this
          exact this.symm
        rw [e, List.filterMap_append]
        exact List.Sublist.append sL sR
      · intro j j1 j2 r hr hon
        have hon2 := (cc.clip_accepts n0 h1 normalize rd ls le j j1 j2 r hr hon).2
        rw [List.mem_append]
        by_cases hjm : j < m
        · exact Or.inl (cL j j1 hjm r hr hon2)
        · exact Or.inr (cR j (by omega) j2 r hr hon2)
  | onlyLeft h lo hi a b lvl n0 h1 h2 h3 h4 h5 h6 h7 c1 h9 ih1 =>
    intro fuel hf n hn rd ls le sink
    rw [h1] at hn; cases hn
    have cc := Covers.onlyLeft h lo hi a b lvl n0 h1 h2 h3 h4 h5 h6 h7 c1 h9
    have r1 := c1.range_le
    obtain ⟨f, rfl⟩ : ∃ f, fuel = f + 1 := ⟨fuel - 1, by omega⟩
    obtain ⟨na, hna⟩ : ∃ na, t._kdNodes[a]? = some na := by
      cases c1 <;> exact ⟨_, by assumption⟩
    have ga : getNode t._kdNodes n0.first = na := by
      rw [h2]; exact getNode_natCast _ _ _ hna
    simp only [KdTree.intersectNode]
    by_cases hc : (intersectAndClip ls le n0.bb).1 = false
    · rw [if_pos hc]
      refine ⟨[], by simp, List.nil_sublist _, ?_⟩
      intro j j1 j2 r hr hon
      have := (cc.clip_accepts n0 h1 normalize rd ls le j j1 j2 r hr hon).1
      rw [hc] at this; cases this
    · have p1 : n0.first > 0 := by omega
      have p2 : ¬n0.second > 0 := by omega
      rw [if_neg hc, if_neg (by omega), if_pos p1, ga]
      obtain ⟨newL, eL, sL, cL⟩ := ih1 f (by omega) na hna rd (intersectAndClip ls le n0.bb).2.1
        (intersectAndClip ls le n0.bb).2.2 sink
      rw [eL]
      simp only [Option.map_some']
      rw [if_neg p2]
      refine ⟨newL, rfl, sL, ?_⟩
      intro j j1 j2 r hr hon
      exact cL j j1 j2 r hr (cc.clip_accepts n0 h1 normalize rd ls le j j1 j2 r hr hon).2
  | onlyRight h lo hi a b lvl n0 h1 h2 h3 h4 h5 h6 h7 c1 h9 ih1 =>
    intro fuel hf n hn rd ls le sink
    rw [h1] at hn; cases hn
    have cc := Covers.onlyRight h lo hi a b lvl n0 h1 h2 h3 h4 h5 h6 h7 c1 h9
    have r1 := c1.range_le
    obtain ⟨f, rfl⟩ : ∃ f, fuel = f + 1 := ⟨fuel - 1, by omega⟩
    obtain ⟨na, hna⟩ : ∃ na, t._kdNodes[a]? = some na := by
      cases c1 <;> exact ⟨_, by assumption⟩
    have ga : getNode t._kdNodes n0.second = na := by
      rw [h3]; exact getNode_natCast _ _ _ hna
    simp only [KdTree.intersectNode]
    by_cases hc : (intersectAndClip ls le n0.bb).1 = false
    · rw [if_pos hc]
      refine ⟨[], by simp, List.nil_sublist _, ?_⟩
      intro j j1 j2 r hr hon
      have := (cc.clip_accepts n0 h1 normalize rd ls le j j1 j2 r hr hon).1
      rw [hc] at this; cases this
    · have p1 : ¬n0.first > 0 := by omega
      have p2 : n0.second > 0 := by omega
      rw [if_neg hc, if_neg (by omega), if_neg p1]
      simp only []
      rw [if_pos p2, ga]
      obtain ⟨newL, eL, sL, cL⟩ := ih1 f (by omega) na hna rd (intersectAndClip ls le n0.bb).2.1
        (intersectAndClip ls le n0.bb).2.2 sink
      rw [eL]
      simp only [Option.map_some']
      refine ⟨newL, rfl, sL, ?_⟩
      intro j j1 j2 r hr hon
      exact cL j j1 j2 r hr (cc.clip_accepts n0 h1 normalize rd ls le j j1 j2 r hr hon).2

/-- The handle of a covered subtree names a node of the pool. -/
theorem Covers.node {target L : Nat} {vertices : List (Vec3 α)} {triangles : List Triangle}
    {nodes : List (KdNode α)} {P : List Nat} {h lo hi a b lvl : Nat}
    (c : Covers target L vertices triangles nodes P h lo hi a b lvl) :
    ∃ n, nodes[h]? = some n := by
  cases c <;> exact ⟨_, by assumption⟩

/-- A covered subtree over an empty slice is a leaf with count zero. -/
theorem Covers.empty_leaf {target L : Nat} {vertices : List (Vec3 α)}
    {triangles : List Triangle} {nodes : List (KdNode α)} {P : List Nat}
    {h lo hi a b lvl : Nat}
    (c : Covers target L vertices triangles nodes P h lo hi a b lvl) (hle : hi ≤ lo)
    (n : KdNode α) (hn : nodes[h]? = some n) : n.first < 0 ∧ n.second = 0 := by
  cases c with
  | leaf _ _ _ _ _ n2 g1 g2 g3 g4 g5 g6 g7 =>
    rw [hn] at g1; cases g1
    constructor <;> omega
  | both _ _ _ _ _ _ _ _ n2 g1 g2 g3 g4 g5 g6 => omega
  | onlyLeft _ _ _ _ _ _ n2 g1 g2 g3 g4 g5 => omega
  | onlyRight _ _ _ _ _ _ n2 g1 g2 g3 g4 g5 => omega

/-- The facts about the tree of a successful build that the query proofs use. -/
theorem built_query_facts (options : BuildOptions) (geometry : Geometry α)
    (h : buildReturns options geometry = true) :
    ∃ vertices n0,
      (builtTree options geometry)._vertices = some vertices ∧
      (builtTree options geometry)._kdNodes[0]? = some n0 ∧
      getNode (builtTree options geometry)._kdNodes 0 = n0 ∧
      (builtTree options geometry)._primitiveIndices.Perm
        (List.range (builtTree options geometry)._triangles.length) ∧
      Covers options._targetNumTrianglesPerLeaf options._maxNumLevels vertices
        (builtTree options geometry)._triangles (builtTree options geometry)._kdNodes
        (builtTree options geometry)._primitiveIndices 0 0
        (builtTree options geometry)._triangles.length 1
        (builtTree options geometry)._kdNodes.length 0 := by
  obtain ⟨vertices, hva, ht, -, post⟩ := built_post options geometry h
  rw [ht]
  have hT : (KdTree.buildDivide options geometry vertices KdTree.empty).1._triangles.length
      = geometry.triangleStream.length := by rw [post.triangles_eq]; simp
  rw [hT]
  obtain ⟨n0, hn0⟩ : ∃ n0, (KdTree.buildDivide options geometry vertices
      KdTree.empty).1._kdNodes[0]? = some n0 :=
    post.covers.node
  exact ⟨vertices, n0, post.vertices_eq, hn0, getNode_natCast _ 0 n0 hn0, post.perm, post.covers⟩

/-- The triangle test uses `normalize` for the normal of the record only. -/
theorem intersectTriangle_normalize (normalize : Vec3 α → Vec3 α) (vertices : List (Vec3 α))
    (rayData : RayData α) (primitiveIndex : Nat) (tri : Triangle) :
    intersectTriangle normalize vertices rayData primitiveIndex tri =
      (intersectTriangle id vertices rayData primitiveIndex tri).map
        (LineSegmentIntersection.withNormal normalize) := by
  unfold intersectTriangle
  simp only [apply_ite (Option.map (LineSegmentIntersection.withNormal normalize)),
    Option.map_none', Option.map_some', LineSegmentIntersection.withNormal, id]

theorem intersectLeafLoop_normalize (normalize : Vec3 α → Vec3 α) (vertices : List (Vec3 α))
    (triangles : List Triangle) (prims : List Nat) (rd : RayData α) (n : Nat) :
    ∀ (i : Int) (sink : List (LineSegmentIntersection α)),
      intersectLeafLoop normalize vertices triangles prims rd n i
          (sink.map (LineSegmentIntersection.withNormal normalize)) =
        (intersectLeafLoop id vertices triangles prims rd n i sink).map
          (LineSegmentIntersection.withNormal normalize) := by
  induction n with
  | zero => intro i sink; rfl
  | succ n ih =>
    intro i sink
    simp only [intersectLeafLoop]
    rw [intersectTriangle_normalize]
    cases intersectTriangle id vertices rd (prims.getD i.toNat 0)
        (triangles.getD (prims.getD i.toNat 0) ⟨0, 0, 0⟩) with
    | none => exact ih _ _
    | some r =>
      simp only [Option.map_some']
      rw [← ih]
      simp

/-- The query uses `normalize` for the normals of the records only: the run with
`normalize` is the run with the identity, with `normalize` applied to the normals. -/
theorem intersectNode_normalize (normalize : Vec3 α → Vec3 α) (t : KdTree α) :
    ∀ (fuel : Nat) (node : KdNode α) (rd : RayData α) (ls le : Vec3 α)
      (sink : List (LineSegmentIntersection α)),
      t.intersectNode normalize fuel node rd ls le
          (sink.map (LineSegmentIntersection.withNormal normalize)) =
        (t.intersectNode id fuel node rd ls le sink).map
          (fun p => (p.1, p.2.map (LineSegmentIntersection.withNormal normalize))) := by
  intro fuel
  induction fuel with
  | zero => intro node rd ls le sink; rfl
  | succ fuel ih =>
    intro node rd ls le sink
    simp only [KdTree.intersectNode]
    by_cases hc : (intersectAndClip ls le node.bb).1 = false
    · rw [if_pos hc, if_pos hc]; rfl
    rw [if_neg hc, if_neg hc]
    by_cases hl : node.first < 0
    · rw [if_pos hl, if_pos hl, intersectLeafLoop_normalize]
      simp
    rw [if_neg hl, if_neg hl]
    have first : (if node.first > 0 then
          (t.intersectNode normalize fuel (getNode t._kdNodes node.first) rd
            (intersectAndClip ls le node.bb).2.1 (intersectAndClip ls le node.bb).2.2
            (sink.map (LineSegmentIntersection.withNormal normalize))).map Prod.snd
        else some (sink.map (LineSegmentIntersection.withNormal normalize))) =
        (if node.first > 0 then
          (t.intersectNode id fuel (getNode t._kdNodes node.first) rd
            (intersectAndClip ls le node.bb).2.1 (intersectAndClip ls le node.bb).2.2
            sink).map Prod.snd
        else some sink).map (List.map (LineSegmentIntersection.withNormal normalize)) := by
      by_cases h1 : node.first > 0
      · rw [if_pos h1, if_pos h1, ih]
        simp [Function.comp_def]
      · rw [if_neg h1, if_neg h1]; rfl
    rw [first]
    cases (if node.first > 0 then
          (t.intersectNode id fuel (getNode t._kdNodes node.first) rd
            (intersectAndClip ls le node.bb).2.1 (intersectAndClip ls le node.bb).2.2
            sink).map Prod.snd
        else some sink) with
    | none => rfl
    | some out1 =>
      simp only [Option.map_some']
      have second : (if node.second > 0 then
            (t.intersectNode normalize fuel (getNode t._kdNodes node.second) rd
              (intersectAndClip ls le node.bb).2.1 (intersectAndClip ls le node.bb).2.2
              (out1.map (LineSegmentIntersection.withNormal normalize))).map Prod.snd
          else some (out1.map (LineSegmentIntersection.withNormal normalize))) =
          (if node.second > 0 then
            (t.intersectNode id fuel (getNode t._kdNodes node.second) rd
              (intersectAndClip ls le node.bb).2.1 (intersectAndClip ls le node.bb).2.2
              out1).map Prod.snd
          else some out1).map (List.map (LineSegmentIntersection.withNormal normalize)) := by
        by_cases h2 : node.second > 0
        · rw [if_pos h2, if_pos h2, ih]
          simp [Function.comp_def]
        · rw [if_neg h2, if_neg h2]; rfl
      rw [second]
      cases (if node.second > 0 then
            (t.intersectNode id fuel (getNode t._kdNodes node.second) rd
              (intersectAndClip ls le node.bb).2.1 (intersectAndClip ls le node.bb).2.2
              out1).map Prod.snd
          else some out1) with
      | none => rfl
      | some out2 => simp

theorem intersect_normalize (normalize : Vec3 α → Vec3 α) (t : KdTree α) (rd : RayData α)
    (start end_ : Vec3 α) :
    t.intersect normalize rd start end_ [] =
      (t.intersect id rd start end_ []).map
        (fun p => (p.1, p.2.map (LineSegmentIntersection.withNormal normalize))) := by
  unfold KdTree.intersect
  exact intersectNode_normalize normalize t _ _ rd start end_ []

/-- The query on the tree of a successful build returns, and the records it inserts form a
sublist of the accepted triangle tests over the positions `0 .. |T|-1` of the primitive
indices. -/
theorem intersect_built_spec (normalize : Vec3 α → Vec3 α) (options : BuildOptions)
    (geometry : Geometry α) (h : buildReturns options geometry = true) (start end_ : Vec3 α)
    (rd : RayData α) (sink : List (LineSegmentIntersection α)) :
    ∃ vertices new,
      (builtTree options geometry)._vertices = some vertices ∧
      (builtTree options geometry)._primitiveIndices.Perm
        (List.range (builtTree options geometry)._triangles.length) ∧
      KdTree.intersect normalize (builtTree options geometry) rd start end_ sink =
        some (decide (sink.length ≠ (sink ++ new).length), sink ++ new) ∧
      new.Sublist ((List.range' 0 (builtTree options geometry)._triangles.length).filterMap
        (hitAt normalize vertices (builtTree options geometry)._triangles
          (builtTree options geometry)._primitiveIndices rd)) := by
  obtain ⟨vertices, n0, hv, hn0, g0, perm, cov⟩ := built_query_facts options geometry h
  have r1 := cov.range_le
  obtain ⟨new, e, sub, -⟩ := intersectNode_spec normalize (builtTree options geometry) _ _
    vertices hv cov (builtTree options geometry)._kdNodes.length (by omega) n0 hn0 rd start end_
    sink
  refine ⟨vertices, new, hv, perm, ?_, by simpa using sub⟩
  unfold KdTree.intersect
  rw [g0, e]

theorem filterMap_sublist_map {β γ : Type} (f : β → Option γ) (g : β → γ) (l : List β)
    (hfg : ∀ x y, f x = some y → y = g x) : (l.filterMap f).Sublist (l.map g) := by
  induction l with
  | nil => simp
  | cons x l ih =>
    rw [List.filterMap_cons, List.map_cons]
    cases hx : f x with
    | none => exact ih.cons _
    | some y =>
      simp only []
      rw [hfg x y hx]
      exact ih.cons₂ _

omit [LinearOrderedField α] in
theorem map_getD_range (P : List Nat) :
    (List.range' 0 P.length).map (fun j => P.getD j 0) = P := by
  apply List.ext_getElem
  · simp
  · intro i h1 h2
    simp [List.getD_eq_getElem?_getD, List.getElem?_eq_getElem h2]

/-- The child handles of an internal node of a covered subtree: each is `0` or a later
handle of the pool, and they are not both `0`. -/
theorem Covers.children {target L : Nat} {vertices : List (Vec3 α)} {triangles : List Triangle}
    {nodes : List (KdNode α)} {P : List Nat} {h lo hi a b lvl : Nat}
    (c : Covers target L vertices triangles nodes P h lo hi a b lvl) (n : KdNode α)
    (hn : nodes[h]? = some n) (hint : ¬n.first < 0) :
    (n.first = 0 ∨ ((h : Int) < n.first ∧ n.first < (nodes.length : Int))) ∧
    (n.second = 0 ∨ ((h : Int) < n.second ∧ n.second < (nodes.length : Int))) ∧
    ¬(n.first = 0 ∧ n.second = 0) := by
  cases c with
  | leaf _ _ _ _ _ n2 g1 g2 => rw [hn] at g1; cases g1; omega
  | both _ _ m _ _ c2 _ _ n2 g1 g2 g3 g4 g5 g6 g7 g8 c1 c3 g9 =>
    rw [hn] at g1; cases g1
    obtain ⟨x1, hx1⟩ := c1.node
    obtain ⟨x3, hx3⟩ := c3.node
    have l1 := getElem?_lt_length _ _ _ hx1
    have l3 := getElem?_lt_length _ _ _ hx3
    refine ⟨Or.inr ⟨by omega, by omega⟩, Or.inr ⟨by omega, by omega⟩, by omega⟩
  | onlyLeft _ _ _ _ _ _ n2 g1 g2 g3 g4 g5 g6 g7 c1 g9 =>
    rw [hn] at g1; cases g1
    obtain ⟨x1, hx1⟩ := c1.node
    have l1 := getElem?_lt_length _ _ _ hx1
    refine ⟨Or.inr ⟨by omega, by omega⟩, Or.inl g3, by omega⟩
  | onlyRight _ _ _ _ _ _ n2 g1 g2 g3 g4 g5 g6 g7 c1 g9 =>
    rw [hn] at g1; cases g1
    obtain ⟨x1, hx1⟩ := c1.node
    have l1 := getElem?_lt_length _ _ _ hx1
    refine ⟨Or.inl g2, Or.inr ⟨by omega, by omega⟩, by omega⟩

/-- The handles of the footprint of a subtree come after its root. -/
theorem Covers.root_lt {target L : Nat} {vertices : List (Vec3 α)} {triangles : List Triangle}
    {nodes : List (KdNode α)} {P : List Nat} {h lo hi a b lvl : Nat}
    (c : Covers target L vertices triangles nodes P h lo hi a b lvl) : a < b → h < a := by
  cases c <;> omega

/-- A handle reached from the root of a subtree by at least one child link lies in the
footprint of the subtree. -/
theorem Covers.reach_footprint {target L : Nat} {vertices : List (Vec3 α)}
    {triangles : List Triangle} {nodes : List (KdNode α)} {P : List Nat} {r k d : Nat}
    (hr : ReachFrom nodes r k d) :
    ∀ {lo hi a b lvl : Nat}, Covers target L vertices triangles nodes P r lo hi a b lvl →
    (k = r ∧ d = 0) ∨ (a ≤ k ∧ k < b ∧ 0 < d) := by
  induction hr with
  | here r => intro lo hi a b lvl c; exact Or.inl ⟨rfl, rfl⟩
  | first r h d n h1 h2 h3 _ ih =>
    intro lo hi a b lvl c
    right
    cases c with
    | leaf _ _ _ _ _ n2 g1 g2 => rw [h1] at g1; cases g1; omega
    | both _ _ m _ _ c2 _ _ n2 g1 g2 g3 g4 g5 g6 g7 g8 c1 c3 g9 =>
      rw [h1] at g1; cases g1
      have : n.first.toNat = a := by omega
      rw [this] at ih
      have r1 := c1.range_le
      have r3 := c3.range_le
      rcases ih c1 with ⟨x1, x2⟩ | ⟨x1, x2, x3⟩ <;> omega
    | onlyLeft _ _ _ _ _ _ n2 g1 g2 g3 g4 g5 g6 g7 c1 g9 =>
      rw [h1] at g1; cases g1
      have : n.first.toNat = a := by omega
      rw [this] at ih
      have r1 := c1.range_le
      rcases ih c1 with ⟨x1, x2⟩ | ⟨x1, x2, x3⟩ <;> omega
    | onlyRight _ _ _ _ _ _ n2 g1 g2 g3 => rw [h1] at g1; cases g1; omega
  | second r h d n h1 h2 h3 _ ih =>
    intro lo hi a b lvl c
    right
    cases c with
    | leaf _ _ _ _ _ n2 g1 g2 => rw [h1] at g1; cases g1; omega
    | both _ _ m _ _ c2 _ _ n2 g1 g2 g3 g4 g5 g6 g7 g8 c1 c3 g9 =>
      rw [h1] at g1; cases g1
      have : n.second.toNat = a + 1 := by omega
      rw [this] at ih
      have r1 := c1.range_le
      have r3 := c3.range_le
      rcases ih c3 with ⟨x1, x2⟩ | ⟨x1, x2, x3⟩ <;> omega
    | onlyLeft _ _ _ _ _ _ n2 g1 g2 g3 => rw [h1] at g1; cases g1; omega
    | onlyRight _ _ _ _ _ _ n2 g1 g2 g3 g4 g5 g6 g7 c1 g9 =>
      rw [h1] at g1; cases g1
      have : n.second.toNat = a := by omega
      rw [this] at ih
      have r1 := c1.range_le
      rcases ih c1 with ⟨x1, x2⟩ | ⟨x1, x2, x3⟩ <;> omega

/-- The recursion of the query on a subtree of the built pool ends, enters nodes of the
footprint of the subtree only, and enters no node twice. -/
theorem intersectVisits_spec (t : KdTree α) (target L : Nat) (vertices : List (Vec3 α))
    {h lo hi a b lvl : Nat}
    (c : Covers target L vertices t._triangles t._kdNodes t._primitiveIndices h lo hi a b lvl) :
    ∀ (fuel : Nat), b - a + 1 ≤ fuel → ∀ (ls le : Vec3 α),
      ∃ vs, t.intersectVisits fuel (h : Int) ls le = some vs ∧
        (∀ k ∈ vs, k = (h : Int) ∨ ((a : Int) ≤ k ∧ k < (b : Int))) ∧ vs.Nodup := by
  induction c with
  | leaf h lo hi a lvl n0 h1 h2 h3 h4 h5 h6 h7 =>
    intro fuel hf ls le
    obtain ⟨f, rfl⟩ : ∃ f, fuel = f + 1 := ⟨fuel - 1, by omega⟩
    simp only [KdTree.intersectVisits]
    rw [getNode_natCast _ h n0 h1]
    by_cases hc : (intersectAndClip ls le n0.bb).1 = false
    · rw [if_pos hc]
      exact ⟨_, rfl, by simp, by simp⟩
    · rw [if_neg hc, if_pos (by omega)]
      exact ⟨_, rfl, by simp, by simp⟩
  | both h lo m hi a c b lvl n0 h1 h2 h3 h4 h5 h6 h7 h8 c1 c2 h9 ih1 ih2 =>
    intro fuel hf ls le
    have r1 := c1.range_le
    have r2 := c2.range_le
    obtain ⟨f, rfl⟩ : ∃ f, fuel = f + 1 := ⟨fuel - 1, by omega⟩
    simp only [KdTree.intersectVisits]
    rw [getNode_natCast _ h n0 h1]
    by_cases hc : (intersectAndClip ls le n0.bb).1 = false
    · rw [if_pos hc]
      exact ⟨_, rfl, by simp, by simp⟩
    rw [if_neg hc, if_neg (by omega), if_pos (by omega), if_pos (by omega), h2, h3]
    obtain ⟨vs1, e1, m1, n1⟩ := ih1 f (by omega) (intersectAndClip ls le n0.bb).2.1
      (intersectAndClip ls le n0.bb).2.2
    have ea : ((a : Int) + 1) = ((a + 1 : Nat) : Int) := by push_cast; rfl
    obtain ⟨vs2, e2, m2, n2⟩ := ih2 f (by omega) (intersectAndClip ls le n0.bb).2.1
      (intersectAndClip ls le n0.bb).2.2
    rw [e1, ea, e2]
    refine ⟨_, rfl, ?_, ?_⟩
    · intro k hk
      simp only [List.mem_cons, List.mem_append] at hk
      rcases hk with hk | hk | hk
      · exact Or.inl hk
      · have := m1 k hk; omega
      · have := m2 k hk; omega
    · rw [List.nodup_cons, List.nodup_append]
      refine ⟨?_, n1, n2, ?_⟩
      · intro hk
        rw [List.mem_append] at hk
        rcases hk with hk | hk
        · have := m1 _ hk; omega
        · have := m2 _ hk; omega
      · intro k hk1 hk2
        have := m1 k hk1
        have := m2 k hk2
        omega
  | onlyLeft h lo hi a b lvl n0 h1 h2 h3 h4 h5 h6 h7 c1 h9 ih =>
    intro fuel hf ls le
    have r1 := c1.range_le
    obtain ⟨f, rfl⟩ : ∃ f, fuel = f + 1 := ⟨fuel - 1, by omega⟩
    simp only [KdTree.intersectVisits]
    rw [getNode_natCast _ h n0 h1]
    by_cases hc : (intersectAndClip ls le n0.bb).1 = false
    · rw [if_pos hc]
      exact ⟨_, rfl, by simp, by simp⟩
    rw [if_neg hc, if_neg (by omega), if_pos (by omega), if_neg (by omega), h2]
    obtain ⟨vs1, e1, m1, n1⟩ := ih f (by omega) (intersectAndClip ls le n0.bb).2.1
      (intersectAndClip ls le n0.bb).2.2
    rw [e1]
    refine ⟨_, rfl, ?_, ?_⟩
    · intro k hk
      simp only [List.mem_cons, List.mem_append, List.not_mem_nil, or_false] at hk
      rcases hk with hk | hk
      · exact Or.inl hk
      · have := m1 k hk; omega
    · rw [List.append_nil, List.nodup_cons]
      refine ⟨?_, n1⟩
      intro hk
      have := m1 _ hk; omega
  | onlyRight h lo hi a b lvl n0 h1 h2 h3 h4 h5 h6 h7 c1 h9 ih =>
    intro fuel hf ls le
    have r1 := c1.range_le
    obtain ⟨f, rfl⟩ : ∃ f, fuel = f + 1 := ⟨fuel - 1, by omega⟩
    simp only [KdTree.intersectVisits]
    rw [getNode_natCast _ h n0 h1]
    by_cases hc : (intersectAndClip ls le n0.bb).1 = false
    · rw [if_pos hc]
      exact ⟨_, rfl, by simp, by simp⟩
    rw [if_neg hc, if_neg (by omega), if_neg (by omega), if_pos (by omega), h3]
    obtain ⟨vs1, e1, m1, n1⟩ := ih f (by omega) (intersectAndClip ls le n0.bb).2.1
      (intersectAndClip ls le n0.bb).2.2
    rw [e1]
    refine ⟨_, rfl, ?_, ?_⟩
    · intro k hk
      simp only [List.mem_cons, List.nil_append] at hk
      rcases hk with hk | hk
      · exact Or.inl hk
      · have := m1 k hk; omega
    · rw [List.nil_append, List.nodup_cons]
      refine ⟨?_, n1⟩
      intro hk
      have := m1 _ hk; omega

/-- The ghost log follows the recursion of the query: the one returns exactly when the
other does. -/
theorem intersectVisits_isSome (normalize : Vec3 α → Vec3 α) (t : KdTree α) :
    ∀ (fuel : Nat) (nodeIndex : Int) (rd : RayData α) (ls le : Vec3 α)
      (sink : List (LineSegmentIntersection α)),
      (t.intersectVisits fuel nodeIndex ls le).isSome =
        (t.intersectNode normalize fuel (getNode t._kdNodes nodeIndex) rd ls le sink).isSome := by
  intro fuel
  induction fuel with
  | zero => intro nodeIndex rd ls le sink; rfl
  | succ fuel ih =>
    intro nodeIndex rd ls le sink
    simp only [KdTree.intersectVisits, KdTree.intersectNode]
    by_cases hc : (intersectAndClip ls le (getNode t._kdNodes nodeIndex).bb).1 = false
    · rw [if_pos hc, if_pos hc]; rfl
    rw [if_neg hc, if_neg hc]
    by_cases hl : (getNode t._kdNodes nodeIndex).first < 0
    · rw [if_pos hl, if_pos hl]; rfl
    rw [if_neg hl, if_neg hl]
    have first : (if (getNode t._kdNodes nodeIndex).first > 0 then
          t.intersectVisits fuel (getNode t._kdNodes nodeIndex).first
            (intersectAndClip ls le (getNode t._kdNodes nodeIndex).bb).2.1
            (intersectAndClip ls le (getNode t._kdNodes nodeIndex).bb).2.2
        else some []).isSome =
        (if (getNode t._kdNodes nodeIndex).first > 0 then
          (t.intersectNode normalize fuel
            (getNode t._kdNodes (getNode t._kdNodes nodeIndex).first) rd
            (intersectAndClip ls le (getNode t._kdNodes nodeIndex).bb).2.1
            (intersectAndClip ls le (getNode t._kdNodes nodeIndex).bb).2.2 sink).map Prod.snd
        else some sink).isSome := by
      by_cases h1 : (getNode t._kdNodes nodeIndex).first > 0
      · rw [if_pos h1, if_pos h1, ih _ rd _ _ sink]; simp
      · rw [if_neg h1, if_neg h1]; rfl
    generalize (if (getNode t._kdNodes nodeIndex).first > 0 then
          t.intersectVisits fuel (getNode t._kdNodes nodeIndex).first
            (intersectAndClip ls le (getNode t._kdNodes nodeIndex).bb).2.1
            (intersectAndClip ls le (getNode t._kdNodes nodeIndex).bb).2.2
        else some []) = x1 at first ⊢
    generalize (if (getNode t._kdNodes nodeIndex).first > 0 then
          (t.intersectNode normalize fuel
            (getNode t._kdNodes (getNode t._kdNodes nodeIndex).first) rd
            (intersectAndClip ls le (getNode t._kdNodes nodeIndex).bb).2.1
            (intersectAndClip ls le (getNode t._kdNodes nodeIndex).bb).2.2 sink).map Prod.snd
        else some sink) = y1 at first ⊢
    cases x1 with
    | none =>
      cases y1 with
      | none => rfl
      | some out1 => simp at first
    | some v1 =>
      cases y1 with
      | none => simp at first
      | some out1 =>
        simp only []
        have second : (if (getNode t._kdNodes nodeIndex).second > 0 then
              t.intersectVisits fuel (getNode t._kdNodes nodeIndex).second
                (intersectAndClip ls le (getNode t._kdNodes nodeIndex).bb).2.1
                (intersectAndClip ls le (getNode t._kdNodes nodeIndex).bb).2.2
            else some []).isSome =
            (if (getNode t._kdNodes nodeIndex).second > 0 then
              (t.intersectNode normalize fuel
                (getNode t._kdNodes (getNode t._kdNodes nodeIndex).second) rd
                (intersectAndClip ls le (getNode t._kdNodes nodeIndex).bb).2.1
                (intersectAndClip ls le (getNode t._kdNodes nodeIndex).bb).2.2
                out1).map Prod.snd
            else some out1).isSome := by
          by_cases h2 : (getNode t._kdNodes nodeIndex).second > 0
          · rw [if_pos h2, if_pos h2, ih _ rd _ _ out1]; simp
          · rw [if_neg h2, if_neg h2]; rfl
        generalize (if (getNode t._kdNodes nodeIndex).second > 0 then
              t.intersectVisits fuel (getNode t._kdNodes nodeIndex).second
                (intersectAndClip ls le (getNode t._kdNodes nodeIndex).bb).2.1
                (intersectAndClip ls le (getNode t._kdNodes nodeIndex).bb).2.2
            else some []) = x2 at second ⊢
        generalize (if (getNode t._kdNodes nodeIndex).second > 0 then
              (t.intersectNode normalize fuel
                (getNode t._kdNodes (getNode t._kdNodes nodeIndex).second) rd
                (intersectAndClip ls le (getNode t._kdNodes nodeIndex).bb).2.1
                (intersectAndClip ls le (getNode t._kdNodes nodeIndex).bb).2.2
                out1).map Prod.snd
            else some out1) = y2 at second ⊢
        cases x2 with
        | none =>
          cases y2 with
          | none => rfl
          | some out2 => simp at second
        | some v2 =>
          cases y2 with
          | none => simp at second
          | some out2 => rfl

end QueryProofs

/-! ## The query on a built tree -/

section QueryClaims

variable {α : Type} [LinearOrderedField α]

theorem crossingRay_normalised :
    crossingRay.Normalised ⟨1 / 4, 1 / 4, -1⟩ ⟨1 / 4, 1 / 4, 1⟩ := by
  unfold RayData.Normalised
  decide!

theorem oneTriangleMesh_far (q : Vec3 ℚ) (hq : OnSegment q ⟨5, 5, 5⟩ ⟨8, 9, 5⟩) :
    ¬(getNode (builtTree BuildOptions.default oneTriangleMesh)._kdNodes 0).bb.Contains q := by
  obtain ⟨t, t0, t1, rfl⟩ := hq
  intro hc
  have hx := hc.1.2
  have e : (getNode (builtTree BuildOptions.default oneTriangleMesh)._kdNodes 0).bb._max.x
      = 1000001 / 1000000 := by decide!
  rw [e] at hx
  simp only [Vec3.add, Vec3.sub, Vec3.scale] at hx
  linarith

/-- C1: on the tree of a build (on a fresh tree) that returns true, with the ray data of the
segment (unit direction, length, inverse length), the query started with an empty sink
returns, and the records it inserts are exactly the records that the triangle test of the
leaf loop yields on the triangle ids `0 .. |T|-1`. -/
theorem intersect_eq_bruteForce (normalize : Vec3 α → Vec3 α) (options : BuildOptions)
    (geometry : Geometry α) (h : buildReturns options geometry = true) (start end_ : Vec3 α)
    (rd : RayData α) (hrd : rd.Normalised start end_) :
    ∃ flag out,
      KdTree.intersect normalize (builtTree options geometry) rd start end_ [] =
        some (flag, out) ∧
      ∀ r, r ∈ out ↔
        r ∈ bruteForce normalize ((builtTree options geometry)._vertices.getD [])
          (builtTree options geometry)._triangles rd := by
  obtain ⟨vertices, n0, hv, hn0, g0, perm, cov⟩ := built_query_facts options geometry h
  have r1 := cov.range_le
  obtain ⟨new, e, sub, comp⟩ := intersectNode_spec normalize (builtTree options geometry) _ _
    vertices hv cov (builtTree options geometry)._kdNodes.length (by omega) n0 hn0 rd start end_
    []
  unfold KdTree.intersect
  rw [g0, e, hv]
  simp only [List.nil_append, Option.getD_some]
  refine ⟨_, _, rfl, ?_⟩
  obtain ⟨p1, p2, p3⟩ := perm_range_getElem? _ _ perm
  intro r
  unfold bruteForce
  rw [List.mem_filterMap]
  constructor
  · intro hr
    have hr2 := sub.subset hr
    rw [List.mem_filterMap] at hr2
    obtain ⟨j, hj, hjr⟩ := hr2
    rw [List.mem_range'] at hj
    obtain ⟨i, hi, rfl⟩ := hj
    simp only [Nat.sub_zero, Nat.zero_add, Nat.one_mul] at hi hjr
    have hlen : (builtTree options geometry)._primitiveIndices.length =
        (builtTree options geometry)._triangles.length := by rw [perm.length_eq]; simp
    have hget : (builtTree options geometry)._primitiveIndices[i]? =
        some ((builtTree options geometry)._primitiveIndices.getD i 0) := by
      rw [List.getD_eq_getElem?_getD, List.getElem?_eq_getElem (by omega)]; rfl
    exact ⟨_, List.mem_range.mpr (p3 i _ hget).1, hjr⟩
  · intro ⟨id, hid, hr⟩
    rw [List.mem_range] at hid
    obtain ⟨j, hj⟩ := p1 id hid
    have hgetD : (builtTree options geometry)._primitiveIndices.getD j 0 = id := by
      rw [List.getD_eq_getElem?_getD, hj]; rfl
    have hhit : hitAt normalize vertices (builtTree options geometry)._triangles
        (builtTree options geometry)._primitiveIndices rd j = some r := by
      unfold hitAt; rw [hgetD]; exact hr
    obtain ⟨v1, v2, v3, ds12, ds23, ds31, D, -, -, -, h12, h23, h31, hD, -, hD0, -, -, -, -,
      hlo, hhi, hrr⟩ := intersectTriangle_some _ _ _ _ _ _ hr
    obtain ⟨q1, q2, q3⟩ := hit_on_segment v1 v2 v3 rd start end_ hrd ds12 ds23 ds31 D h12 h23
      h31 hD hD0 hlo hhi
    refine comp j (Nat.zero_le _) (p3 j id hj).2 r hhit ?_
    rw [hrr]
    exact ⟨_, q2, q3, q1⟩

/-- Witness of C1: the one-triangle mesh and a segment through the triangle; the query
inserts one record. -/
theorem intersect_eq_bruteForce_witness :
    buildReturns BuildOptions.default oneTriangleMesh = true ∧
      crossingRay.Normalised ⟨1 / 4, 1 / 4, -1⟩ ⟨1 / 4, 1 / 4, 1⟩ ∧
      (bruteForce id ((builtTree BuildOptions.default oneTriangleMesh)._vertices.getD [])
        (builtTree BuildOptions.default oneTriangleMesh)._triangles crossingRay).length = 1 ∧
      ∃ flag out,
        KdTree.intersect id (builtTree BuildOptions.default oneTriangleMesh) crossingRay
          ⟨1 / 4, 1 / 4, -1⟩ ⟨1 / 4, 1 / 4, 1⟩ [] = some (flag, out) ∧
        ∀ r, r ∈ out ↔
          r ∈ bruteForce id ((builtTree BuildOptions.default oneTriangleMesh)._vertices.getD [])
            (builtTree BuildOptions.default oneTriangleMesh)._triangles crossingRay :=
  ⟨oneTriangleMesh_builds, crossingRay_normalised, by decide!,
    intersect_eq_bruteForce id BuildOptions.default oneTriangleMesh oneTriangleMesh_builds
      ⟨1 / 4, 1 / 4, -1⟩ ⟨1 / 4, 1 / 4, 1⟩ crossingRay crossingRay_normalised⟩

/-- C9: on the tree of a build (on a fresh tree) that returns true, for a segment that has
no point in the box of the root node, the query returns false and leaves the sink as it
is. -/
theorem intersect_outside_root (normalize : Vec3 α → Vec3 α) (options : BuildOptions)
    (geometry : Geometry α) (h : buildReturns options geometry = true) (start end_ : Vec3 α)
    (rd : RayData α) (sink : List (LineSegmentIntersection α))
    (hout : ∀ q, OnSegment q start end_ →
      ¬(getNode (builtTree options geometry)._kdNodes 0).bb.Contains q) :
    KdTree.intersect normalize (builtTree options geometry) rd start end_ sink =
      some (false, sink) := by
  obtain ⟨vertices, n0, hv, hn0, g0, perm, cov⟩ := built_query_facts options geometry h
  have hlen := getElem?_lt_length _ _ _ hn0
  rw [g0] at hout
  unfold KdTree.intersect
  rw [g0]
  obtain ⟨f, hf⟩ : ∃ f, (builtTree options geometry)._kdNodes.length = f + 1 :=
    ⟨(builtTree options geometry)._kdNodes.length - 1, by omega⟩
  rw [hf]
  simp only [KdTree.intersectNode]
  by_cases hc : (intersectAndClip start end_ n0.bb).1 = false
  · rw [if_pos hc]
  · rw [if_neg hc]
    have hc' : (intersectAndClip start end_ n0.bb).1 = true := by simpa using hc
    by_cases hN : 0 < (builtTree options geometry)._triangles.length
    · have hval := (cov.box hN n0 hn0).1
      obtain ⟨onseg, inb⟩ := intersectAndClip_sound start end_ n0.bb hval hc'
      exact absurd inb (hout _ onseg)
    · have hN0 : (builtTree options geometry)._triangles.length = 0 := by omega
      obtain ⟨g2, g3⟩ := cov.empty_leaf (by omega) n0 hn0
      rw [if_pos g2]
      have e2 : (-n0.first - 1 + n0.second - (-n0.first - 1)).toNat = 0 := by omega
      rw [e2]
      simp [intersectLeafLoop]

/-- Witness of C9: the one-triangle mesh and a segment far from it. -/
theorem intersect_outside_root_witness :
    buildReturns BuildOptions.default oneTriangleMesh = true ∧
      (∀ q, OnSegment q ⟨5, 5, 5⟩ ⟨8, 9, 5⟩ →
        ¬(getNode (builtTree BuildOptions.default oneTriangleMesh)._kdNodes 0).bb.Contains q) ∧
      KdTree.intersect id (builtTree BuildOptions.default oneTriangleMesh) farRay
        ⟨5, 5, 5⟩ ⟨8, 9, 5⟩ [] = some (false, []) :=
  ⟨oneTriangleMesh_builds, oneTriangleMesh_far,
    intersect_outside_root id BuildOptions.default oneTriangleMesh oneTriangleMesh_builds
      ⟨5, 5, 5⟩ ⟨8, 9, 5⟩ farRay [] oneTriangleMesh_far⟩

/-- C10: on the tree of a build (on a fresh tree) that returns true, with ray data whose
length is positive and whose inverse length is its reciprocal, the query returns and every
record it inserts has its ratio in `[0, 1]`. -/
theorem intersect_ratio_bounds (normalize : Vec3 α → Vec3 α) (options : BuildOptions)
    (geometry : Geometry α) (h : buildReturns options geometry = true) (start end_ : Vec3 α)
    (rd : RayData α) (hlen : 0 < rd._length) (hinv : rd._inverse_length = 1 / rd._length)
    (sink : List (LineSegmentIntersection α)) :
    ∃ flag new,
      KdTree.intersect normalize (builtTree options geometry) rd start end_ sink =
        some (flag, sink ++ new) ∧
      ∀ r ∈ new, 0 ≤ r.ratio ∧ r.ratio ≤ 1 := by
  obtain ⟨vertices, n0, hv, hn0, g0, perm, cov⟩ := built_query_facts options geometry h
  have r1 := cov.range_le
  obtain ⟨new, e, sub, -⟩ := intersectNode_spec normalize (builtTree options geometry) _ _
    vertices hv cov (builtTree options geometry)._kdNodes.length (by omega) n0 hn0 rd start end_
    sink
  unfold KdTree.intersect
  rw [g0, e]
  refine ⟨_, new, rfl, ?_⟩
  intro r hr
  have hr2 := sub.subset hr
  rw [List.mem_filterMap] at hr2
  obtain ⟨j, -, hjr⟩ := hr2
  unfold hitAt at hjr
  obtain ⟨v1, v2, v3, ds12, ds23, ds31, D, -, -, -, -, -, -, -, -, -, -, -, -, -, hlo, hhi,
    hrr⟩ := intersectTriangle_some _ _ _ _ _ _ hjr
  rw [hrr]
  simp only []
  have hinvpos : 0 < rd._inverse_length := by rw [hinv]; exact one_div_pos.mpr hlen
  refine ⟨mul_nonneg hlo (le_of_lt hinvpos), ?_⟩
  rw [hinv, mul_one_div, div_le_one hlen]
  exact hhi

/-- Witness of C10: the one-triangle mesh and a segment through the triangle; the record
inserted has ratio one half. -/
theorem intersect_ratio_bounds_witness :
    buildReturns BuildOptions.default oneTriangleMesh = true ∧
      (0 : ℚ) < crossingRay._length ∧ crossingRay._inverse_length = 1 / crossingRay._length ∧
      (KdTree.intersect id (builtTree BuildOptions.default oneTriangleMesh) crossingRay
          ⟨1 / 4, 1 / 4, -1⟩ ⟨1 / 4, 1 / 4, 1⟩ []).map
        (fun p => (p.1, p.2.map (fun r => r.ratio))) = some (true, [1 / 2]) ∧
      ∃ flag new,
        KdTree.intersect id (builtTree BuildOptions.default oneTriangleMesh) crossingRay
          ⟨1 / 4, 1 / 4, -1⟩ ⟨1 / 4, 1 / 4, 1⟩ [] = some (flag, [] ++ new) ∧
        ∀ r ∈ new, 0 ≤ r.ratio ∧ r.ratio ≤ 1 :=
  ⟨oneTriangleMesh_builds, by decide!, by decide!, by decide!,
    intersect_ratio_bounds id BuildOptions.default oneTriangleMesh oneTriangleMesh_builds
      ⟨1 / 4, 1 / 4, -1⟩ ⟨1 / 4, 1 / 4, 1⟩ crossingRay (by decide!) (by decide!) []⟩

/-- C11: on the tree of a build (on a fresh tree) that returns true, with the ray data of the
segment, the query returns and every record it inserts has its point at
`start + ratio * (end - start)`; and for the single triangle `(0,0,0),(1,0,0),(0,1,0)` and
the segment `(1/4,1/4,-1) -> (1/4,1/4,1)` the query inserts exactly one record, with point
`(1/4,1/4,0)` and ratio `1/2`, whatever `normalize` is. -/
theorem intersect_point_at_ratio (normalize : Vec3 α → Vec3 α) (options : BuildOptions)
    (geometry : Geometry α) (h : buildReturns options geometry = true) (start end_ : Vec3 α)
    (rd : RayData α) (hrd : rd.Normalised start end_)
    (sink : List (LineSegmentIntersection α)) :
    (∃ flag new,
      KdTree.intersect normalize (builtTree options geometry) rd start end_ sink =
        some (flag, sink ++ new) ∧
      ∀ r ∈ new, r.intersectionPoint = start.add ((end_.sub start).scale r.ratio)) ∧
    (∀ normalizeQ : Vec3 ℚ → Vec3 ℚ, ∃ r,
      KdTree.intersect normalizeQ (builtTree BuildOptions.default oneTriangleMesh) crossingRay
        ⟨1 / 4, 1 / 4, -1⟩ ⟨1 / 4, 1 / 4, 1⟩ [] = some (true, [r]) ∧
      r.intersectionPoint = ⟨1 / 4, 1 / 4, 0⟩ ∧ r.ratio = 1 / 2) := by
  constructor
  · obtain ⟨vertices, new, hv, perm, e, sub⟩ :=
      intersect_built_spec normalize options geometry h start end_ rd sink
    refine ⟨_, new, e, ?_⟩
    intro r hr
    have hr2 := sub.subset hr
    rw [List.mem_filterMap] at hr2
    obtain ⟨j, -, hjr⟩ := hr2
    unfold hitAt at hjr
    obtain ⟨v1, v2, v3, ds12, ds23, ds31, D, -, -, -, h12, h23, h31, hD, -, hD0, -, -, -, -,
      hlo, hhi, hrr⟩ := intersectTriangle_some _ _ _ _ _ _ hjr
    rw [hrr]
    exact (hit_on_segment v1 v2 v3 rd start end_ hrd ds12 ds23 ds31 D h12 h23 h31 hD hD0 hlo
      hhi).1
  · intro normalizeQ
    rw [intersect_normalize]
    have e : KdTree.intersect id (builtTree BuildOptions.default oneTriangleMesh) crossingRay
        ⟨1 / 4, 1 / 4, -1⟩ ⟨1 / 4, 1 / 4, 1⟩ [] =
        some (true, [⟨1 / 2, 0, ⟨1 / 4, 1 / 4, 0⟩, ⟨0, 0, 1⟩, [0, 1, 2],
          [1 / 2, 1 / 4, 1 / 4]⟩]) := by
      decide!
    rw [e]
    exact ⟨_, rfl, rfl, rfl⟩

/-- Witness of C11: the one-triangle mesh and a segment through the triangle. -/
theorem intersect_point_at_ratio_witness :
    buildReturns BuildOptions.default oneTriangleMesh = true ∧
      crossingRay.Normalised ⟨1 / 4, 1 / 4, -1⟩ ⟨1 / 4, 1 / 4, 1⟩ ∧
      ∃ flag new,
        KdTree.intersect id (builtTree BuildOptions.default oneTriangleMesh) crossingRay
          ⟨1 / 4, 1 / 4, -1⟩ ⟨1 / 4, 1 / 4, 1⟩ [] = some (flag, [] ++ new) ∧
        ∀ r ∈ new, r.intersectionPoint =
          (⟨1 / 4, 1 / 4, -1⟩ : Vec3 ℚ).add
            (((⟨1 / 4, 1 / 4, 1⟩ : Vec3 ℚ).sub ⟨1 / 4, 1 / 4, -1⟩).scale r.ratio) :=
  ⟨oneTriangleMesh_builds, crossingRay_normalised,
    (intersect_point_at_ratio id BuildOptions.default oneTriangleMesh oneTriangleMesh_builds
      ⟨1 / 4, 1 / 4, -1⟩ ⟨1 / 4, 1 / 4, 1⟩ crossingRay crossingRay_normalised []).1⟩

/-- C12 as stated fails: on the cube the query inserts four records, not two (the centre of
a face lies on the diagonal shared by the two triangles of the face, and both accept);
likewise when every face is split along its other diagonal. -/
theorem cube_query_counterexample :
    buildReturns BuildOptions.default cubeMesh = true ∧
      buildReturns BuildOptions.default cubeMeshAlt = true ∧
      cubeRay.Normalised ⟨-1, 1 / 2, 1 / 2⟩ ⟨2, 1 / 2, 1 / 2⟩ ∧
      ∀ normalize : Vec3 ℚ → Vec3 ℚ,
        (KdTree.intersect normalize (builtTree BuildOptions.default cubeMesh) cubeRay
          ⟨-1, 1 / 2, 1 / 2⟩ ⟨2, 1 / 2, 1 / 2⟩ []).map (fun p => p.2.length) = some 4 ∧
        (KdTree.intersect normalize (builtTree BuildOptions.default cubeMeshAlt) cubeRay
          ⟨-1, 1 / 2, 1 / 2⟩ ⟨2, 1 / 2, 1 / 2⟩ []).map (fun p => p.2.length) = some 4 := by
  refine ⟨by decide!, by decide!, ?_, ?_⟩
  · unfold RayData.Normalised
    decide!
  · intro normalize
    have e : ((fun p : Bool × List (LineSegmentIntersection ℚ) => p.2.length) ∘
        fun p : Bool × List (LineSegmentIntersection ℚ) =>
          (p.1, p.2.map (LineSegmentIntersection.withNormal normalize))) =
        fun p => p.2.length := by
      funext p
      simp only [Function.comp, List.length_map]
    constructor
    · rw [intersect_normalize normalize, Option.map_map, e]
      decide!
    · rw [intersect_normalize normalize, Option.map_map, e]
      decide!

/-- C12 (amended): on the unit cube built with the default options, the query with the
segment `(-1, 1/2, 1/2) -> (2, 1/2, 1/2)` returns true and inserts exactly four records: one
for each of the two triangles of the face `x = 0`, at `(0, 1/2, 1/2)` with ratio `1/3`, and
one for each of the two triangles of the face `x = 1`, at `(1, 1/2, 1/2)` with ratio `2/3`,
whatever `normalize` is. -/
theorem cube_query (normalize : Vec3 ℚ → Vec3 ℚ) :
    (KdTree.intersect normalize (builtTree BuildOptions.default cubeMesh) cubeRay
        ⟨-1, 1 / 2, 1 / 2⟩ ⟨2, 1 / 2, 1 / 2⟩ []).map
      (fun p => (p.1, p.2.map LineSegmentIntersection.summary)) =
      some (true, [(9, ⟨0, 1 / 2, 1 / 2⟩, 1 / 3), (8, ⟨0, 1 / 2, 1 / 2⟩, 1 / 3),
        (10, ⟨1, 1 / 2, 1 / 2⟩, 2 / 3), (11, ⟨1, 1 / 2, 1 / 2⟩, 2 / 3)]) := by
  rw [intersect_normalize, Option.map_map]
  have e : ((fun p : Bool × List (LineSegmentIntersection ℚ) =>
        (p.1, p.2.map LineSegmentIntersection.summary)) ∘
      fun p : Bool × List (LineSegmentIntersection ℚ) =>
        (p.1, p.2.map (LineSegmentIntersection.withNormal normalize))) =
      fun p => (p.1, p.2.map LineSegmentIntersection.summary) := by
    funext p
    simp only [Function.comp, List.map_map]
    rfl
  rw [e]
  decide!

/-- C13: on the tree of a build (on a fresh tree) that returns true, the query returns and
the records it inserts carry pairwise different primitive indices. -/
theorem intersect_one_record_per_primitive (normalize : Vec3 α → Vec3 α)
    (options : BuildOptions) (geometry : Geometry α)
    (h : buildReturns options geometry = true) (start end_ : Vec3 α) (rd : RayData α)
    (sink : List (LineSegmentIntersection α)) :
    ∃ flag new,
      KdTree.intersect normalize (builtTree options geometry) rd start end_ sink =
        some (flag, sink ++ new) ∧
      (new.map (fun r => r.primitiveIndex)).Nodup := by
  obtain ⟨vertices, new, hv, perm, e, sub⟩ :=
    intersect_built_spec normalize options geometry h start end_ rd sink
  refine ⟨_, new, e, ?_⟩
  have hlen : (builtTree options geometry)._primitiveIndices.length =
      (builtTree options geometry)._triangles.length := by rw [perm.length_eq]; simp
  have hnd : (builtTree options geometry)._primitiveIndices.Nodup :=
    perm.nodup_iff.mpr (List.nodup_range _)
  have s1 := sub.map (fun r => r.primitiveIndex)
  rw [List.map_filterMap] at s1
  have s2 := filterMap_sublist_map
    (fun j => (hitAt normalize vertices (builtTree options geometry)._triangles
      (builtTree options geometry)._primitiveIndices rd j).map (fun r => r.primitiveIndex))
    (fun j => (builtTree options geometry)._primitiveIndices.getD j 0)
    (List.range' 0 (builtTree options geometry)._triangles.length) (by
      intro j y hy
      simp only [Option.map_eq_some'] at hy
      obtain ⟨r, hr, rfl⟩ := hy
      unfold hitAt at hr
      obtain ⟨v1, v2, v3, ds12, ds23, ds31, D, -, -, -, -, -, -, -, -, -, -, -, -, -, -, -,
        hrr⟩ := intersectTriangle_some _ _ _ _ _ _ hr
      rw [hrr])
  rw [← hlen] at s1 s2
  rw [map_getD_range] at s2
  exact (s1.trans s2).nodup hnd

/-- Witness of C13: the cube and the segment through the centres of two faces; four records
with four different primitive indices. -/
theorem intersect_one_record_per_primitive_witness :
    buildReturns BuildOptions.default cubeMesh = true ∧
      (KdTree.intersect id (builtTree BuildOptions.default cubeMesh) cubeRay
        ⟨-1, 1 / 2, 1 / 2⟩ ⟨2, 1 / 2, 1 / 2⟩ []).map
          (fun p => p.2.map (fun r => r.primitiveIndex)) = some [9, 8, 10, 11] ∧
      ∃ flag new,
        KdTree.intersect id (builtTree BuildOptions.default cubeMesh) cubeRay
          ⟨-1, 1 / 2, 1 / 2⟩ ⟨2, 1 / 2, 1 / 2⟩ [] = some (flag, [] ++ new) ∧
        (new.map (fun r => r.primitiveIndex)).Nodup :=
  ⟨by decide!, by decide!,
    intersect_one_record_per_primitive id BuildOptions.default cubeMesh (by decide!)
      ⟨-1, 1 / 2, 1 / 2⟩ ⟨2, 1 / 2, 1 / 2⟩ cubeRay []⟩

/-- C14: on the tree of a build (on a fresh tree) that returns true, the query returns and
every record it inserts belongs to a triangle whose three vertex positions are pairwise
different. -/
theorem intersect_skips_degenerate (normalize : Vec3 α → Vec3 α) (options : BuildOptions)
    (geometry : Geometry α) (h : buildReturns options geometry = true) (start end_ : Vec3 α)
    (rd : RayData α) (sink : List (LineSegmentIntersection α)) :
    ∃ flag new,
      KdTree.intersect normalize (builtTree options geometry) rd start end_ sink =
        some (flag, sink ++ new) ∧
      ∀ r ∈ new, ∀ tri,
        tri = (builtTree options geometry)._triangles.getD r.primitiveIndex ⟨0, 0, 0⟩ →
        vertexAt ((builtTree options geometry)._vertices.getD []) tri._p1 ≠
          vertexAt ((builtTree options geometry)._vertices.getD []) tri._p2 ∧
        vertexAt ((builtTree options geometry)._vertices.getD []) tri._p2 ≠
          vertexAt ((builtTree options geometry)._vertices.getD []) tri._p3 ∧
        vertexAt ((builtTree options geometry)._vertices.getD []) tri._p1 ≠
          vertexAt ((builtTree options geometry)._vertices.getD []) tri._p3 := by
  obtain ⟨vertices, new, hv, perm, e, sub⟩ :=
    intersect_built_spec normalize options geometry h start end_ rd sink
  refine ⟨_, new, e, ?_⟩
  intro r hr tri htri
  have hr2 := sub.subset hr
  rw [List.mem_filterMap] at hr2
  obtain ⟨j, -, hjr⟩ := hr2
  unfold hitAt at hjr
  obtain ⟨v1, v2, v3, ds12, ds23, ds31, D, e1, e2, e3, -, -, -, -, hnd, -, -, -, -, -, -, -,
    hrr⟩ := intersectTriangle_some _ _ _ _ _ _ hjr
  have hpi : r.primitiveIndex = (builtTree options geometry)._primitiveIndices.getD j 0 := by
    rw [hrr]
  rw [hpi] at htri
  rw [hv, Option.getD_some, htri, ← e1, ← e2, ← e3]
  exact ⟨fun c => hnd (Or.inl c), fun c => hnd (Or.inr (Or.inl c)),
    fun c => hnd (Or.inr (Or.inr c))⟩

/-- Witness of C14: a mesh with a proper and a degenerate triangle over the same points; a
segment through a point of both inserts the record of the proper one only. -/
theorem intersect_skips_degenerate_witness :
    buildReturns BuildOptions.default degenerateMesh = true ∧
      (KdTree.intersect id (builtTree BuildOptions.default degenerateMesh) edgeRay
        ⟨0, 1 / 2, -1⟩ ⟨0, 1 / 2, 1⟩ []).map
          (fun p => p.2.map (fun r => r.primitiveIndex)) = some [0] ∧
      ∃ flag new,
        KdTree.intersect id (builtTree BuildOptions.default degenerateMesh) edgeRay
          ⟨0, 1 / 2, -1⟩ ⟨0, 1 / 2, 1⟩ [] = some (flag, [] ++ new) ∧
        ∀ r ∈ new, ∀ tri,
          tri = (builtTree BuildOptions.default degenerateMesh)._triangles.getD
            r.primitiveIndex ⟨0, 0, 0⟩ →
          vertexAt ((builtTree BuildOptions.default degenerateMesh)._vertices.getD [])
              tri._p1 ≠
            vertexAt ((builtTree BuildOptions.default degenerateMesh)._vertices.getD [])
              tri._p2 ∧
          vertexAt ((builtTree BuildOptions.default degenerateMesh)._vertices.getD [])
              tri._p2 ≠
            vertexAt ((builtTree BuildOptions.default degenerateMesh)._vertices.getD [])
              tri._p3 ∧
          vertexAt ((builtTree BuildOptions.default degenerateMesh)._vertices.getD [])
              tri._p1 ≠
            vertexAt ((builtTree BuildOptions.default degenerateMesh)._vertices.getD [])
              tri._p3 :=
  ⟨by decide!, by decide!,
    intersect_skips_degenerate id BuildOptions.default degenerateMesh (by decide!)
      ⟨0, 1 / 2, -1⟩ ⟨0, 1 / 2, 1⟩ edgeRay []⟩

/-- C21: on the tree of a build (on a fresh tree) that returns true, the query returns and
every record it inserts holds three vertex indices and three weights `r1, r2, r3`, each
weight in `[0, 1]`, the weights adding up to `1`, and its point is
`v1*r1 + v2*r2 + v3*r3` for the vertices of those indices. -/
theorem intersect_weights (normalize : Vec3 α → Vec3 α) (options : BuildOptions)
    (geometry : Geometry α) (h : buildReturns options geometry = true) (start end_ : Vec3 α)
    (rd : RayData α) (sink : List (LineSegmentIntersection α)) :
    ∃ flag new,
      KdTree.intersect normalize (builtTree options geometry) rd start end_ sink =
        some (flag, sink ++ new) ∧
      ∀ r ∈ new, ∃ p1 p2 p3 : Nat, ∃ r1 r2 r3 : α,
        r.indexList = [p1, p2, p3] ∧ r.ratioList = [r1, r2, r3] ∧
        (0 ≤ r1 ∧ r1 ≤ 1) ∧ (0 ≤ r2 ∧ r2 ≤ 1) ∧ (0 ≤ r3 ∧ r3 ≤ 1) ∧ r1 + r2 + r3 = 1 ∧
        r.intersectionPoint =
          (((vertexAt ((builtTree options geometry)._vertices.getD []) p1).scale r1).add
            ((vertexAt ((builtTree options geometry)._vertices.getD []) p2).scale r2)).add
            ((vertexAt ((builtTree options geometry)._vertices.getD []) p3).scale r3) := by
  obtain ⟨vertices, new, hv, perm, e, sub⟩ :=
    intersect_built_spec normalize options geometry h start end_ rd sink
  refine ⟨_, new, e, ?_⟩
  intro r hr
  have hr2 := sub.subset hr
  rw [List.mem_filterMap] at hr2
  obtain ⟨j, -, hjr⟩ := hr2
  unfold hitAt at hjr
  obtain ⟨v1, v2, v3, ds12, ds23, ds31, D, e1, e2, e3, -, -, -, -, -, -, w1, w2, w3, ws, -, -,
    hrr⟩ := intersectTriangle_some _ _ _ _ _ _ hjr
  rw [hv, Option.getD_some, hrr]
  refine ⟨_, _, _, _, _, _, rfl, rfl, ⟨w1, by linarith⟩, ⟨w2, by linarith⟩,
    ⟨w3, by linarith⟩, ws, ?_⟩
  rw [← e1, ← e2, ← e3]
  rfl

/-- Witness of C21: the one-triangle mesh and a segment through the triangle; the record has
the weights `1/2, 1/4, 1/4`. -/
theorem intersect_weights_witness :
    buildReturns BuildOptions.default oneTriangleMesh = true ∧
      (KdTree.intersect id (builtTree BuildOptions.default oneTriangleMesh) crossingRay
          ⟨1 / 4, 1 / 4, -1⟩ ⟨1 / 4, 1 / 4, 1⟩ []).map
        (fun p => p.2.map (fun r => (r.indexList, r.ratioList))) =
          some [([0, 1, 2], [1 / 2, 1 / 4, 1 / 4])] ∧
      ∃ flag new,
        KdTree.intersect id (builtTree BuildOptions.default oneTriangleMesh) crossingRay
          ⟨1 / 4, 1 / 4, -1⟩ ⟨1 / 4, 1 / 4, 1⟩ [] = some (flag, [] ++ new) ∧
        ∀ r ∈ new, ∃ p1 p2 p3 : Nat, ∃ r1 r2 r3 : ℚ,
          r.indexList = [p1, p2, p3] ∧ r.ratioList = [r1, r2, r3] ∧
          (0 ≤ r1 ∧ r1 ≤ 1) ∧ (0 ≤ r2 ∧ r2 ≤ 1) ∧ (0 ≤ r3 ∧ r3 ≤ 1) ∧ r1 + r2 + r3 = 1 ∧
          r.intersectionPoint =
            (((vertexAt ((builtTree BuildOptions.default oneTriangleMesh)._vertices.getD [])
                p1).scale r1).add
              ((vertexAt ((builtTree BuildOptions.default oneTriangleMesh)._vertices.getD [])
                p2).scale r2)).add
              ((vertexAt ((builtTree BuildOptions.default oneTriangleMesh)._vertices.getD [])
                p3).scale r3) :=
  ⟨oneTriangleMesh_builds, by decide!,
    intersect_weights id BuildOptions.default oneTriangleMesh oneTriangleMesh_builds
      ⟨1 / 4, 1 / 4, -1⟩ ⟨1 / 4, 1 / 4, 1⟩ crossingRay []⟩

/-- C22: after a build (on a fresh tree) that returns true, for every internal node of the
pool each child handle is `0` or a later handle of the pool, and the two are not both `0`;
no handle reached from the root by one or more child links is the root; and for every
segment the recursion of the query ends, entering only nodes of the pool and none of them
twice, and the query returns. -/
theorem build_children_and_query_recursion (options : BuildOptions) (geometry : Geometry α)
    (h : buildReturns options geometry = true) :
    (∀ (k : Nat) (n : KdNode α),
      (builtTree options geometry)._kdNodes[k]? = some n → ¬n.first < 0 →
      (n.first = 0 ∨ ((k : Int) < n.first ∧
        n.first < ((builtTree options geometry)._kdNodes.length : Int))) ∧
      (n.second = 0 ∨ ((k : Int) < n.second ∧
        n.second < ((builtTree options geometry)._kdNodes.length : Int))) ∧
      ¬(n.first = 0 ∧ n.second = 0)) ∧
    (∀ k d, ReachFrom (builtTree options geometry)._kdNodes 0 k d → 0 < d → k ≠ 0) ∧
    (∀ start end_ : Vec3 α, ∃ vs,
      (builtTree options geometry).intersectVisits
        (builtTree options geometry)._kdNodes.length 0 start end_ = some vs ∧
      (∀ k ∈ vs, 0 ≤ k ∧ k < ((builtTree options geometry)._kdNodes.length : Int)) ∧
      vs.Nodup) ∧
    (∀ (normalize : Vec3 α → Vec3 α) (rd : RayData α) (start end_ : Vec3 α)
      (sink : List (LineSegmentIntersection α)),
      (KdTree.intersect normalize (builtTree options geometry) rd start end_ sink).isSome =
        true) := by
  obtain ⟨vertices, n0, hv, hn0, g0, perm, cov⟩ := built_query_facts options geometry h
  have r1 := cov.range_le
  refine ⟨?_, ?_, ?_, ?_⟩
  · intro k n hk hint
    have hlen := getElem?_lt_length _ _ _ hk
    obtain ⟨lo2, hi2, a2, b2, lvl2, c, -, -, -⟩ := cov.sub k (by omega)
    exact c.children n hk hint
  · intro k d hr hd
    rcases Covers.reach_footprint hr cov with ⟨-, x⟩ | ⟨x, -, -⟩ <;> omega
  · intro start end_
    obtain ⟨vs, e, m, nd⟩ := intersectVisits_spec (builtTree options geometry) _ _ vertices cov
      (builtTree options geometry)._kdNodes.length (by omega) start end_
    refine ⟨vs, by simpa using e, ?_, nd⟩
    intro k hk
    have := m k hk
    omega
  · intro normalize rd start end_ sink
    obtain ⟨vertices2, new, -, -, e, -⟩ :=
      intersect_built_spec normalize options geometry h start end_ rd sink
    rw [e]; rfl

/-- Witness of C22: the cube, built with the default options, has eleven nodes; the query
with a segment along the x axis through the cube enters every one of them once. -/
theorem build_children_and_query_recursion_witness :
    buildReturns BuildOptions.default cubeMesh = true ∧
      (builtTree BuildOptions.default cubeMesh)._kdNodes.map (fun n => (n.first, n.second)) =
        [(1, 2), (3, 4), (-11, 2), (5, 6), (-9, 2), (7, 8), (-7, 2), (-1, 2), (9, 10), (-3, 2),
          (-5, 2)] ∧
      (builtTree BuildOptions.default cubeMesh).intersectVisits 11 0 ⟨-1, 1 / 2, 1 / 2⟩
        ⟨2, 1 / 2, 1 / 2⟩ = some [0, 1, 3, 5, 7, 8, 9, 10, 6, 4, 2] ∧
      (∀ k d, ReachFrom (builtTree BuildOptions.default cubeMesh)._kdNodes 0 k d → 0 < d →
        k ≠ 0) :=
  ⟨by decide!, by decide!, by decide!,
    (build_children_and_query_recursion BuildOptions.default cubeMesh (by decide!)).2.1⟩

end QueryClaims

end osg
